import Mathlib

/-!
# Quill runtime: size-classed slab allocator and reference counting

A shallow embedding of `src-c/alloc.c` and of the reference-counting inline
functions of `src-c/include/quill.h`.

Memory is modelled at the granularity the C code uses it:

* a slab header is addressed by a `SlabPtr`: either slot `i` of the region
  with number `region` (the C address `region->data + i * slab_size`), or a
  block obtained from the system heap;
* the payload pointer `slab->data` handed to callers and the slab header
  pointer differ by the constant `offsetof(quill_slab_t, data)`, so both are
  represented by the same `SlabPtr`;
* free lists are intrusive: they live in the `next` fields of the slab
  headers stored in the heap, exactly as in the C code;
* `slab_size` only serves to compute slot addresses in the C code, so it has
  no counterpart beyond `SlabPtr.slot`;
* the mutex of a global pool is not represented: a function that holds it
  from its first to its last access of the pool is one step;
* the thread that runs a function is an explicit argument `t`, and its
  thread-local array `classes` is `State.classes t`;
* `size_t` and `uint64_t` values are natural numbers reduced modulo `2^64`
  where the C code can wrap;
* the OS is an oracle: `State.os` lists its answers to the coming requests
  for memory.
-/

namespace Quill

set_option maxRecDepth 100000

/-! ## Constants -/

/-- Number of size classes: `#define CLASS_COUNT 6`. -/
def CLASS_COUNT : Nat := 6

/-- Largest slab payload: `#define MAX_SLAB_SIZE 256`. -/
def MAX_SLAB_SIZE : Nat := 256

/-- Slots per region: `#define REGION_SLAB_COUNT 8192`. -/
def REGION_SLAB_COUNT : Nat := 8192

/-- Batch size of a pull: `#define G_UNUSED_BATCH_SIZE 16`. -/
def G_UNUSED_BATCH_SIZE : Nat := 16

/-- Tag of a system-heap block: `#define NO_CLASS -1`. -/
def NO_CLASS : Int := -1

/-- Number of values of `size_t` / `uint64_t` on the 64-bit targets. -/
def WORD : Nat := 2 ^ 64

/-- Value of `sizeof(quill_alloc_t)`: the atomic count and the destructor pointer. -/
def SIZEOF_QUILL_ALLOC : Nat := 16

/-- Conversion of an `int64_t` to `size_t` (`size_t class_i = slab->class_i`). -/
def to_size_t (v : Int) : Nat := (v % (WORD : Int)).toNat

/-! ## Data model -/

/-- Address of a slab header (equivalently of its payload). -/
inductive SlabPtr where
  | slot (region : Nat) (i : Nat)
  | block (b : Nat)
  deriving DecidableEq, Repr

/-- The `struct quill_slab`: the class tag and the free-list link. -/
structure quill_slab where
  class_i : Int
  next : Option SlabPtr
  deriving DecidableEq, Repr

/-- The `struct quill_region`: the bump cursor (the slots are `SlabPtr.slot`). -/
structure quill_region where
  next_i : Nat
  deriving DecidableEq, Repr

/-- The `struct quill_class`: thread-local state of one size class. -/
structure quill_class where
  slab_content_size : Nat
  next : Option Nat
  unused_next : Option SlabPtr
  deriving DecidableEq, Repr

/-- The `struct quill_class_unused`: global pool of one size class.  The lock is
not represented: an operation that runs under it is one atomic step. -/
structure quill_class_unused where
  count : Nat
  next : Option SlabPtr
  deriving DecidableEq, Repr

/-- The `struct quill_alloc`: the header `quill_malloc` writes at the start of the
payload (the destructor is a function pointer, represented by a number). -/
structure quill_alloc_t where
  rc : Nat
  destructor : Option Nat
  deriving DecidableEq, Repr

/-- The initial value of the thread-local array `classes`. -/
def classes_init (class_i : Nat) : quill_class :=
  match class_i with
  | 0 => { slab_content_size := 8, next := none, unused_next := none }
  | 1 => { slab_content_size := 16, next := none, unused_next := none }
  | 2 => { slab_content_size := 32, next := none, unused_next := none }
  | 3 => { slab_content_size := 64, next := none, unused_next := none }
  | 4 => { slab_content_size := 128, next := none, unused_next := none }
  | _ => { slab_content_size := MAX_SLAB_SIZE, next := none, unused_next := none }

/-- The whole allocator state: the thread-local arrays `classes` of every
thread, the global array `global_unused`, and the memory the allocator
touches.  `os` lists the answers the operating system will give to the next
requests for memory (`true`: granted); a request made when the list is empty
is refused. -/
@[ext]
structure State where
  /-- Thread-local arrays: `classes[class_i]` of thread `t` is `classes t class_i`. -/
  classes : Nat → Nat → quill_class
  global_unused : Nat → quill_class_unused
  /-- The region headers, by region number. -/
  region : Nat → quill_region
  /-- The slab headers. -/
  slab : SlabPtr → quill_slab
  /-- The first bytes of every payload, read as a `quill_alloc_t`. -/
  alloc : SlabPtr → quill_alloc_t
  /-- Number of regions obtained from the OS so far. -/
  regions : Nat
  /-- Number of blocks obtained from the system heap so far. -/
  blocks : Nat
  /-- The system-heap blocks that are live. -/
  live : List Nat
  os : List Bool

/-- What ends a call abnormally: `quill_panic` (the process exits), or
behaviour the C standard leaves undefined (a null dereference, an index
outside `classes`, `free` of a pointer that `malloc` did not return). -/
inductive Fault where
  | panic
  | undefined
  deriving DecidableEq, Repr

/-- The table `size_class_of[MAX_SLAB_SIZE + 1]`, row by row as in the source. -/
def size_class_of_table : List Nat :=
  -- 0
  [0] ++
  -- 1..8
  [0, 0, 0, 0, 0, 0, 0, 0] ++
  -- 9..16
  [1, 1, 1, 1, 1, 1, 1, 1] ++
  -- 17..32
  [2, 2, 2, 2, 2, 2, 2, 2, 2, 2, 2, 2, 2, 2, 2, 2] ++
  -- 33..64
  [3, 3, 3, 3, 3, 3, 3, 3, 3, 3, 3, 3, 3, 3, 3, 3] ++
  [3, 3, 3, 3, 3, 3, 3, 3, 3, 3, 3, 3, 3, 3, 3, 3] ++
  -- 65..128
  [4, 4, 4, 4, 4, 4, 4, 4, 4, 4, 4, 4, 4, 4, 4, 4] ++
  [4, 4, 4, 4, 4, 4, 4, 4, 4, 4, 4, 4, 4, 4, 4, 4] ++
  [4, 4, 4, 4, 4, 4, 4, 4, 4, 4, 4, 4, 4, 4, 4, 4] ++
  [4, 4, 4, 4, 4, 4, 4, 4, 4, 4, 4, 4, 4, 4, 4, 4] ++
  -- 129..256
  [5, 5, 5, 5, 5, 5, 5, 5, 5, 5, 5, 5, 5, 5, 5, 5] ++
  [5, 5, 5, 5, 5, 5, 5, 5, 5, 5, 5, 5, 5, 5, 5, 5] ++
  [5, 5, 5, 5, 5, 5, 5, 5, 5, 5, 5, 5, 5, 5, 5, 5] ++
  [5, 5, 5, 5, 5, 5, 5, 5, 5, 5, 5, 5, 5, 5, 5, 5] ++
  [5, 5, 5, 5, 5, 5, 5, 5, 5, 5, 5, 5, 5, 5, 5, 5] ++
  [5, 5, 5, 5, 5, 5, 5, 5, 5, 5, 5, 5, 5, 5, 5, 5] ++
  [5, 5, 5, 5, 5, 5, 5, 5, 5, 5, 5, 5, 5, 5, 5, 5] ++
  [5, 5, 5, 5, 5, 5, 5, 5, 5, 5, 5, 5, 5, 5, 5, 5]

/-- Lookup `size_class_of[n]`; `none` when `n` is outside the table. -/
def size_class_of (n : Nat) : Option Nat := size_class_of_table.get? n

/-! ## State updates -/

/-- Write `classes[class_i]` of thread `t`. -/
def State.setClass (s : State) (t class_i : Nat) (c : quill_class) : State :=
  { s with classes := fun t' i => if t' = t ∧ i = class_i then c else s.classes t' i }

/-- Write `global_unused[class_i]`. -/
def State.setGlobal (s : State) (class_i : Nat) (g : quill_class_unused) : State :=
  { s with global_unused := fun i => if i = class_i then g else s.global_unused i }

/-- Write `p->next`. -/
def State.setNext (s : State) (p : SlabPtr) (v : Option SlabPtr) : State :=
  { s with slab := fun q => if q = p then { s.slab p with next := v } else s.slab q }

/-- Write `p->class_i`. -/
def State.setTag (s : State) (p : SlabPtr) (v : Int) : State :=
  { s with slab := fun q => if q = p then { s.slab p with class_i := v } else s.slab q }

/-- Write `region->next_i`. -/
def State.setNextI (s : State) (r : Nat) (v : Nat) : State :=
  { s with region := fun r' => if r' = r then { next_i := v } else s.region r' }

/-- Write the `quill_alloc_t` header at `p`. -/
def State.setAlloc (s : State) (p : SlabPtr) (a : quill_alloc_t) : State :=
  { s with alloc := fun q => if q = p then a else s.alloc q }

/-- Assignment `c->unused_next = v` for `c = &classes[class_i]` of thread `t`. -/
def State.setUnusedNext (s : State) (t class_i : Nat) (v : Option SlabPtr) : State :=
  s.setClass t class_i { s.classes t class_i with unused_next := v }

/-- Assignment `c->next = v` for `c = &classes[class_i]` of thread `t`. -/
def State.setRegion (s : State) (t class_i : Nat) (v : Option Nat) : State :=
  s.setClass t class_i { s.classes t class_i with next := v }

/-! ## The allocator (`alloc.c`) -/

/-- Function `quill_alloc_init_global`: every global pool gets count 0 and an empty
list.  The state before it is that of a fresh process: no region, no block,
all thread-local arrays at their static initialiser. -/
def quill_alloc_init_global (s : State) : State :=
  { s with global_unused := fun i =>
      if i < CLASS_COUNT then { count := 0, next := none } else s.global_unused i }

/-- Function `quill_alloc_init_thread`: no setup needed. -/
def quill_alloc_init_thread (s : State) : State := s

/-- The state of a fresh process whose OS will answer `os`. -/
def State.fresh (os : List Bool) : State :=
  { classes := fun _ i => classes_init i
    global_unused := fun _ => { count := 0, next := none }
    region := fun _ => { next_i := 0 }
    slab := fun _ => { class_i := 0, next := none }
    alloc := fun _ => { rc := 0, destructor := none }
    regions := 0
    blocks := 0
    live := []
    os := os }

/-- The region source `REGION_ALLOC` (`mmap_alloc`): the OS either refuses
(`NULL`) or hands out a new region, whose memory is zero-filled. -/
def REGION_ALLOC (s : State) : Option Nat × State :=
  match s.os with
  | true :: os =>
    let r := s.regions
    (some r,
     { s with
       os := os
       regions := r + 1
       region := fun r' => if r' = r then { next_i := 0 } else s.region r'
       slab := fun q =>
         match q with
         | .slot r' _ => if r' = r then { class_i := 0, next := none } else s.slab q
         | .block _ => s.slab q
       alloc := fun q =>
         match q with
         | .slot r' _ => if r' = r then { rc := 0, destructor := none } else s.alloc q
         | .block _ => s.alloc q })
  | _ :: os => (none, { s with os := os })
  | [] => (none, s)

/-- The system heap `malloc`: the OS either refuses (`NULL`) or hands out a
new block, whose contents are whatever the memory held.  The size of the
block is not represented. -/
def malloc (s : State) : Option Nat × State :=
  match s.os with
  | true :: os =>
    (some s.blocks, { s with os := os, blocks := s.blocks + 1, live := s.blocks :: s.live })
  | _ :: os => (none, { s with os := os })
  | [] => (none, s)

/-- The loop of `fetch_global_unused`: `k` iterations are left of the
`G_UNUSED_BATCH_SIZE`, `fetched_c` slabs have been moved. -/
def fetch_loop (t class_i : Nat) : Nat → Nat → State → Nat × State
  | 0, fetched_c, s => (fetched_c, s)
  | k + 1, fetched_c, s =>
    match (s.global_unused class_i).next with
    | none => (fetched_c, s)
    | some popped =>
      -- g_unused->next = popped->next;
      let s1 := s.setGlobal class_i { s.global_unused class_i with next := (s.slab popped).next }
      -- popped->next = c->unused_next;
      let s2 := s1.setNext popped (s1.classes t class_i).unused_next
      -- c->unused_next = popped;
      let s3 := s2.setUnusedNext t class_i (some popped)
      fetch_loop t class_i k (fetched_c + 1) s3

/-- Function `fetch_global_unused(&classes[class_i], &global_unused[class_i])`
run by thread `t` (the spec's `pull_batch`). -/
def fetch_global_unused (t class_i : Nat) (s : State) : State :=
  let r := fetch_loop t class_i G_UNUSED_BATCH_SIZE 0 s
  -- atomic_fetch_sub(&g_unused->count, fetched_c);
  r.2.setGlobal class_i
    { r.2.global_unused class_i with
      count := ((r.2.global_unused class_i).count + WORD - r.1) % WORD }

/-- The tail of `allocate_slab`: take slot `region->next_i` of region `r`,
advance the cursor and tag the slab. -/
def bump_slab (class_i r : Nat) (s : State) : SlabPtr × State :=
  let slab_i := (s.region r).next_i
  let slab := SlabPtr.slot r slab_i
  (slab, (s.setNextI r ((slab_i + 1) % WORD)).setTag slab (class_i : Int))

/-- Function `allocate_slab(class_i, &classes[class_i])` run by thread `t`. -/
def allocate_slab (t class_i : Nat) (s : State) : Except Fault (SlabPtr × State) :=
  let usable : Option Nat :=
    match (s.classes t class_i).next with
    | none => none
    | some r => if (s.region r).next_i = REGION_SLAB_COUNT then none else some r
  match usable with
  | some r => .ok (bump_slab class_i r s)
  | none =>
    match REGION_ALLOC s with
    | (none, _) => .error .panic
    | (some r, s1) =>
      .ok (bump_slab class_i r ((s1.setNextI r 0).setRegion t class_i (some r)))

/-- Function `quill_alloc_alloc(n)` run by thread `t`.  The result is never
the null pointer: it is `slab->data` for a slab header `slab`. -/
def quill_alloc_alloc (t n : Nat) (s : State) : Except Fault (SlabPtr × State) :=
  if n > MAX_SLAB_SIZE then
    match malloc s with
    | (none, _) => .error .undefined
    | (some b, s1) => .ok (.block b, s1.setTag (.block b) NO_CLASS)
  else
    match size_class_of n with
    | none => .error .undefined -- not reached: the table covers 0..MAX_SLAB_SIZE
    | some class_i =>
      match (s.classes t class_i).unused_next with
      | some next => .ok (next, s.setUnusedNext t class_i (s.slab next).next)
      | none =>
        if (s.global_unused class_i).count ≥ G_UNUSED_BATCH_SIZE then
          let s1 := fetch_global_unused t class_i s
          match (s1.classes t class_i).unused_next with
          | some next => .ok (next, s1.setUnusedNext t class_i (s1.slab next).next)
          | none => allocate_slab t class_i s1
        else
          allocate_slab t class_i s

/-- Function `quill_alloc_free(alloc)` run by thread `t`. -/
def quill_alloc_free (t : Nat) (alloc : SlabPtr) (s : State) : Except Fault State :=
  let class_i := to_size_t (s.slab alloc).class_i
  if class_i = to_size_t NO_CLASS then
    match alloc with
    | .block b => if b ∈ s.live then .ok { s with live := s.live.erase b } else .error .undefined
    | .slot _ _ => .error .undefined
  else if class_i < CLASS_COUNT then
    .ok ((s.setNext alloc (s.classes t class_i).unused_next).setUnusedNext t class_i (some alloc))
  else
    .error .undefined

/-- The first loop of `quill_alloc_destruct_thread` for one class: move the
thread-local free list to the global list.  The C loop runs until the list
ends; `fuel` bounds the iterations, and `none` means it did not end. -/
def drain_local (t class_i : Nat) : Nat → Nat → State → Option (Nat × State)
  | 0, _, _ => none
  | fuel + 1, added_c, s =>
    match (s.classes t class_i).unused_next with
    | none => some (added_c, s)
    | some transferred =>
      -- c->unused_next = transferred->next;
      let s1 := s.setUnusedNext t class_i (s.slab transferred).next
      -- transferred->next = g_unused->next;
      let s2 := s1.setNext transferred (s1.global_unused class_i).next
      -- g_unused->next = transferred;
      let s3 := s2.setGlobal class_i { s2.global_unused class_i with next := some transferred }
      drain_local t class_i fuel ((added_c + 1) % WORD) s3

/-- The second loop of `quill_alloc_destruct_thread` for one class: push the
slots `slab_i .. REGION_SLAB_COUNT - 1` of region `r`; `k` is the number of
iterations left, `REGION_SLAB_COUNT - slab_i`. -/
def drain_region (class_i r : Nat) : Nat → Nat → Nat → State → Nat × State
  | 0, _, added_c, s => (added_c, s)
  | k + 1, slab_i, added_c, s =>
    let added := SlabPtr.slot r slab_i
    -- added->next = g_unused->next;
    let s1 := s.setNext added (s.global_unused class_i).next
    -- g_unused->next = added;
    let s2 := s1.setGlobal class_i { s1.global_unused class_i with next := some added }
    drain_region class_i r k (slab_i + 1) ((added_c + 1) % WORD) s2

/-- The body of the class loop of `quill_alloc_destruct_thread`. -/
def destruct_class (t class_i fuel : Nat) (s : State) : Option State :=
  match drain_local t class_i fuel 0 s with
  | none => none
  | some (added_c, s1) =>
    let r2 : Nat × State :=
      match (s1.classes t class_i).next with
      | none => (added_c, s1)
      | some r =>
        drain_region class_i r (REGION_SLAB_COUNT - (s1.region r).next_i)
          (s1.region r).next_i added_c s1
    -- atomic_fetch_add(&g_unused->count, added_c);
    some (r2.2.setGlobal class_i
      { r2.2.global_unused class_i with
        count := ((r2.2.global_unused class_i).count + r2.1) % WORD })

/-- The class loop of `quill_alloc_destruct_thread`: `k` classes are left,
starting at `class_i`. -/
def destruct_classes (t fuel : Nat) : Nat → Nat → State → Option State
  | 0, _, s => some s
  | k + 1, class_i, s =>
    match destruct_class t class_i fuel s with
    | none => none
    | some s1 => destruct_classes t fuel k (class_i + 1) s1

/-- Function `quill_alloc_destruct_thread()` run by thread `t`. -/
def quill_alloc_destruct_thread (t fuel : Nat) (s : State) : Option State :=
  destruct_classes t fuel CLASS_COUNT 0 s

/-! ## Reference counting (`quill.h`) -/

/-- Function `quill_malloc(n, destructor)` run by thread `t`; `none` is the
null reference.  The test `alloc == NULL` of the source never fires, because
`quill_alloc_alloc` returns `slab->data`. -/
def quill_malloc (t n : Nat) (destructor : Option Nat) (s : State) :
    Except Fault (Option SlabPtr × State) :=
  if n = 0 then .ok (none, s)
  else
    match quill_alloc_alloc t ((SIZEOF_QUILL_ALLOC + n) % WORD) s with
    | .error e => .error e
    | .ok (alloc, s1) => .ok (some alloc, s1.setAlloc alloc { rc := 1, destructor := destructor })

/-- Function `quill_rc_add(alloc)`; `none` is the null reference. -/
def quill_rc_add (alloc : Option SlabPtr) (s : State) : State :=
  match alloc with
  | none => s
  | some p => s.setAlloc p { s.alloc p with rc := ((s.alloc p).rc + 1) % WORD }

/-- Function `quill_rc_dec(alloc)` run by thread `t`.  `D d p` is what the
destructor with number `d` does to the state when called on `p` (code outside
this unit).  The second component lists the destructor calls made. -/
def quill_rc_dec (D : Nat → SlabPtr → State → Except Fault State) (t : Nat)
    (alloc : Option SlabPtr) (s : State) : Except Fault State × List (Nat × SlabPtr) :=
  match alloc with
  | none => (.ok s, [])
  | some p =>
    let old := (s.alloc p).rc
    let s1 := s.setAlloc p { s.alloc p with rc := (old + WORD - 1) % WORD }
    if old ≠ 1 then (.ok s1, [])
    else
      match (s1.alloc p).destructor with
      | none => (quill_alloc_free t p s1, [])
      | some d =>
        (match D d p s1 with
         | .error e => .error e
         | .ok s2 => quill_alloc_free t p s2,
         [(d, p)])

/-! ## Sequences of calls -/

/-- Call `quill_rc_add(alloc)` `k` times in a row. -/
def rc_add_n (alloc : Option SlabPtr) : Nat → State → State
  | 0, s => s
  | k + 1, s => rc_add_n alloc k (quill_rc_add alloc s)

/-- Call `quill_rc_dec(alloc)` `j` times in a row on thread `t` (stopping at a
fault); the second component lists the destructor calls of all of them. -/
def rc_dec_n (D : Nat → SlabPtr → State → Except Fault State) (t : Nat)
    (alloc : Option SlabPtr) : Nat → State → Except Fault State × List (Nat × SlabPtr)
  | 0, s => (.ok s, [])
  | j + 1, s =>
    match quill_rc_dec D t alloc s with
    | (.error e, calls) => (.error e, calls)
    | (.ok s1, calls) => ((rc_dec_n D t alloc j s1).1, calls ++ (rc_dec_n D t alloc j s1).2)


/-! ## Free lists in memory -/

/-- The intrusive list that starts at `hd` (following the `next` fields of the
slab headers `slab`) consists of exactly the slabs `l`, in this order, and
ends with the null pointer. -/
def Chain (slab : SlabPtr → quill_slab) : Option SlabPtr → List SlabPtr → Prop
  | hd, [] => hd = none
  | hd, p :: l => hd = some p ∧ Chain slab (slab p).next l

/-- Whether a given list is the one in memory can be computed. -/
instance Chain.decide (slab : SlabPtr → quill_slab) :
    (hd : Option SlabPtr) → (l : List SlabPtr) → Decidable (Chain slab hd l)
  | hd, [] => inferInstanceAs (Decidable (hd = none))
  | hd, p :: l =>
    have := Chain.decide slab (slab p).next l
    inferInstanceAs (Decidable (hd = some p ∧ Chain slab (slab p).next l))

/-- What the list manipulations of the allocator leave alone between `s` and
`s'`: everything but the `next` fields of the slabs in `T`, the list heads
`unused_next` of the threads and the global pools. -/
structure Frame (T : List SlabPtr) (s s' : State) : Prop where
  region : s'.region = s.region
  alloc : s'.alloc = s.alloc
  regions : s'.regions = s.regions
  blocks : s'.blocks = s.blocks
  live : s'.live = s.live
  os : s'.os = s.os
  tag : ∀ q, (s'.slab q).class_i = (s.slab q).class_i
  cnext : ∀ t i, (s'.classes t i).next = (s.classes t i).next
  csize : ∀ t i, (s'.classes t i).slab_content_size = (s.classes t i).slab_content_size
  slab_eq : ∀ q, q ∉ T → s'.slab q = s.slab q

/-- The slots `i, i + 1, ..., i + k - 1` of region `r`. -/
def region_slots (r i k : Nat) : List SlabPtr :=
  (List.range' i k).map (SlabPtr.slot r)

/-- The slots of the current region of class `class_i` of thread `t` that the
bump allocator has not handed out: `next_i .. REGION_SLAB_COUNT - 1`, and
none when the class has no region. -/
def unused_slots (s : State) (t class_i : Nat) : List SlabPtr :=
  match (s.classes t class_i).next with
  | none => []
  | some r => region_slots r (s.region r).next_i (REGION_SLAB_COUNT - (s.region r).next_i)

/-! ## Example states -/

/-- A state in which thread 0 has, for class 0, region 0 with cursor 8190
and the free list `[slot 0 3, slot 0 7]`, thread 1 has region 1 with cursor 2
and the free list `[slot 1 0]`, and the global pools are as
`quill_alloc_init_global` leaves them. -/
def teardown_example : State :=
  { classes := fun t i =>
      if t = 0 ∧ i = 0 then
        { slab_content_size := 8, next := some 0, unused_next := some (.slot 0 3) }
      else if t = 1 ∧ i = 0 then
        { slab_content_size := 8, next := some 1, unused_next := some (.slot 1 0) }
      else classes_init i
    global_unused := fun _ => { count := 0, next := none }
    region := fun r =>
      if r = 0 then { next_i := 8190 } else if r = 1 then { next_i := 2 } else { next_i := 0 }
    slab := fun q =>
      if q = .slot 0 3 then { class_i := 0, next := some (.slot 0 7) }
      else { class_i := 0, next := none }
    alloc := fun _ => { rc := 0, destructor := none }
    regions := 2
    blocks := 0
    live := []
    os := [] }

/-- A state in which the global pool of class 0 holds the three slabs
`[slot 0 8191, slot 0 8190, slot 0 3]` with count 3, and thread 1 has the
free list `[slot 1 0]` for class 0. -/
def pool_example : State :=
  { classes := fun t i =>
      if t = 1 ∧ i = 0 then
        { slab_content_size := 8, next := some 1, unused_next := some (.slot 1 0) }
      else classes_init i
    global_unused := fun i =>
      if i = 0 then { count := 3, next := some (.slot 0 8191) } else { count := 0, next := none }
    region := fun r =>
      if r = 0 then { next_i := 8190 } else if r = 1 then { next_i := 2 } else { next_i := 0 }
    slab := fun q =>
      if q = .slot 0 8191 then { class_i := 0, next := some (.slot 0 8190) }
      else if q = .slot 0 8190 then { class_i := 0, next := some (.slot 0 3) }
      else { class_i := 0, next := none }
    alloc := fun _ => { rc := 0, destructor := none }
    regions := 2
    blocks := 0
    live := []
    os := [] }

/-- The global free list of class 0 in `pool_example`. -/
def pool_example_global : List SlabPtr := [.slot 0 8191, .slot 0 8190, .slot 0 3]

/-- The free list of class 0 of thread 1 in `pool_example` and in
`teardown_example`. -/
def example_local_1 : List SlabPtr := [.slot 1 0]

/-- The free lists of thread 0 in `teardown_example`, by class. -/
def teardown_example_local (i : Nat) : List SlabPtr :=
  if i = 0 then [.slot 0 3, .slot 0 7] else []

/-- The global free lists in `teardown_example`, by class: all empty. -/
def teardown_example_global (_ : Nat) : List SlabPtr := []

/-- The state after `quill_malloc(8, d)` with destructor number 1 on thread 0
of a fresh process whose OS grants one request; the allocation is
`slot 0 0`. -/
def malloc_example_state : State :=
  match quill_malloc 0 8 (some 1) (State.fresh [true]) with
  | .ok (_, s) => s
  | .error _ => State.fresh []

/-- Destructors that leave the allocator state alone, as
`quill_captured_noop_free` does. -/
def noop_destructors : Nat → SlabPtr → State → Except Fault State :=
  fun _ _ s => .ok s

/-- Call `quill_alloc_alloc` on thread `t` once for every size of the list, in
order (stopping at a fault); the pointers returned are listed in order. -/
def alloc_seq (t : Nat) : List Nat → State → Except Fault (List SlabPtr × State)
  | [], s => .ok ([], s)
  | n :: ns, s =>
    match quill_alloc_alloc t n s with
    | .error e => .error e
    | .ok (p, s1) =>
      match alloc_seq t ns s1 with
      | .error e => .error e
      | .ok (ps, s2) => .ok (p :: ps, s2)

/-- Run `k` rounds of `p = quill_alloc_alloc(n); quill_alloc_free(p)` on
thread `t`; `none` when a call faults. -/
def churn (t n : Nat) : Nat → State → Option State
  | 0, s => some s
  | k + 1, s =>
    match quill_alloc_alloc t n s with
    | .error _ => none
    | .ok (p, s1) =>
      match quill_alloc_free t p s1 with
      | .error _ => none
      | .ok s2 => churn t n k s2

/-- Call `quill_alloc_alloc(n)` on thread `t` `k` times in a row, keeping
every allocation live; `none` when a call faults. -/
def alloc_times (t n : Nat) : Nat → State → Option State
  | 0, s => some s
  | k + 1, s =>
    match quill_alloc_alloc t n s with
    | .error _ => none
    | .ok (_, s1) => alloc_times t n k s1

/-! ## Scenarios -/

/-- Thread 0 is torn down in state `s1`; thread 1 then allocates 200 bytes
(`p`), frees `p`, and allocates 200 bytes again (`q`).  The result is `p`, the
tag in the header of `p` when it is handed out, and `q`. -/
def reuse_after_handover (s1 : State) : Option (SlabPtr × Int × SlabPtr) :=
  match quill_alloc_destruct_thread 0 1 s1 with
  | none => none
  | some s2 =>
    match quill_alloc_alloc 1 200 s2 with
    | .error _ => none
    | .ok (p, s3) =>
      match quill_alloc_free 1 p s3 with
      | .error _ => none
      | .ok s4 =>
        match quill_alloc_alloc 1 200 s4 with
        | .error _ => none
        | .ok (q, _) => some (p, (s3.slab p).class_i, q)

/-- Thread 0 is torn down in state `s1`; thread 1 then runs rounds of
`p = quill_alloc_alloc(200); quill_alloc_free(p)`.  The result is the region
of class 5 of thread 1 right after its first allocation, and its region and
cursor after `rounds` rounds. -/
def cursor_after_rounds (s1 : State) (rounds : Nat) :
    Option (Option Nat × Option Nat × Nat) :=
  match quill_alloc_destruct_thread 0 1 s1 with
  | none => none
  | some s2 =>
    match quill_alloc_alloc 1 200 s2 with
    | .error _ => none
    | .ok (_, s3) =>
      match churn 1 200 rounds s2 with
      | none => none
      | some s4 =>
        some ((s3.classes 1 5).next, (s4.classes 1 5).next,
          match (s4.classes 1 5).next with
          | none => 0
          | some r => (s4.region r).next_i)

/-- The state of a process in which thread 0 has made `k ≥ 1` allocations of
200 bytes (class 5) and nothing else has happened, the OS having one more
grant to give: region 0 belongs to class 5 of thread 0, its cursor is `k`, and
the slots below `k` carry the tag 5. -/
def filled (k : Nat) : State :=
  { classes := fun t i =>
      if t = 0 ∧ i = 5 then
        { slab_content_size := MAX_SLAB_SIZE, next := some 0, unused_next := none }
      else classes_init i
    global_unused := fun _ => { count := 0, next := none }
    region := fun r => if r = 0 then { next_i := k } else { next_i := 0 }
    slab := fun q =>
      match q with
      | .slot r j =>
        if r = 0 ∧ j < k then { class_i := 5, next := none } else { class_i := 0, next := none }
      | .block _ => { class_i := 0, next := none }
    alloc := fun _ => { rc := 0, destructor := none }
    regions := 1
    blocks := 0
    live := []
    os := [true] }

/-! ## The region source: page rounding -/

/-- The size `mmap_alloc` and `mmap_free` pass to the OS for a request of
`size` bytes on a platform with page size `pagesize`:
`(size + pagesize - 1) & ~(pagesize - 1)`, computed in `size_t`. -/
def aligned_size (size pagesize : Nat) : Nat :=
  (((size + pagesize) % WORD + WORD - 1) % WORD) &&&
    (WORD - 1 - (pagesize + WORD - 1) % WORD)

/-! ## Further example states -/

/-- The state `pool_example` with a stale global count of class 0: the count
reads 20 while the list holds three slabs. -/
def stale_example : State :=
  { pool_example with
    global_unused := fun i =>
      if i = 0 then { count := 20, next := some (.slot 0 8191) }
      else { count := 0, next := none } }

/-! ## Further scenarios -/

/-- Thread 0 is torn down in state `s1`; thread 1 then allocates 200 bytes
(`p`) and frees `p`.  The result is: the head of the global free list of
class 5 after the teardown and the tag in its header; `p` and the tag in its
header when it is handed out; the head of the free list of class 0 of
thread 1 after the free. -/
def tags_after_handover (s1 : State) :
    Option (SlabPtr × Int × SlabPtr × Int × Option SlabPtr) :=
  match quill_alloc_destruct_thread 0 1 s1 with
  | none => none
  | some s2 =>
    match (s2.global_unused 5).next with
    | none => none
    | some g =>
      match quill_alloc_alloc 1 200 s2 with
      | .error _ => none
      | .ok (p, s3) =>
        match quill_alloc_free 1 p s3 with
        | .error _ => none
        | .ok s4 =>
          some (g, (s2.slab g).class_i, p, (s3.slab p).class_i, (s4.classes 1 0).unused_next)

/-! ## Reachable states -/

/-- The states a process can reach from `quill_alloc_init_global` through
calls of `quill_alloc_alloc`, `quill_alloc_free`, `fetch_global_unused` (the
spec's `pull_batch`) and `quill_alloc_destruct_thread` that return, made by
any threads with any arguments, each call being one step. -/
inductive Reachable : State → Prop
  | init (os : List Bool) : Reachable (quill_alloc_init_global (State.fresh os))
  | alloc {s s' : State} (t n : Nat) (p : SlabPtr) :
    Reachable s → quill_alloc_alloc t n s = .ok (p, s') → Reachable s'
  | free {s s' : State} (t : Nat) (p : SlabPtr) :
    Reachable s → quill_alloc_free t p s = .ok s' → Reachable s'
  | pull {s : State} (t c : Nat) :
    Reachable s → c < CLASS_COUNT → Reachable (fetch_global_unused t c s)
  | destruct {s s' : State} (t fuel : Nat) :
    Reachable s → quill_alloc_destruct_thread t fuel s = some s' → Reachable s'

/-- The cursor of every current region is at most `REGION_SLAB_COUNT`. -/
def CursorInv (s : State) : Prop :=
  ∀ t c r, (s.classes t c).next = some r → (s.region r).next_i ≤ REGION_SLAB_COUNT

/-- Thread 0 is torn down in state `s1` and then goes on using the
allocator: it allocates 200 bytes twice (`a`, then `b`) and frees `b`.  The
result is `a`, `b` and the final state; `none` when a call faults. -/
def alloc_after_teardown (s1 : State) : Option (SlabPtr × SlabPtr × State) :=
  match quill_alloc_destruct_thread 0 1 s1 with
  | none => none
  | some s2 =>
    match quill_alloc_alloc 0 200 s2 with
    | .error _ => none
    | .ok (a, s3) =>
      match quill_alloc_alloc 0 200 s3 with
      | .error _ => none
      | .ok (b, s4) =>
        match quill_alloc_free 0 b s4 with
        | .error _ => none
        | .ok s5 => some (a, b, s5)

/-- Thread 0 is torn down twice in a row in state `s1`. -/
def teardown_twice (s1 : State) : Option State :=
  match quill_alloc_destruct_thread 0 1 s1 with
  | none => none
  | some s2 => quill_alloc_destruct_thread 0 1 s2

/-! ## Concurrent releases

Calls of `quill_rc_dec` on one allocation, run by any threads.  Every call
is cut at its atomic operation: the `atomic_fetch_sub_explicit` is one step,
the destructor call and the call of `quill_alloc_free` are one step each.  The
read-modify-write operations on one atomic object are totally ordered, so each
`atomic_fetch_sub_explicit` returns the value its predecessor in that order
left; the memory orders and the fence are not represented. -/

/-- Where a call of `quill_rc_dec(alloc)` on a non-null `alloc` stands:
before its `atomic_fetch_sub_explicit`; after that returned 1, before the
destructor is read and called; before the call of `quill_alloc_free`; after
its return. -/
inductive rc_dec_pc
  | fetch_sub
  | destruct
  | free
  | returned
  deriving DecidableEq, Repr

/-- What a call of `quill_rc_dec` does to the outside: it calls the
destructor with number `d` on the allocation, or calls `quill_alloc_free` on
it.  Field `call` is the number of the call of `quill_rc_dec`. -/
inductive rc_event
  | destructor (call d : Nat)
  | free (call : Nat)
  deriving DecidableEq, Repr

/-- One allocation with the calls of `quill_rc_dec` in progress on it:
the header `alloc`, the place `pcs[i]` where call `i` stands, the values
`observed` that the `atomic_fetch_sub_explicit` of the calls returned
(call, value), and the `events` so far, both in the order they happened. -/
structure rc_dec_run where
  alloc : quill_alloc_t
  pcs : List rc_dec_pc
  observed : List (Nat × Nat)
  events : List rc_event

/-- Call `i` of `quill_rc_dec` takes its next step; nothing happens when it
has returned or does not exist. -/
def rc_dec_step (i : Nat) (r : rc_dec_run) : rc_dec_run :=
  match r.pcs[i]? with
  | none => r
  | some .fetch_sub =>
    -- if(atomic_fetch_sub_explicit(&alloc->rc, 1, memory_order_acq_rel) != 1) { return; }
    let old := r.alloc.rc
    { r with
      alloc := { r.alloc with rc := (old + WORD - 1) % WORD }
      observed := r.observed ++ [(i, old)]
      pcs := r.pcs.set i (if old ≠ 1 then .returned else .destruct) }
  | some .destruct =>
    -- destructor = alloc->destructor; if(destructor != NULL) { destructor(alloc); }
    { r with
      events := r.events ++
        (match r.alloc.destructor with
         | none => []
         | some d => [.destructor i d])
      pcs := r.pcs.set i .free }
  | some .free =>
    -- quill_alloc_free(alloc);
    { r with events := r.events ++ [.free i], pcs := r.pcs.set i .returned }
  | some .returned => r

/-- The calls take their steps in the order `sched` gives: an interleaving. -/
def rc_dec_schedule : List Nat → rc_dec_run → rc_dec_run
  | [], r => r
  | i :: sched, r => rc_dec_schedule sched (rc_dec_step i r)

/-- The start of `n` calls of `quill_rc_dec` on an allocation with header
`a`: no call has taken a step. -/
def rc_dec_begin (a : quill_alloc_t) (n : Nat) : rc_dec_run :=
  { alloc := a, pcs := List.replicate n .fetch_sub, observed := [], events := [] }

/-- The calls among `observed` whose `atomic_fetch_sub_explicit` returned 1. -/
def observed_one (r : rc_dec_run) : List (Nat × Nat) :=
  r.observed.filter (fun o => o.2 = 1)


/-- The destructor call of call `i`, when a destructor is registered. -/
def destructor_events (a : quill_alloc_t) (i : Nat) : List rc_event :=
  match a.destructor with
  | none => []
  | some d => [.destructor i d]

/-- The events of the call that finishes the allocation: the destructor call,
when a destructor is registered, and then the call of `quill_alloc_free`. -/
def release_events (a : quill_alloc_t) (i : Nat) : List rc_event :=
  destructor_events a i ++ [.free i]

/-- How far a call has come: the number of steps after which a call that
takes every step stands there, a call that returns early counting as done. -/
def rc_dec_pc.rank : rc_dec_pc → Nat
  | .fetch_sub => 0
  | .destruct => 1
  | .free => 2
  | .returned => 3

/-- What holds at every moment of `n` concurrent calls of `quill_rc_dec` on an
allocation whose header was `a` with count `n` at the start.  Either some
calls have not decremented yet: then the count is their number, the others
have returned, no call has observed 1 and nothing has been called.  Or all
have decremented: then exactly one call `i` has observed 1, all others have
returned, and `i` has made the calls up to the place where it stands. -/
def rc_dec_inv (a : quill_alloc_t) (n : Nat) (r : rc_dec_run) : Prop :=
  r.pcs.length = n ∧ r.alloc.destructor = a.destructor ∧
    ((r.alloc.rc = r.pcs.count .fetch_sub ∧ 1 ≤ r.pcs.count .fetch_sub ∧
        (∀ x ∈ r.pcs, x = .fetch_sub ∨ x = .returned) ∧
        observed_one r = [] ∧ r.events = []) ∨
      ∃ i, i < n ∧ (∀ k, k ≠ i → k < n → r.pcs[k]? = some .returned) ∧
        observed_one r = [(i, 1)] ∧
        ((r.pcs[i]? = some .destruct ∧ r.events = []) ∨
          (r.pcs[i]? = some .free ∧ r.events = destructor_events a i) ∨
          (r.pcs[i]? = some .returned ∧ r.events = release_events a i)))


/-! ## Runs that keep to the contract -/

/-- Who holds a slab: a caller (it was returned by `quill_alloc_alloc` and not
freed since), the free list of class `c` of thread `t`, or the global free
list of class `c`. -/
inductive Owner
  | live
  | loc (t c : Nat)
  | glob (c : Nat)
  deriving DecidableEq

/-- The states a process reaches from `quill_alloc_init_global` when the
callers keep to the contract: `Run s live dead` says that `s` is reached,
that `live` are the pointers `quill_alloc_alloc` returned that have not been
freed since, and that `dead` are the classes of threads (thread, class) that a
teardown has drained.  Every free is of a pointer of `live`, and a class that
was drained is neither allocated from nor drained again.  A step is a whole
call, or one of the parts of a call between which other threads can run:
`bump` is the slow path of `quill_alloc_alloc` (`allocate_slab`) on its own,
taken after a count that was read below 16 or after a pull that found
nothing, `pull` is `fetch_global_unused`, and `drain` is one round of the
class loop of `quill_alloc_destruct_thread`. -/
inductive Run : State → List SlabPtr → List (Nat × Nat) → Prop
  | init (os : List Bool) : Run (quill_alloc_init_global (State.fresh os)) [] []
  | alloc {s s' : State} {live : List SlabPtr} {dead : List (Nat × Nat)} (t n : Nat)
    (p : SlabPtr) :
    Run s live dead → (∀ c, size_class_of n = some c → (t, c) ∉ dead) →
    quill_alloc_alloc t n s = .ok (p, s') → Run s' (p :: live) dead
  | bump {s s' : State} {live : List SlabPtr} {dead : List (Nat × Nat)} (t c : Nat)
    (p : SlabPtr) :
    Run s live dead → (t, c) ∉ dead → allocate_slab t c s = .ok (p, s') →
    Run s' (p :: live) dead
  | free {s s' : State} {live : List SlabPtr} {dead : List (Nat × Nat)} (t : Nat)
    (p : SlabPtr) :
    Run s live dead → p ∈ live → quill_alloc_free t p s = .ok s' →
    Run s' (live.erase p) dead
  | pull {s : State} {live : List SlabPtr} {dead : List (Nat × Nat)} (t c : Nat) :
    Run s live dead → c < CLASS_COUNT → Run (fetch_global_unused t c s) live dead
  | drain {s s' : State} {live : List SlabPtr} {dead : List (Nat × Nat)} (t c fuel : Nat) :
    Run s live dead → (t, c) ∉ dead → destruct_class t c fuel s = some s' →
    Run s' live ((t, c) :: dead)
  | destruct {s s' : State} {live : List SlabPtr} {dead : List (Nat × Nat)} (t fuel : Nat) :
    Run s live dead → (∀ c, (t, c) ∉ dead) →
    quill_alloc_destruct_thread t fuel s = some s' →
    Run s' live ((List.range CLASS_COUNT).map (fun c => (t, c)) ++ dead)

/-- A book of who holds which slab: the free list `L t c` of every class of
every thread, the global free list `G c` of every class, and the holder
`own q` of every slab, `none` for a slab that no one holds. -/
structure Ledger where
  L : Nat → Nat → List SlabPtr
  G : Nat → List SlabPtr
  own : SlabPtr → Option Owner

/-- Write the free list of class `c` of thread `t` into the book. -/
def Ledger.setL (g : Ledger) (t c : Nat) (X : List SlabPtr) : Ledger :=
  { g with L := fun t' c' => if t' = t ∧ c' = c then X else g.L t' c' }

/-- Write the global free list of class `c` into the book. -/
def Ledger.setG (g : Ledger) (c : Nat) (X : List SlabPtr) : Ledger :=
  { g with G := fun c' => if c' = c then X else g.G c' }

/-- Write `o` as the holder of the slabs `T` into the book. -/
def Ledger.move (g : Ledger) (T : List SlabPtr) (o : Option Owner) : Ledger :=
  { g with own := fun q => if q ∈ T then o else g.own q }

/-- The book `g` is right for the state `s` with live pointers `live`, where
`dead t c` says that class `c` of thread `t` has been drained by the
teardown of `t`: its lists are the lists in memory, none holds a slab
twice, `own` tells exactly where a slab is, no one holds an unused slot of the
current region of a class that is not drained or a slab of memory not
obtained yet, no two classes share a region, every cursor is within its
region, and the count of every global pool is the length of its list
modulo `2^64`. -/
structure Ledger.ok (g : Ledger) (s : State) (live : List SlabPtr) (dead : Nat → Nat → Prop) :
    Prop where
  chainL : ∀ t c, Chain s.slab (s.classes t c).unused_next (g.L t c)
  chainG : ∀ c, Chain s.slab (s.global_unused c).next (g.G c)
  nodupL : ∀ t c, (g.L t c).Nodup
  nodupG : ∀ c, (g.G c).Nodup
  nodupLive : live.Nodup
  ownLive : ∀ q, q ∈ live ↔ g.own q = some .live
  ownL : ∀ t c q, q ∈ g.L t c ↔ g.own q = some (.loc t c)
  ownG : ∀ c q, q ∈ g.G c ↔ g.own q = some (.glob c)
  ownU : ∀ t c q, ¬ dead t c → q ∈ unused_slots s t c → g.own q = none
  freshR : ∀ r i, s.regions ≤ r → g.own (.slot r i) = none
  freshB : ∀ b, s.blocks ≤ b → g.own (.block b) = none
  regLt : ∀ t c r, (s.classes t c).next = some r → r < s.regions
  regInj : ∀ t c t' c' r, (s.classes t c).next = some r →
    (s.classes t' c').next = some r → t = t' ∧ c = c'
  cursor : CursorInv s
  count : ∀ c, (s.global_unused c).count = (g.G c).length % WORD

/-- In state `s1`, in which `a` is live, thread 0 frees `a` and thread 1
frees `a` again; thread 0 is torn down; thread 1 then allocates 200 bytes
twice (`b`, then `c`), frees `c` and frees `b`.  The result is the final
state; `none` when a call faults. -/
def double_free_run (s1 : State) (a : SlabPtr) : Option State :=
  match quill_alloc_free 0 a s1 with
  | .error _ => none
  | .ok s2 =>
    match quill_alloc_free 1 a s2 with
    | .error _ => none
    | .ok s3 =>
      match quill_alloc_destruct_thread 0 2 s3 with
      | none => none
      | some s4 =>
        match quill_alloc_alloc 1 200 s4 with
        | .error _ => none
        | .ok (b, s5) =>
          match quill_alloc_alloc 1 200 s5 with
          | .error _ => none
          | .ok (c, s6) =>
            match quill_alloc_free 1 c s6 with
            | .error _ => none
            | .ok s7 =>
              match quill_alloc_free 1 b s7 with
              | .error _ => none
              | .ok s8 => some s8


/-! ## UTF-8 (`string.c`)

Code points are `uint32_t`, bytes are `uint8_t`; both are natural numbers
here, and a value stored into a byte is reduced modulo 256.  The return type
`quill_int_t` of the functions holds 1..4. -/

/-- Conversion to `uint8_t` (a store into `dest[i]`). -/
def to_uint8 (x : Nat) : Nat := x % 256

/-- Function `quill_point_encode_length(point)`. -/
def quill_point_encode_length (point : Nat) : Except Fault Nat :=
  if point ≤ 0x00007F then .ok 1
  else if point ≤ 0x0007FF then .ok 2
  else if point ≥ 0x00D800 ∧ point ≤ 0x00DFFF then .error .panic
  else if point ≤ 0x00FFFF then .ok 3
  else if point ≤ 0x10FFFF then .ok 4
  else .error .panic

/-- Function `quill_point_encode(point, dest)`: the value returned and the
bytes written to `dest[0]`, `dest[1]`, ... in this order. -/
def quill_point_encode (point : Nat) : Except Fault (Nat × List Nat) :=
  if point ≤ 0x00007F then
    .ok (1, [to_uint8 point])
  else if point ≤ 0x0007FF then
    .ok (2, [to_uint8 (0xC0 ||| ((point >>> 6) &&& 0x1F)),
             to_uint8 (0x80 ||| ((point >>> 0) &&& 0x3F))])
  else if point ≤ 0x00FFFF then
    .ok (3, [to_uint8 (0xE0 ||| ((point >>> 12) &&& 0x0F)),
             to_uint8 (0x80 ||| ((point >>> 6) &&& 0x3F)),
             to_uint8 (0x80 ||| ((point >>> 0) &&& 0x3F))])
  else if point ≤ 0x10FFFF then
    .ok (4, [to_uint8 (0xF0 ||| ((point >>> 18) &&& 0x07)),
             to_uint8 (0x80 ||| ((point >>> 12) &&& 0x3F)),
             to_uint8 (0x80 ||| ((point >>> 6) &&& 0x3F)),
             to_uint8 (0x80 ||| ((point >>> 0) &&& 0x3F))])
  else .error .panic

/-- Function `quill_point_decode_length(start)`. -/
def quill_point_decode_length (start : Nat) : Except Fault Nat :=
  if start &&& 0x80 = 0x00 then .ok 1
  else if start &&& 0xE0 = 0xC0 then .ok 2
  else if start &&& 0xF0 = 0xE0 then .ok 3
  else if start &&& 0xF8 = 0xF0 then .ok 4
  else .error .panic

/-- Function `quill_point_decode(data)`; `data i` is the byte `data[i]`. -/
def quill_point_decode (data : Nat → Nat) : Except Fault Nat :=
  let point := 0
  if data 0 &&& 0x80 = 0x00 then
    let point := point ||| ((data 0 &&& 0x7F) <<< 0)
    .ok point
  else if data 0 &&& 0xE0 = 0xC0 then
    let point := point ||| ((data 0 &&& 0x1F) <<< 6)
    let point := point ||| ((data 1 &&& 0x3F) <<< 0)
    .ok point
  else if data 0 &&& 0xF0 = 0xE0 then
    let point := point ||| ((data 0 &&& 0x0F) <<< 12)
    let point := point ||| ((data 1 &&& 0x3F) <<< 6)
    let point := point ||| ((data 2 &&& 0x3F) <<< 0)
    .ok point
  else if data 0 &&& 0xF8 = 0xF0 then
    let point := point ||| ((data 0 &&& 0x07) <<< 18)
    let point := point ||| ((data 1 &&& 0x3F) <<< 12)
    let point := point ||| ((data 2 &&& 0x3F) <<< 6)
    let point := point ||| ((data 3 &&& 0x3F) <<< 0)
    .ok point
  else .error .panic

/-- The first loop of `quill_string_from_points`: the sum `length_bytes` of
the `quill_point_encode_length` of the points. -/
def from_points_length : List Nat → Nat → Except Fault Nat
  | [], length_bytes => .ok length_bytes
  | point :: points, length_bytes =>
    match quill_point_encode_length point with
    | .error e => .error e
    | .ok k => from_points_length points (length_bytes + k)

/-- The second loop of `quill_string_from_points`: the bytes written to
`data`, from `data[0]` on, and the final `offset`; `written` are the bytes
written before. -/
def from_points_encode : List Nat → List Nat → Nat → Except Fault (List Nat × Nat)
  | [], written, offset => .ok (written, offset)
  | point :: points, written, offset =>
    match quill_point_encode point with
    | .error e => .error e
    | .ok (k, bytes) => from_points_encode points (written ++ bytes) (offset + k)

/-- The memory that holds the bytes `bytes` from `data[0]` on. -/
def buffer_of (bytes : List Nat) : Nat → Nat := fun i => bytes.getD i 0

/-! ## Scenarios around a repeated teardown -/

/-- Thread 0 is torn down in state `s1` and then allocates 200 bytes.  The
result is the state right after the teardown, the pointer the allocation
returns and the state after it; `none` when a call faults. -/
def teardown_then_alloc (s1 : State) : Option (State × SlabPtr × State) :=
  match quill_alloc_destruct_thread 0 1 s1 with
  | none => none
  | some s2 =>
    match quill_alloc_alloc 0 200 s2 with
    | .error _ => none
    | .ok (p, s3) => some (s2, p, s3)

/-- Thread 0 is torn down twice in state `s1`.  Thread 1 then allocates 8
bytes (`x`) and frees `x`, allocates 200 bytes 16 times, the last allocation
being `p`, frees `p`, and allocates 200 bytes once more (`q`).  The result is
`x`, `p`, `q` and the final state; `none` when a call faults. -/
def capacity_run (s1 : State) : Option (SlabPtr × SlabPtr × SlabPtr × State) :=
  match teardown_twice s1 with
  | none => none
  | some s2 =>
    match quill_alloc_alloc 1 8 s2 with
    | .error _ => none
    | .ok (x, s3) =>
      match quill_alloc_free 1 x s3 with
      | .error _ => none
      | .ok s4 =>
        match alloc_times 1 200 15 s4 with
        | none => none
        | some s5 =>
          match quill_alloc_alloc 1 200 s5 with
          | .error _ => none
          | .ok (p, s6) =>
            match quill_alloc_free 1 p s6 with
            | .error _ => none
            | .ok s7 =>
              match quill_alloc_alloc 1 200 s7 with
              | .error _ => none
              | .ok (q, s8) => some (x, p, q, s8)

/-! ## C1: the size-class table -/

/-- C1: for every size `1 ≤ n ≤ MAX_SLAB_SIZE` the table has an entry, and it
is the smallest class index below `CLASS_COUNT` whose `slab_content_size` is
at least `n`. -/
theorem size_class_of_smallest_fit (n : Nat) (h1 : 1 ≤ n) (h2 : n ≤ MAX_SLAB_SIZE) :
    ∃ i, size_class_of n = some i ∧ i < CLASS_COUNT ∧
      n ≤ (classes_init i).slab_content_size ∧
      ∀ j, j < CLASS_COUNT → n ≤ (classes_init j).slab_content_size → i ≤ j := by
  have key : ∀ m, m < 257 → 1 ≤ m →
      ∃ i, i < 6 ∧ size_class_of m = some i ∧ i < CLASS_COUNT ∧
        m ≤ (classes_init i).slab_content_size ∧
        ∀ j, j < CLASS_COUNT → m ≤ (classes_init j).slab_content_size → i ≤ j := by
    unfold CLASS_COUNT
    decide
  obtain ⟨i, -, h⟩ := key n (by unfold MAX_SLAB_SIZE at h2; omega) h1
  exact ⟨i, h⟩

/-- Witness of C1 at the size 200, which falls into class 5. -/
theorem size_class_of_smallest_fit_witness :
    ∃ i, size_class_of 200 = some i ∧ i < CLASS_COUNT ∧
      200 ≤ (classes_init i).slab_content_size ∧
      ∀ j, j < CLASS_COUNT → 200 ≤ (classes_init j).slab_content_size → i ≤ j :=
  size_class_of_smallest_fit 200 (by decide) (by decide)

/-- Every size up to `MAX_SLAB_SIZE` (0 included) has a table entry below
`CLASS_COUNT`. -/
theorem size_class_of_total (n : Nat) (h : n ≤ MAX_SLAB_SIZE) :
    ∃ i, size_class_of n = some i ∧ i < CLASS_COUNT := by
  have key : ∀ m, m < 257 → ∃ i, i < 6 ∧ size_class_of m = some i ∧ i < CLASS_COUNT := by
    unfold CLASS_COUNT
    decide
  obtain ⟨i, -, h⟩ := key n (by unfold MAX_SLAB_SIZE at h; omega)
  exact ⟨i, h⟩

/-! ## Lists in memory and frames -/

theorem Chain.functional {slab : SlabPtr → quill_slab} :
    ∀ {l₁ l₂ : List SlabPtr} {hd : Option SlabPtr},
      Chain slab hd l₁ → Chain slab hd l₂ → l₁ = l₂
  | [], [], _, _, _ => rfl
  | [], _ :: _, _, h₁, h₂ => by
    simp only [Chain] at h₁ h₂
    rw [h₁] at h₂
    exact absurd h₂.1 (by simp)
  | _ :: _, [], _, h₁, h₂ => by
    simp only [Chain] at h₁ h₂
    rw [h₂] at h₁
    exact absurd h₁.1 (by simp)
  | p :: l₁, q :: l₂, _, h₁, h₂ => by
    simp only [Chain] at h₁ h₂
    have hpq : p = q := by
      have := h₁.1.symm.trans h₂.1
      simpa using this
    subst hpq
    rw [Chain.functional h₁.2 h₂.2]

theorem Chain.congr {slab slab' : SlabPtr → quill_slab} :
    ∀ {l : List SlabPtr} {hd : Option SlabPtr},
      (∀ q, q ∈ l → slab' q = slab q) → Chain slab hd l → Chain slab' hd l
  | [], _, _, h => h
  | p :: l, _, hq, h => by
    simp only [Chain] at h ⊢
    refine ⟨h.1, ?_⟩
    rw [hq p (List.mem_cons_self _ _)]
    exact Chain.congr (fun q hql => hq q (List.mem_cons_of_mem _ hql)) h.2

theorem Frame.refl (T : List SlabPtr) (s : State) : Frame T s s :=
  ⟨rfl, rfl, rfl, rfl, rfl, rfl, fun _ => rfl, fun _ _ => rfl, fun _ _ => rfl, fun _ _ => rfl⟩

theorem Frame.trans {T₁ T₂ : List SlabPtr} {s s₁ s₂ : State}
    (h₁ : Frame T₁ s s₁) (h₂ : Frame T₂ s₁ s₂) : Frame (T₁ ++ T₂) s s₂ where
  region := h₂.region.trans h₁.region
  alloc := h₂.alloc.trans h₁.alloc
  regions := h₂.regions.trans h₁.regions
  blocks := h₂.blocks.trans h₁.blocks
  live := h₂.live.trans h₁.live
  os := h₂.os.trans h₁.os
  tag := fun q => (h₂.tag q).trans (h₁.tag q)
  cnext := fun t i => (h₂.cnext t i).trans (h₁.cnext t i)
  csize := fun t i => (h₂.csize t i).trans (h₁.csize t i)
  slab_eq := fun q hq => by
    rw [List.mem_append, not_or] at hq
    exact (h₂.slab_eq q hq.2).trans (h₁.slab_eq q hq.1)

theorem Frame.mono {T T' : List SlabPtr} {s s' : State} (h : Frame T s s')
    (hsub : ∀ q, q ∈ T → q ∈ T') : Frame T' s s' :=
  { h with slab_eq := fun q hq => h.slab_eq q (fun hm => hq (hsub q hm)) }

theorem Frame.chain {T : List SlabPtr} {s s' : State} (h : Frame T s s')
    {hd : Option SlabPtr} {l : List SlabPtr} (hl : Chain s.slab hd l)
    (hdis : ∀ q, q ∈ l → q ∉ T) : Chain s'.slab hd l :=
  Chain.congr (fun q hq => h.slab_eq q (hdis q hq)) hl

theorem Frame.setNext (s : State) (p : SlabPtr) (v : Option SlabPtr) :
    Frame [p] s (s.setNext p v) where
  region := rfl
  alloc := rfl
  regions := rfl
  blocks := rfl
  live := rfl
  os := rfl
  tag := fun q => by
    simp only [State.setNext]
    split
    · next h => rw [h]
    · rfl
  cnext := fun _ _ => rfl
  csize := fun _ _ => rfl
  slab_eq := fun q hq => by
    simp only [List.mem_singleton] at hq
    simp [State.setNext, hq]

theorem Frame.setGlobal_next (s : State) (c : Nat) (v : Option SlabPtr) :
    Frame [] s (s.setGlobal c { s.global_unused c with next := v }) :=
  ⟨rfl, rfl, rfl, rfl, rfl, rfl, fun _ => rfl, fun _ _ => rfl, fun _ _ => rfl, fun _ _ => rfl⟩

theorem Frame.setGlobal_count (s : State) (c : Nat) (v : Nat) :
    Frame [] s (s.setGlobal c { s.global_unused c with count := v }) :=
  ⟨rfl, rfl, rfl, rfl, rfl, rfl, fun _ => rfl, fun _ _ => rfl, fun _ _ => rfl, fun _ _ => rfl⟩

theorem Frame.setUnusedNext (s : State) (t c : Nat) (v : Option SlabPtr) :
    Frame [] s (s.setUnusedNext t c v) where
  region := rfl
  alloc := rfl
  regions := rfl
  blocks := rfl
  live := rfl
  os := rfl
  tag := fun _ => rfl
  cnext := fun t' i => by
    simp only [State.setUnusedNext, State.setClass]
    split
    · next h => rw [h.1, h.2]
    · rfl
  csize := fun t' i => by
    simp only [State.setUnusedNext, State.setClass]
    split
    · next h => rw [h.1, h.2]
    · rfl
  slab_eq := fun _ _ => rfl

/-! ## `fetch_global_unused` -/

/-- One iteration of the loop of `fetch_global_unused` on a non-empty global
list: the state after it, as the three assignments of the source. -/
theorem fetch_loop_succ (t c k f : Nat) (s : State) (p : SlabPtr)
    (h : (s.global_unused c).next = some p) :
    fetch_loop t c (k + 1) f s =
      fetch_loop t c k (f + 1)
        (((s.setGlobal c { s.global_unused c with next := (s.slab p).next }).setNext p
          (s.classes t c).unused_next).setUnusedNext t c (some p)) := by
  simp only [fetch_loop, h]
  rfl

/-- The loop of `fetch_global_unused`, run for at most `k` iterations on a
global list `G` and a local list `L` that share no slab. -/
theorem fetch_loop_spec (t c : Nat) :
    ∀ (k f : Nat) (s : State) (G L : List SlabPtr),
      Chain s.slab (s.global_unused c).next G →
      Chain s.slab (s.classes t c).unused_next L →
      (G ++ L).Nodup →
      (fetch_loop t c k f s).1 = f + min k G.length ∧
      Chain (fetch_loop t c k f s).2.slab
        ((fetch_loop t c k f s).2.global_unused c).next (G.drop k) ∧
      Chain (fetch_loop t c k f s).2.slab
        ((fetch_loop t c k f s).2.classes t c).unused_next ((G.take k).reverse ++ L) ∧
      Frame (G.take k) s (fetch_loop t c k f s).2 ∧
      ((fetch_loop t c k f s).2.global_unused c).count = (s.global_unused c).count ∧
      (∀ i, i ≠ c → (fetch_loop t c k f s).2.global_unused i = s.global_unused i) ∧
      (∀ t' i, ¬ (t' = t ∧ i = c) →
        (fetch_loop t c k f s).2.classes t' i = s.classes t' i)
  | 0, f, s, G, L, hG, hL, _ => by
    refine ⟨by simp [fetch_loop], by simpa [fetch_loop] using hG,
      by simpa [fetch_loop] using hL, by simpa [fetch_loop] using Frame.refl [] s,
      by simp [fetch_loop], by simp [fetch_loop], by simp [fetch_loop]⟩
  | k + 1, f, s, [], L, hG, hL, _ => by
    simp only [Chain] at hG
    refine ⟨by simp [fetch_loop, hG], by simp [fetch_loop, hG, Chain],
      by simpa [fetch_loop, hG] using hL, by simpa [fetch_loop, hG] using Frame.refl [] s,
      by simp [fetch_loop, hG], by simp [fetch_loop, hG], by simp [fetch_loop, hG]⟩
  | k + 1, f, s, p :: G, L, hG, hL, hnd => by
    simp only [Chain] at hG
    obtain ⟨hhd, hG'⟩ := hG
    rw [fetch_loop_succ t c k f s p hhd]
    have hpG : p ∉ G := by
      intro hm
      simp only [List.cons_append, List.nodup_cons, List.mem_append] at hnd
      exact hnd.1 (Or.inl hm)
    have hpL : p ∉ L := by
      intro hm
      simp only [List.cons_append, List.nodup_cons, List.mem_append] at hnd
      exact hnd.1 (Or.inr hm)
    have hnd' : (G ++ p :: L).Nodup := by
      have : (G ++ p :: L).Perm (p :: (G ++ L)) := List.perm_middle
      exact this.nodup_iff.mpr hnd
    -- the state after the three assignments
    have hfr : Frame [p] s
        (((s.setGlobal c { s.global_unused c with next := (s.slab p).next }).setNext p
          (s.classes t c).unused_next).setUnusedNext t c (some p)) := by
      have h1 := Frame.setGlobal_next s c (s.slab p).next
      have h2 := Frame.setNext (s.setGlobal c { s.global_unused c with next := (s.slab p).next })
        p (s.classes t c).unused_next
      have h3 := Frame.setUnusedNext
        ((s.setGlobal c { s.global_unused c with next := (s.slab p).next }).setNext p
          (s.classes t c).unused_next) t c (some p)
      simpa using (h1.trans h2).trans h3
    have hG3 : Chain (((s.setGlobal c { s.global_unused c with next := (s.slab p).next }).setNext p
          (s.classes t c).unused_next).setUnusedNext t c (some p)).slab
        ((((s.setGlobal c { s.global_unused c with next := (s.slab p).next }).setNext p
          (s.classes t c).unused_next).setUnusedNext t c (some p)).global_unused c).next G := by
      have := hfr.chain hG' (fun q hq => by
        simp only [List.mem_singleton]
        rintro rfl
        exact hpG hq)
      simpa [State.setUnusedNext, State.setClass, State.setNext, State.setGlobal] using this
    have hL3 : Chain (((s.setGlobal c { s.global_unused c with next := (s.slab p).next }).setNext p
          (s.classes t c).unused_next).setUnusedNext t c (some p)).slab
        ((((s.setGlobal c { s.global_unused c with next := (s.slab p).next }).setNext p
          (s.classes t c).unused_next).setUnusedNext t c (some p)).classes t c).unused_next
        (p :: L) := by
      have := hfr.chain hL (fun q hq => by
        simp only [List.mem_singleton]
        rintro rfl
        exact hpL hq)
      simp only [Chain]
      refine ⟨by simp [State.setUnusedNext, State.setClass], ?_⟩
      simpa [State.setUnusedNext, State.setClass, State.setNext, State.setGlobal] using this
    obtain ⟨i1, i2, i3, i4, i5, i6, i7⟩ := fetch_loop_spec t c k (f + 1) _ G (p :: L) hG3 hL3 hnd'
    refine ⟨?_, ?_, ?_, ?_, ?_, ?_, ?_⟩
    · rw [i1]
      simp only [List.length_cons]
      omega
    · simpa using i2
    · simpa using i3
    · simpa using hfr.trans i4
    · rw [i5]
      simp [State.setUnusedNext, State.setClass, State.setNext, State.setGlobal]
    · intro i hi
      rw [i6 i hi]
      simp [State.setUnusedNext, State.setClass, State.setNext, State.setGlobal, hi]
    · intro t' i hi
      rw [i7 t' i hi]
      simp [State.setUnusedNext, State.setClass, State.setNext, State.setGlobal, hi]

/-- C9: `fetch_global_unused` on a global list `G` and a local list `L` of a
class (two lists in memory that share no slab) moves the first
`m = min 16 |G|` slabs of `G` to the front of the local list, leaves the other
`|G| - m` slabs on the global list and the old local entries behind the moved
ones, both in their order, lowers the count by `m` (modulo `2^64`, and
exactly when the count is at least `m`), and neither loses nor duplicates a
slab. -/
theorem fetch_global_unused_moves_batch (t c : Nat) (s : State) (G L : List SlabPtr)
    (hG : Chain s.slab (s.global_unused c).next G)
    (hL : Chain s.slab (s.classes t c).unused_next L)
    (hnd : (G ++ L).Nodup) :
    Chain (fetch_global_unused t c s).slab
        ((fetch_global_unused t c s).classes t c).unused_next
        ((G.take (min G_UNUSED_BATCH_SIZE G.length)).reverse ++ L) ∧
      Chain (fetch_global_unused t c s).slab
        ((fetch_global_unused t c s).global_unused c).next
        (G.drop (min G_UNUSED_BATCH_SIZE G.length)) ∧
      ((fetch_global_unused t c s).global_unused c).count =
        ((s.global_unused c).count + WORD - min G_UNUSED_BATCH_SIZE G.length) % WORD ∧
      (min G_UNUSED_BATCH_SIZE G.length ≤ (s.global_unused c).count →
        (s.global_unused c).count < WORD →
        ((fetch_global_unused t c s).global_unused c).count =
          (s.global_unused c).count - min G_UNUSED_BATCH_SIZE G.length) ∧
      (((G.take (min G_UNUSED_BATCH_SIZE G.length)).reverse ++ L) ++
        G.drop (min G_UNUSED_BATCH_SIZE G.length)).Perm (L ++ G) ∧
      (((G.take (min G_UNUSED_BATCH_SIZE G.length)).reverse ++ L) ++
        G.drop (min G_UNUSED_BATCH_SIZE G.length)).Nodup := by
  obtain ⟨i1, i2, i3, -, i5, -, -⟩ :=
    fetch_loop_spec t c G_UNUSED_BATCH_SIZE 0 s G L hG hL hnd
  have htake : G.take (min G_UNUSED_BATCH_SIZE G.length) = G.take G_UNUSED_BATCH_SIZE := by
    rcases Nat.le_total G_UNUSED_BATCH_SIZE G.length with h | h
    · rw [Nat.min_eq_left h]
    · rw [Nat.min_eq_right h, List.take_length, List.take_of_length_le h]
  have hdrop : G.drop (min G_UNUSED_BATCH_SIZE G.length) = G.drop G_UNUSED_BATCH_SIZE := by
    rcases Nat.le_total G_UNUSED_BATCH_SIZE G.length with h | h
    · rw [Nat.min_eq_left h]
    · rw [Nat.min_eq_right h, List.drop_length, List.drop_eq_nil_of_le h]
  have hcount : ((fetch_global_unused t c s).global_unused c).count =
      ((s.global_unused c).count + WORD - min G_UNUSED_BATCH_SIZE G.length) % WORD := by
    simp only [fetch_global_unused, State.setGlobal, if_true, i1, i5, Nat.zero_add]
  have hperm : (((G.take G_UNUSED_BATCH_SIZE).reverse ++ L) ++
      G.drop G_UNUSED_BATCH_SIZE).Perm (L ++ G) := by
    have h1 : ((G.take G_UNUSED_BATCH_SIZE).reverse ++ L).Perm
        (L ++ G.take G_UNUSED_BATCH_SIZE) :=
      ((List.reverse_perm _).append_right L).trans List.perm_append_comm
    have h2 := h1.append_right (G.drop G_UNUSED_BATCH_SIZE)
    rw [List.append_assoc L, List.take_append_drop] at h2
    exact h2
  rw [htake, hdrop]
  refine ⟨?_, ?_, hcount, ?_, hperm, ?_⟩
  · simpa [fetch_global_unused, State.setGlobal] using i3
  · simpa [fetch_global_unused, State.setGlobal] using i2
  · intro hle hlt
    rw [hcount]
    have hm : min G_UNUSED_BATCH_SIZE G.length ≤ G_UNUSED_BATCH_SIZE := Nat.min_le_left _ _
    have hW : G_UNUSED_BATCH_SIZE ≤ WORD := by decide
    have e : (s.global_unused c).count + WORD - min G_UNUSED_BATCH_SIZE G.length =
        WORD + ((s.global_unused c).count - min G_UNUSED_BATCH_SIZE G.length) := by omega
    rw [e, Nat.add_mod_left]
    exact Nat.mod_eq_of_lt (by omega)
  · exact hperm.nodup_iff.mpr (List.perm_append_comm.nodup_iff.mp hnd)

/-! ## Facts about `quill_alloc_alloc` used by the reference-counting layer -/

/-- The loop of `fetch_global_unused` only rewires lists, whatever the state. -/
theorem fetch_loop_frame (t c : Nat) :
    ∀ (k f : Nat) (s : State), ∃ T, Frame T s (fetch_loop t c k f s).2
  | 0, _, s => ⟨[], Frame.refl [] s⟩
  | k + 1, f, s => by
    cases h : (s.global_unused c).next with
    | none => exact ⟨[], by simpa [fetch_loop, h] using Frame.refl [] s⟩
    | some p =>
      have h1 := Frame.setGlobal_next s c (s.slab p).next
      have h2 := Frame.setNext (s.setGlobal c { s.global_unused c with next := (s.slab p).next })
        p (s.classes t c).unused_next
      have h3 := Frame.setUnusedNext
        ((s.setGlobal c { s.global_unused c with next := (s.slab p).next }).setNext p
          (s.classes t c).unused_next) t c (some p)
      obtain ⟨T, hT⟩ := fetch_loop_frame t c k (f + 1)
        (((s.setGlobal c { s.global_unused c with next := (s.slab p).next }).setNext p
          (s.classes t c).unused_next).setUnusedNext t c (some p))
      refine ⟨(([] ++ [p]) ++ []) ++ T, ?_⟩
      rw [fetch_loop_succ t c k f s p h]
      exact ((h1.trans h2).trans h3).trans hT

/-- A pull only rewires lists, whatever the state. -/
theorem fetch_global_unused_frame (t c : Nat) (s : State) :
    ∃ T, Frame T s (fetch_global_unused t c s) := by
  obtain ⟨T, hT⟩ := fetch_loop_frame t c G_UNUSED_BATCH_SIZE 0 s
  exact ⟨T ++ [], hT.trans (Frame.setGlobal_count _ c _)⟩

/-- Function `allocate_slab` returns a slab whenever the OS grants the next
request. -/
theorem allocate_slab_returns (t c : Nat) (s : State) (os : List Bool)
    (h : s.os = true :: os) : ∃ p s', allocate_slab t c s = .ok (p, s') := by
  have hreg : ∃ s1, REGION_ALLOC s = (some s.regions, s1) := by
    unfold REGION_ALLOC
    rw [h]
    exact ⟨_, rfl⟩
  obtain ⟨s1, e⟩ := hreg
  unfold allocate_slab
  cases hn : (s.classes t c).next with
  | none =>
    simp only [e]
    exact ⟨_, _, rfl⟩
  | some r =>
    by_cases hfull : (s.region r).next_i = REGION_SLAB_COUNT
    · simp only [hfull, if_true, e]
      exact ⟨_, _, rfl⟩
    · simp only [hfull, if_false]
      exact ⟨_, _, rfl⟩

/-- Function `quill_alloc_alloc` returns a pointer whenever the OS grants the
next request. -/
theorem quill_alloc_alloc_returns (t n : Nat) (s : State) (os : List Bool)
    (h : s.os = true :: os) : ∃ p s', quill_alloc_alloc t n s = .ok (p, s') := by
  unfold quill_alloc_alloc
  by_cases hn : n > MAX_SLAB_SIZE
  · simp [hn, malloc, h]
  · obtain ⟨c, hc, -⟩ := size_class_of_total n (by omega)
    simp only [hn, if_false, hc]
    cases hl : (s.classes t c).unused_next with
    | some p => exact ⟨_, _, rfl⟩
    | none =>
      simp only
      by_cases hcount : (s.global_unused c).count ≥ G_UNUSED_BATCH_SIZE
      · simp only [hcount, if_true]
        cases hl' : ((fetch_global_unused t c s).classes t c).unused_next with
        | some p => exact ⟨_, _, rfl⟩
        | none =>
          obtain ⟨T, hT⟩ := fetch_global_unused_frame t c s
          exact allocate_slab_returns t c _ os (hT.os.trans h)
      · simp only [hcount, if_false]
        exact allocate_slab_returns t c s os h

/-! ## Reference counting -/

/-- C5: `quill_rc_add` and `quill_rc_dec` on the null reference return
normally with the state unchanged and without a destructor call. -/
theorem rc_null_is_noop (D : Nat → SlabPtr → State → Except Fault State) (t : Nat)
    (s : State) :
    quill_rc_add none s = s ∧ quill_rc_dec D t none s = (.ok s, []) :=
  ⟨rfl, rfl⟩

/-- C6 as stated fails for the sizes at which `sizeof(quill_alloc_t) + n`
wraps: for `n = 2^64 - 16` the allocation is obtained from
`quill_alloc_alloc(0)`, a slab of class 0, and not from
`quill_alloc_alloc(16 + n)`, which would be a block of the system heap.  And
no allocation is returned when the OS refuses the memory: the call panics. -/
theorem quill_malloc_size_wraps :
    quill_malloc 0 8 (some 1) (State.fresh []) = .error .panic ∧
      (∃ s', quill_malloc 0 (WORD - 16) (some 1) (State.fresh [true]) =
        .ok (some (.slot 0 0), s')) ∧
      (∃ s', quill_alloc_alloc 0 (SIZEOF_QUILL_ALLOC + (WORD - 16)) (State.fresh [true]) =
        .ok (.block 0, s')) ∧
      ¬ (∀ (t n : Nat) (d : Option Nat) (s : State), 1 ≤ n → n < WORD →
        quill_malloc t n d s =
          match quill_alloc_alloc t (SIZEOF_QUILL_ALLOC + n) s with
          | .error e => .error e
          | .ok (p, s1) => .ok (some p, s1.setAlloc p { rc := 1, destructor := d })) := by
  have h1 : ∃ s', quill_malloc 0 (WORD - 16) (some 1) (State.fresh [true]) =
      .ok (some (.slot 0 0), s') := ⟨_, rfl⟩
  have h2 : ∃ s', quill_alloc_alloc 0 (SIZEOF_QUILL_ALLOC + (WORD - 16)) (State.fresh [true]) =
      .ok (.block 0, s') := ⟨_, rfl⟩
  refine ⟨rfl, h1, h2, fun h => ?_⟩
  obtain ⟨s1, e1⟩ := h1
  obtain ⟨s2, e2⟩ := h2
  have := h 0 (WORD - 16) (some 1) (State.fresh [true]) (by decide) (by decide)
  rw [e1, e2] at this
  simp at this

/-- C6, amended: `quill_malloc(0, d)` returns the null reference and leaves
the state alone, and only size 0 gives the null reference; for
`1 ≤ n < 2^64 - 16` the call is `quill_alloc_alloc(16 + n)` followed by the
writes of count 1 and destructor `d`, every allocation it returns has count 1
and destructor `d`, and it does return one whenever the OS grants the next
request for memory. -/
theorem quill_malloc_spec (t n : Nat) (d : Option Nat) (s : State)
    (h1 : 1 ≤ n) (h2 : SIZEOF_QUILL_ALLOC + n < WORD) :
    quill_malloc t 0 d s = .ok (none, s) ∧
      (∀ m s', quill_malloc t m d s = .ok (none, s') → m = 0) ∧
      quill_malloc t n d s =
        (match quill_alloc_alloc t (SIZEOF_QUILL_ALLOC + n) s with
         | .error e => .error e
         | .ok (p, s1) => .ok (some p, s1.setAlloc p { rc := 1, destructor := d })) ∧
      (∀ r s', quill_malloc t n d s = .ok (r, s') →
        ∃ p, r = some p ∧ (s'.alloc p).rc = 1 ∧ (s'.alloc p).destructor = d) ∧
      (∀ os, s.os = true :: os → ∃ p s', quill_malloc t n d s = .ok (some p, s')) := by
  have hn : n ≠ 0 := by omega
  have heq : quill_malloc t n d s =
      (match quill_alloc_alloc t (SIZEOF_QUILL_ALLOC + n) s with
       | .error e => .error e
       | .ok (p, s1) => .ok (some p, s1.setAlloc p { rc := 1, destructor := d })) := by
    simp only [quill_malloc, hn, if_false, Nat.mod_eq_of_lt h2]
  refine ⟨rfl, ?_, heq, ?_, ?_⟩
  · intro m s' hm
    by_contra hm0
    simp only [quill_malloc, hm0, if_false] at hm
    split at hm <;> simp at hm
  · intro r s' hr
    rw [heq] at hr
    split at hr
    · simp at hr
    · next p s1 _ =>
      simp only [Except.ok.injEq, Prod.mk.injEq] at hr
      obtain ⟨hr1, hr2⟩ := hr
      refine ⟨p, hr1.symm, ?_, ?_⟩ <;> simp [← hr2, State.setAlloc]
  · intro os hos
    obtain ⟨p, s', hp⟩ := quill_alloc_alloc_returns t (SIZEOF_QUILL_ALLOC + n) s os hos
    exact ⟨p, _, by rw [heq, hp]⟩

/-- Function `quill_alloc_free` on a slab whose tag is a class index pushes
the slab onto the free list of that class of the calling thread. -/
theorem quill_alloc_free_slab (t : Nat) (p : SlabPtr) (s : State) (c : Nat)
    (hc : to_size_t (s.slab p).class_i = c) (hlt : c < CLASS_COUNT) :
    quill_alloc_free t p s =
      .ok ((s.setNext p (s.classes t c).unused_next).setUnusedNext t c (some p)) := by
  have hne : c ≠ to_size_t NO_CLASS := by
    have : to_size_t NO_CLASS = 18446744073709551615 := by decide
    rw [this]
    unfold CLASS_COUNT at hlt
    omega
  simp only [quill_alloc_free, hc, hne, if_false, hlt, if_true]

/-- A release of an allocation with a count above 1 only lowers the count. -/
theorem quill_rc_dec_shared (D : Nat → SlabPtr → State → Except Fault State) (t : Nat)
    (p : SlabPtr) (s : State) (h1 : 1 < (s.alloc p).rc) (h2 : (s.alloc p).rc < WORD) :
    quill_rc_dec D t (some p) s =
      (.ok (s.setAlloc p { s.alloc p with rc := (s.alloc p).rc - 1 }), []) := by
  have hne : (s.alloc p).rc ≠ 1 := by omega
  have e : ((s.alloc p).rc + WORD - 1) % WORD = (s.alloc p).rc - 1 := by
    unfold WORD at *
    omega
  simp only [quill_rc_dec, hne, ne_eq, not_false_eq_true, if_true, e]

/-- A release of an allocation with count 1 and no destructor frees it. -/
theorem quill_rc_dec_last_plain (D : Nat → SlabPtr → State → Except Fault State) (t : Nat)
    (p : SlabPtr) (s : State) (h1 : (s.alloc p).rc = 1) (h2 : (s.alloc p).destructor = none) :
    quill_rc_dec D t (some p) s =
      (quill_alloc_free t p (s.setAlloc p { s.alloc p with rc := 0 }), []) := by
  have e : ((s.alloc p).rc + WORD - 1) % WORD = 0 := by
    rw [h1]
    decide
  simp only [quill_rc_dec, h1, ne_eq, not_true_eq_false, if_false, e, State.setAlloc, if_true,
    h2]
  rfl

/-- A release of an allocation with count 1 and destructor `d` calls `d` and
then frees the allocation. -/
theorem quill_rc_dec_last_destructor (D : Nat → SlabPtr → State → Except Fault State)
    (t : Nat) (p : SlabPtr) (s : State) (d : Nat) (h1 : (s.alloc p).rc = 1)
    (h2 : (s.alloc p).destructor = some d) :
    quill_rc_dec D t (some p) s =
      ((match D d p (s.setAlloc p { s.alloc p with rc := 0 }) with
        | .error e => .error e
        | .ok s2 => quill_alloc_free t p s2), [(d, p)]) := by
  have e : ((s.alloc p).rc + WORD - 1) % WORD = 0 := by
    rw [h1]
    decide
  simp only [quill_rc_dec, h1, ne_eq, not_true_eq_false, if_false, e, State.setAlloc, if_true,
    h2]
  rfl

/-- C7: what `quill_rc_dec` does on a non-null allocation `p`.  With a count
above 1 it only lowers the count by one (no destructor call, nothing else
changes).  With count 1 and no destructor it sets the count to 0 and calls
`quill_alloc_free` without any destructor call; with count 1 and destructor
`d` it calls `d` on `p` first and `quill_alloc_free` on the state `d` leaves.
And `quill_alloc_free` on a slab whose tag is a class `c` makes it the head of
the calling thread's free list of class `c`, linked to the old head. -/
theorem quill_rc_dec_spec (D : Nat → SlabPtr → State → Except Fault State) (t : Nat)
    (p : SlabPtr) (s : State) :
    (1 < (s.alloc p).rc → (s.alloc p).rc < WORD →
      quill_rc_dec D t (some p) s =
        (.ok (s.setAlloc p { s.alloc p with rc := (s.alloc p).rc - 1 }), [])) ∧
    ((s.alloc p).rc = 1 → (s.alloc p).destructor = none →
      quill_rc_dec D t (some p) s =
        (quill_alloc_free t p (s.setAlloc p { s.alloc p with rc := 0 }), [])) ∧
    (∀ d, (s.alloc p).rc = 1 → (s.alloc p).destructor = some d →
      quill_rc_dec D t (some p) s =
        ((match D d p (s.setAlloc p { s.alloc p with rc := 0 }) with
          | .error e => .error e
          | .ok s2 => quill_alloc_free t p s2), [(d, p)])) ∧
    (∀ s0 c, to_size_t (s0.slab p).class_i = c → c < CLASS_COUNT →
      ∃ s', quill_alloc_free t p s0 = .ok s' ∧
        (s'.classes t c).unused_next = some p ∧
        (s'.slab p).next = (s0.classes t c).unused_next) := by
  refine ⟨quill_rc_dec_shared D t p s, quill_rc_dec_last_plain D t p s,
    fun d => quill_rc_dec_last_destructor D t p s d, ?_⟩
  intro s0 c hc hlt
  refine ⟨_, quill_alloc_free_slab t p s0 c hc hlt, ?_, ?_⟩
  · simp [State.setUnusedNext, State.setClass]
  · simp [State.setUnusedNext, State.setClass, State.setNext]

/-- An allocation that `quill_malloc` returns has count 1 and the destructor
passed to it. -/
theorem quill_malloc_fresh (t n : Nat) (d : Option Nat) (s s0 : State) (p : SlabPtr)
    (h : quill_malloc t n d s = .ok (some p, s0)) :
    s0.alloc p = { rc := 1, destructor := d } := by
  unfold quill_malloc at h
  split at h
  · simp at h
  · split at h
    · simp at h
    · next q s1 _ =>
      simp only [Except.ok.injEq, Prod.mk.injEq, Option.some.injEq] at h
      obtain ⟨hq, hs⟩ := h
      subst hq
      simp [← hs, State.setAlloc]

/-- The count after `k` calls of `quill_rc_add`. -/
theorem rc_add_n_alloc (p : SlabPtr) :
    ∀ (k : Nat) (s : State), (s.alloc p).rc < WORD →
      (rc_add_n (some p) k s).alloc p =
        { s.alloc p with rc := ((s.alloc p).rc + k) % WORD }
  | 0, s, h => by
    simp [rc_add_n, Nat.mod_eq_of_lt h]
  | k + 1, s, h => by
    have hlt : ((quill_rc_add (some p) s).alloc p).rc < WORD := by
      simp only [quill_rc_add, State.setAlloc, if_true]
      exact Nat.mod_lt _ (by decide)
    rw [rc_add_n, rc_add_n_alloc p k _ hlt]
    simp only [quill_rc_add, State.setAlloc, if_true, quill_alloc_t.mk.injEq, and_true]
    unfold WORD
    omega

/-- The first `j` releases of an allocation with count `m > j` and destructor
`d` call no destructor and leave count `m - j`. -/
theorem rc_dec_n_live (D : Nat → SlabPtr → State → Except Fault State) (t : Nat)
    (p : SlabPtr) :
    ∀ (j m : Nat) (s : State), (s.alloc p).rc = m → j < m → m < WORD →
      ∃ sj, rc_dec_n D t (some p) j s = (.ok sj, []) ∧
        sj.alloc p = { s.alloc p with rc := m - j }
  | 0, m, s, h, _, _ => ⟨s, rfl, by simp [← h]⟩
  | j + 1, m, s, h, hj, hm => by
    have e1 := quill_rc_dec_shared D t p s (by omega) (by omega)
    obtain ⟨sj, e2, e3⟩ := rc_dec_n_live D t p j (m - 1)
      (s.setAlloc p { s.alloc p with rc := (s.alloc p).rc - 1 })
      (by simp [State.setAlloc, h]) (by omega) (by omega)
    refine ⟨sj, ?_, ?_⟩
    · simp only [rc_dec_n, e1, e2, List.append_nil]
    · rw [e3]
      simp only [State.setAlloc, if_true, quill_alloc_t.mk.injEq, and_true]
      omega

/-- Releasing an allocation with count `j + 1` and destructor `d` exactly
`j + 1` times calls the destructor exactly once. -/
theorem rc_dec_n_last (D : Nat → SlabPtr → State → Except Fault State) (t : Nat)
    (p : SlabPtr) (d : Nat) :
    ∀ (j : Nat) (s : State), (s.alloc p).rc = j + 1 → j + 1 < WORD →
      (s.alloc p).destructor = some d →
      (rc_dec_n D t (some p) (j + 1) s).2 = [(d, p)]
  | 0, s, h, _, hd => by
    have e1 := quill_rc_dec_last_destructor D t p s d (by simpa using h) hd
    rw [rc_dec_n, e1]
    split
    · next heq =>
      simp only [Prod.mk.injEq] at heq
      simp [← heq.2]
    · next heq =>
      simp only [Prod.mk.injEq] at heq
      simp [← heq.2, rc_dec_n]
  | j + 1, s, h, hj, hd => by
    have e1 := quill_rc_dec_shared D t p s (by omega) (by omega)
    have ih := rc_dec_n_last D t p d j
      (s.setAlloc p { s.alloc p with rc := (s.alloc p).rc - 1 })
      (by simp [State.setAlloc, h]) (by omega) (by simp [State.setAlloc, hd])
    rw [rc_dec_n, e1]
    simp only [List.nil_append]
    exact ih

/-- C4 as stated fails once the 64-bit count wraps: after `2^64` calls of
`quill_rc_add` on a fresh allocation the count is 1 again (not `2^64 + 1`),
and the very first `quill_rc_dec` calls the destructor. -/
theorem rc_count_wraps :
    quill_malloc 0 8 (some 1) (State.fresh [true]) =
        .ok (some (.slot 0 0), malloc_example_state) ∧
      ((rc_add_n (some (.slot 0 0)) WORD malloc_example_state).alloc (.slot 0 0)).rc = 1 ∧
      (rc_dec_n noop_destructors 0 (some (.slot 0 0)) 1
        (rc_add_n (some (.slot 0 0)) WORD malloc_example_state)).2 = [(1, .slot 0 0)] := by
  have hm : quill_malloc 0 8 (some 1) (State.fresh [true]) =
      .ok (some (.slot 0 0), malloc_example_state) := rfl
  have ha := quill_malloc_fresh _ _ _ _ _ _ hm
  have hadd := rc_add_n_alloc (.slot 0 0) WORD malloc_example_state (by rw [ha]; decide)
  rw [ha] at hadd
  have hrc : ((rc_add_n (some (.slot 0 0)) WORD malloc_example_state).alloc (.slot 0 0)).rc
      = 1 := by
    rw [hadd]
    decide
  refine ⟨hm, hrc, ?_⟩
  exact rc_dec_n_last noop_destructors 0 (.slot 0 0) 1 0 _ hrc (by decide) (by rw [hadd])

/-- C4, amended: for an allocation `p` freshly returned by `quill_malloc` with
destructor `d` and every `k` with `k + 1 < 2^64`, after `k` calls of
`quill_rc_add` the first `j ≤ k` calls of `quill_rc_dec` return normally
without a destructor call and leave the count `k + 1 - j`, and the `k + 1`
calls together make exactly one destructor call, that of `d` on `p`, which
therefore happens during the last one. -/
theorem rc_retain_release (D : Nat → SlabPtr → State → Except Fault State) (t n d : Nat)
    (s s0 : State) (p : SlabPtr) (k : Nat)
    (hm : quill_malloc t n (some d) s = .ok (some p, s0))
    (hk : k + 1 < WORD) :
    (∀ j, j ≤ k → ∃ sj, rc_dec_n D t (some p) j (rc_add_n (some p) k s0) = (.ok sj, []) ∧
        (sj.alloc p).rc = k + 1 - j ∧ (sj.alloc p).destructor = some d) ∧
      (rc_dec_n D t (some p) (k + 1) (rc_add_n (some p) k s0)).2 = [(d, p)] := by
  have ha := quill_malloc_fresh _ _ _ _ _ _ hm
  have hadd := rc_add_n_alloc p k s0 (by rw [ha]; exact (by decide : 1 < WORD))
  rw [ha] at hadd
  have hmod : (1 + k) % WORD = k + 1 := by
    rw [Nat.mod_eq_of_lt (by omega)]
    omega
  simp only [hmod] at hadd
  refine ⟨fun j hj => ?_, ?_⟩
  · obtain ⟨sj, e1, e2⟩ := rc_dec_n_live D t p j (k + 1) (rc_add_n (some p) k s0)
      (by rw [hadd]) (by omega) hk
    exact ⟨sj, e1, by rw [e2], by rw [e2, hadd]⟩
  · exact rc_dec_n_last D t p d k _ (by rw [hadd]) hk (by rw [hadd])

/-! ## `quill_alloc_destruct_thread` -/

theorem region_slots_succ (r i k : Nat) :
    region_slots r i (k + 1) = SlabPtr.slot r i :: region_slots r (i + 1) k := by
  simp [region_slots, List.range'_succ]

theorem region_slots_length (r i k : Nat) : (region_slots r i k).length = k := by
  simp [region_slots]

theorem region_slots_nodup (r i k : Nat) : (region_slots r i k).Nodup := by
  unfold region_slots
  refine (List.nodup_range' i k).map ?_
  intro a b h
  simpa using h

theorem mem_region_slots {r i k : Nat} {q : SlabPtr} :
    q ∈ region_slots r i k ↔ ∃ j, i ≤ j ∧ j < i + k ∧ q = SlabPtr.slot r j := by
  simp only [region_slots, List.mem_map, List.mem_range'_1]
  constructor
  · rintro ⟨j, ⟨h1, h2⟩, rfl⟩
    exact ⟨j, h1, h2, rfl⟩
  · rintro ⟨j, h1, h2, rfl⟩
    exact ⟨j, ⟨h1, h2⟩, rfl⟩

/-- One iteration of the first loop of `quill_alloc_destruct_thread` on a
non-empty local list. -/
theorem drain_local_succ (t c fuel a : Nat) (s : State) (p : SlabPtr)
    (h : (s.classes t c).unused_next = some p) :
    drain_local t c (fuel + 1) a s =
      drain_local t c fuel ((a + 1) % WORD)
        (((s.setUnusedNext t c (s.slab p).next).setNext p (s.global_unused c).next).setGlobal c
          { s.global_unused c with next := some p }) := by
  simp only [drain_local, h]
  rfl

/-- The first loop of `quill_alloc_destruct_thread`: with more fuel than the
local list `L` is long it ends, having pushed `L` slab by slab onto the
global list `G`. -/
theorem drain_local_spec (t c : Nat) :
    ∀ (fuel a : Nat) (s : State) (G L : List SlabPtr),
      Chain s.slab (s.global_unused c).next G →
      Chain s.slab (s.classes t c).unused_next L →
      (L ++ G).Nodup →
      L.length < fuel →
      ∃ a' s', drain_local t c fuel a s = some (a', s') ∧
        a' % WORD = (a + L.length) % WORD ∧
        Chain s'.slab (s'.global_unused c).next (L.reverse ++ G) ∧
        (s'.classes t c).unused_next = none ∧
        Frame L s s' ∧
        (s'.global_unused c).count = (s.global_unused c).count ∧
        (∀ i, i ≠ c → s'.global_unused i = s.global_unused i) ∧
        (∀ t' i, ¬ (t' = t ∧ i = c) → s'.classes t' i = s.classes t' i)
  | 0, _, _, _, _, _, _, _, hf => absurd hf (Nat.not_lt_zero _)
  | fuel + 1, a, s, G, [], hG, hL, _, _ => by
    simp only [Chain] at hL
    refine ⟨a, s, by simp [drain_local, hL], by simp, by simpa using hG, hL,
      Frame.refl [] s, rfl, fun _ _ => rfl, fun _ _ _ => rfl⟩
  | fuel + 1, a, s, G, p :: L, hG, hL, hnd, hf => by
    simp only [Chain] at hL
    obtain ⟨hhd, hL'⟩ := hL
    rw [drain_local_succ t c fuel a s p hhd]
    have hpL : p ∉ L := by
      intro hm
      simp only [List.cons_append, List.nodup_cons, List.mem_append] at hnd
      exact hnd.1 (Or.inl hm)
    have hpG : p ∉ G := by
      intro hm
      simp only [List.cons_append, List.nodup_cons, List.mem_append] at hnd
      exact hnd.1 (Or.inr hm)
    have hnd' : (L ++ p :: G).Nodup := by
      have : (L ++ p :: G).Perm (p :: (L ++ G)) := List.perm_middle
      exact this.nodup_iff.mpr hnd
    have hfr : Frame [p] s
        (((s.setUnusedNext t c (s.slab p).next).setNext p (s.global_unused c).next).setGlobal c
          { s.global_unused c with next := some p }) := by
      have h1 := Frame.setUnusedNext s t c (s.slab p).next
      have h2 := Frame.setNext (s.setUnusedNext t c (s.slab p).next) p (s.global_unused c).next
      have h3 := Frame.setGlobal_next
        ((s.setUnusedNext t c (s.slab p).next).setNext p (s.global_unused c).next) c (some p)
      simpa using (h1.trans h2).trans h3
    have hL3 : Chain
        (((s.setUnusedNext t c (s.slab p).next).setNext p (s.global_unused c).next).setGlobal c
          { s.global_unused c with next := some p }).slab
        ((((s.setUnusedNext t c (s.slab p).next).setNext p (s.global_unused c).next).setGlobal c
          { s.global_unused c with next := some p }).classes t c).unused_next L := by
      have := hfr.chain hL' (fun q hq => by
        simp only [List.mem_singleton]
        rintro rfl
        exact hpL hq)
      simpa [State.setUnusedNext, State.setClass, State.setNext, State.setGlobal] using this
    have hG3 : Chain
        (((s.setUnusedNext t c (s.slab p).next).setNext p (s.global_unused c).next).setGlobal c
          { s.global_unused c with next := some p }).slab
        ((((s.setUnusedNext t c (s.slab p).next).setNext p (s.global_unused c).next).setGlobal c
          { s.global_unused c with next := some p }).global_unused c).next (p :: G) := by
      have := hfr.chain hG (fun q hq => by
        simp only [List.mem_singleton]
        rintro rfl
        exact hpG hq)
      simp only [Chain]
      refine ⟨by simp [State.setGlobal], ?_⟩
      simpa [State.setUnusedNext, State.setClass, State.setNext, State.setGlobal] using this
    obtain ⟨a', s', e, i1, i2, i3, i4, i5, i6, i7⟩ :=
      drain_local_spec t c fuel ((a + 1) % WORD) _ (p :: G) L hG3 hL3 hnd'
        (by simpa using hf)
    refine ⟨a', s', e, ?_, ?_, i3, ?_, ?_, ?_, ?_⟩
    · rw [i1, List.length_cons, Nat.add_mod, Nat.mod_mod, ← Nat.add_mod]
      congr 1
      omega
    · simpa using i2
    · simpa using hfr.trans i4
    · rw [i5]
      simp [State.setGlobal]
    · intro i hi
      rw [i6 i hi]
      simp [State.setUnusedNext, State.setClass, State.setNext, State.setGlobal, hi]
    · intro t' i hi
      rw [i7 t' i hi]
      simp [State.setUnusedNext, State.setClass, State.setNext, State.setGlobal, hi]

/-- The second loop of `quill_alloc_destruct_thread`: it pushes the `k` slots
from `i` on of region `r` onto the global list `G`, slot by slot. -/
theorem drain_region_spec (c r : Nat) :
    ∀ (k i a : Nat) (s : State) (G : List SlabPtr),
      Chain s.slab (s.global_unused c).next G →
      (∀ q, q ∈ region_slots r i k → q ∉ G) →
      (drain_region c r k i a s).1 % WORD = (a + k) % WORD ∧
      Chain (drain_region c r k i a s).2.slab
        ((drain_region c r k i a s).2.global_unused c).next
        ((region_slots r i k).reverse ++ G) ∧
      Frame (region_slots r i k) s (drain_region c r k i a s).2 ∧
      ((drain_region c r k i a s).2.global_unused c).count = (s.global_unused c).count ∧
      (∀ j, j ≠ c → (drain_region c r k i a s).2.global_unused j = s.global_unused j) ∧
      (drain_region c r k i a s).2.classes = s.classes
  | 0, i, a, s, G, hG, _ => by
    refine ⟨by simp [drain_region], by simpa [drain_region, region_slots] using hG,
      by simpa [drain_region, region_slots] using Frame.refl [] s, by simp [drain_region],
      by simp [drain_region], by simp [drain_region]⟩
  | k + 1, i, a, s, G, hG, hdis => by
    have hpG : SlabPtr.slot r i ∉ G :=
      hdis _ (by rw [region_slots_succ]; exact List.mem_cons_self _ _)
    have hnot : SlabPtr.slot r i ∉ region_slots r (i + 1) k := by
      have := region_slots_nodup r i (k + 1)
      rw [region_slots_succ, List.nodup_cons] at this
      exact this.1
    have hfr : Frame [SlabPtr.slot r i] s
        ((s.setNext (SlabPtr.slot r i) (s.global_unused c).next).setGlobal c
          { s.global_unused c with next := some (SlabPtr.slot r i) }) := by
      have h1 := Frame.setNext s (SlabPtr.slot r i) (s.global_unused c).next
      have h2 := Frame.setGlobal_next (s.setNext (SlabPtr.slot r i) (s.global_unused c).next) c
        (some (SlabPtr.slot r i))
      simpa using h1.trans h2
    have hG2 : Chain
        ((s.setNext (SlabPtr.slot r i) (s.global_unused c).next).setGlobal c
          { s.global_unused c with next := some (SlabPtr.slot r i) }).slab
        (((s.setNext (SlabPtr.slot r i) (s.global_unused c).next).setGlobal c
          { s.global_unused c with next := some (SlabPtr.slot r i) }).global_unused c).next
        (SlabPtr.slot r i :: G) := by
      have := hfr.chain hG (fun q hq => by
        simp only [List.mem_singleton]
        rintro rfl
        exact hpG hq)
      simp only [Chain]
      refine ⟨by simp [State.setGlobal], ?_⟩
      simpa [State.setNext, State.setGlobal] using this
    have hdis' : ∀ q, q ∈ region_slots r (i + 1) k → q ∉ SlabPtr.slot r i :: G := by
      intro q hq hm
      rcases List.mem_cons.mp hm with h | h
      · exact hnot (h ▸ hq)
      · exact hdis q (by rw [region_slots_succ]; exact List.mem_cons_of_mem _ hq) h
    obtain ⟨i1, i2, i3, i4, i5, i6⟩ :=
      drain_region_spec c r k (i + 1) ((a + 1) % WORD) _ (SlabPtr.slot r i :: G) hG2 hdis'
    have hstep : drain_region c r (k + 1) i a s =
        drain_region c r k (i + 1) ((a + 1) % WORD)
          ((s.setNext (SlabPtr.slot r i) (s.global_unused c).next).setGlobal c
            { s.global_unused c with next := some (SlabPtr.slot r i) }) := rfl
    rw [hstep, region_slots_succ]
    refine ⟨?_, ?_, ?_, ?_, ?_, ?_⟩
    · rw [i1, Nat.add_mod, Nat.mod_mod, ← Nat.add_mod]
      congr 1
      omega
    · simpa using i2
    · simpa using hfr.trans i3
    · rw [i4]
      simp [State.setGlobal]
    · intro j hj
      rw [i5 j hj]
      simp [State.setNext, State.setGlobal, hj]
    · rw [i6]
      rfl

theorem unused_slots_length (s : State) (t c : Nat) :
    (unused_slots s t c).length =
      match (s.classes t c).next with
      | none => 0
      | some r => REGION_SLAB_COUNT - (s.region r).next_i := by
  unfold unused_slots
  cases (s.classes t c).next with
  | none => rfl
  | some r => exact region_slots_length _ _ _

/-- The body of the class loop of `quill_alloc_destruct_thread` for class `c`:
the local list `L` and then the unused slots of the current region are pushed
onto the global list `G`, and the count grows by their number. -/
theorem destruct_class_spec (t c fuel : Nat) (s : State) (G L : List SlabPtr)
    (hG : Chain s.slab (s.global_unused c).next G)
    (hL : Chain s.slab (s.classes t c).unused_next L)
    (hnd : (L ++ G ++ unused_slots s t c).Nodup)
    (hf : L.length < fuel) :
    ∃ s', destruct_class t c fuel s = some s' ∧
      Chain s'.slab (s'.global_unused c).next
        ((unused_slots s t c).reverse ++ (L.reverse ++ G)) ∧
      (s'.classes t c).unused_next = none ∧
      (s'.global_unused c).count =
        ((s.global_unused c).count + L.length + (unused_slots s t c).length) % WORD ∧
      Frame (L ++ unused_slots s t c) s s' ∧
      (∀ i, i ≠ c → s'.global_unused i = s.global_unused i) ∧
      (∀ t' i, ¬ (t' = t ∧ i = c) → s'.classes t' i = s.classes t' i) := by
  obtain ⟨a', s1, e, i1, i2, i3, i4, i5, i6, i7⟩ :=
    drain_local_spec t c fuel 0 s G L hG hL (List.nodup_append.mp hnd).1 hf
  have hnext : (s1.classes t c).next = (s.classes t c).next := i4.cnext t c
  have hcnt : ∀ (x y k : Nat), x % WORD = (0 + L.length) % WORD → y % WORD = (x + k) % WORD →
      ((s.global_unused c).count + y) % WORD =
        ((s.global_unused c).count + L.length + k) % WORD := by
    intro x y k hx hy
    unfold WORD at *
    omega
  unfold destruct_class
  rw [e]
  simp only
  cases hr : (s.classes t c).next with
  | none =>
    have hU : unused_slots s t c = [] := by simp [unused_slots, hr]
    rw [hnext, hr, hU]
    simp only [List.reverse_nil, List.nil_append, List.length_nil, List.append_nil, Nat.add_zero]
    refine ⟨_, rfl, ?_, ?_, ?_, ?_, ?_, ?_⟩
    · simpa [State.setGlobal] using i2
    · simpa [State.setGlobal] using i3
    · simp only [State.setGlobal, if_true, i5]
      simpa using hcnt a' a' 0 i1 rfl
    · simpa using i4.trans (Frame.setGlobal_count s1 c _)
    · intro i hi
      simp [State.setGlobal, hi, i6 i hi]
    · intro t' i hi
      simpa [State.setGlobal] using i7 t' i hi
  | some r =>
    have hU : unused_slots s t c =
        region_slots r (s.region r).next_i (REGION_SLAB_COUNT - (s.region r).next_i) := by
      simp [unused_slots, hr]
    rw [hnext, hr, hU]
    simp only
    rw [i4.region]
    have hdis : ∀ q, q ∈ region_slots r (s.region r).next_i
        (REGION_SLAB_COUNT - (s.region r).next_i) → q ∉ L.reverse ++ G := by
      intro q hq hm
      rw [hU] at hnd
      have := (List.nodup_append.mp hnd).2.2
      refine this (a := q) ?_ hq
      simpa [List.mem_append, List.mem_reverse] using hm
    obtain ⟨j1, j2, j3, j4, j5, j6⟩ :=
      drain_region_spec c r (REGION_SLAB_COUNT - (s.region r).next_i) (s.region r).next_i a' s1
        (L.reverse ++ G) i2 hdis
    refine ⟨_, rfl, ?_, ?_, ?_, ?_, ?_, ?_⟩
    · simpa [State.setGlobal] using j2
    · simpa [State.setGlobal, j6] using i3
    · simp only [State.setGlobal, if_true, j4, i5, region_slots_length]
      exact hcnt a' _ _ i1 j1
    · simpa using (i4.trans j3).trans (Frame.setGlobal_count _ c _)
    · intro i hi
      simp [State.setGlobal, hi, j5 i hi, i6 i hi]
    · intro t' i hi
      simpa [State.setGlobal, j6] using i7 t' i hi

theorem Frame.unused_slots {T : List SlabPtr} {s s' : State} (h : Frame T s s')
    (t c : Nat) : unused_slots s' t c = unused_slots s t c := by
  unfold Quill.unused_slots
  rw [h.cnext t c, h.region]

/-- The class loop of `quill_alloc_destruct_thread` over the classes
`c, ..., c + k - 1`, whose local lists `L i`, global lists `G i` and unused
region slots are lists in memory that share no slab. -/
theorem destruct_classes_spec (t fuel : Nat) (G L : Nat → List SlabPtr) :
    ∀ (k c : Nat) (s : State),
      (∀ i, c ≤ i → i < c + k → Chain s.slab (s.global_unused i).next (G i)) →
      (∀ i, c ≤ i → i < c + k → Chain s.slab (s.classes t i).unused_next (L i)) →
      (∀ i, c ≤ i → i < c + k → (L i ++ G i ++ unused_slots s t i).Nodup) →
      (∀ i j, c ≤ i → i < c + k → c ≤ j → j < c + k → i ≠ j →
        ∀ q, q ∈ L i ++ G i ++ unused_slots s t i → q ∉ L j ++ G j ++ unused_slots s t j) →
      (∀ i, c ≤ i → i < c + k → (L i).length < fuel) →
      ∃ s', destruct_classes t fuel k c s = some s' ∧
        (∀ i, c ≤ i → i < c + k →
          Chain s'.slab (s'.global_unused i).next
            ((unused_slots s t i).reverse ++ ((L i).reverse ++ G i)) ∧
          (s'.classes t i).unused_next = none ∧
          (s'.global_unused i).count =
            ((s.global_unused i).count + (L i).length + (unused_slots s t i).length) % WORD) ∧
        (∃ T, Frame T s s' ∧
          ∀ q, q ∈ T → ∃ i, c ≤ i ∧ i < c + k ∧ q ∈ L i ++ unused_slots s t i) ∧
        (∀ i, ¬ (c ≤ i ∧ i < c + k) → s'.global_unused i = s.global_unused i) ∧
        (∀ t' i, ¬ (t' = t ∧ c ≤ i ∧ i < c + k) → s'.classes t' i = s.classes t' i)
  | 0, c, s, _, _, _, _, _ => by
    refine ⟨s, rfl, ?_, ⟨[], Frame.refl [] s, ?_⟩, fun _ _ => rfl, fun _ _ _ => rfl⟩
    · intro i h1 h2
      omega
    · intro q hq
      simp at hq
  | k + 1, c, s, hG, hL, hnd, hdis, hf => by
    obtain ⟨s1, e1, p1, p2, p3, p4, p5, p6⟩ :=
      destruct_class_spec t c fuel s (G c) (L c) (hG c (le_refl _) (by omega))
        (hL c (le_refl _) (by omega)) (hnd c (le_refl _) (by omega))
        (hf c (le_refl _) (by omega))
    have hU : ∀ i, unused_slots s1 t i = unused_slots s t i := fun i => p4.unused_slots t i
    -- the lists of the classes still to do are untouched
    have hkeep : ∀ i, c + 1 ≤ i → i < c + 1 + k → ∀ q,
        q ∈ L i ++ G i ++ unused_slots s t i → q ∉ L c ++ unused_slots s t c := by
      intro i h1 h2 q hq hm
      refine hdis i c (by omega) (by omega) (le_refl _) (by omega) (by omega) q hq ?_
      simp only [List.mem_append] at hm ⊢
      tauto
    obtain ⟨s', e2, q1, ⟨T, q2, q3⟩, q4, q5⟩ :=
      destruct_classes_spec t fuel G L k (c + 1) s1
        (fun i h1 h2 => by
          rw [p5 i (by omega)]
          exact p4.chain (hG i (by omega) (by omega)) (fun q hq =>
            hkeep i h1 h2 q (by simp only [List.mem_append]; tauto)))
        (fun i h1 h2 => by
          rw [p6 t i (by omega)]
          exact p4.chain (hL i (by omega) (by omega)) (fun q hq =>
            hkeep i h1 h2 q (by simp only [List.mem_append]; tauto)))
        (fun i h1 h2 => by
          rw [hU]
          exact hnd i (by omega) (by omega))
        (fun i j h1 h2 h3 h4 hij q hq => by
          rw [hU] at hq ⊢
          exact hdis i j (by omega) (by omega) (by omega) (by omega) hij q hq)
        (fun i h1 h2 => hf i (by omega) (by omega))
    refine ⟨s', ?_, ?_, ⟨(L c ++ unused_slots s t c) ++ T, p4.trans q2, ?_⟩, ?_, ?_⟩
    · simp only [destruct_classes, e1, e2]
    · intro i h1 h2
      rcases Nat.eq_or_lt_of_le h1 with h | h
      · subst h
        rw [q4 c (by omega), q5 t c (by omega)]
        refine ⟨q2.chain p1 ?_, p2, p3⟩
        intro q hq hT
        obtain ⟨j, j1, j2, j3⟩ := q3 q hT
        rw [hU] at j3
        refine hdis j c (by omega) (by omega) (le_refl _) (by omega) (by omega) q ?_ ?_
        · simp only [List.mem_append] at j3 ⊢
          tauto
        · simp only [List.mem_append, List.mem_reverse] at hq ⊢
          tauto
      · have := q1 i (by omega) (by omega)
        rw [hU, p5 i (by omega)] at this
        exact this
    · intro q hq
      rcases List.mem_append.mp hq with h | h
      · exact ⟨c, le_refl _, by omega, h⟩
      · obtain ⟨j, j1, j2, j3⟩ := q3 q h
        rw [hU] at j3
        exact ⟨j, by omega, by omega, j3⟩
    · intro i hi
      rw [q4 i (by omega), p5 i (by omega)]
    · intro t' i hi
      rw [q5 t' i (by omega), p6 t' i (by omega)]

/-- Lists that are duplicate-free when put one after the other are each
duplicate-free and pairwise disjoint. -/
theorem nodup_lists_split {n : Nat} {f : Nat → List SlabPtr}
    (h : ((List.range n).flatMap f).Nodup) :
    (∀ i, i < n → (f i).Nodup) ∧
      ∀ i, i < n → ∀ j, j < n → i ≠ j → ∀ q, q ∈ f i → q ∉ f j := by
  obtain ⟨h1, h2⟩ := List.nodup_flatMap.mp h
  refine ⟨fun i hi => h1 i (List.mem_range.mpr hi), fun i hi j hj hij q hq hq' => ?_⟩
  have hsymm : Symmetric (Function.onFun List.Disjoint f) := fun a b hab => hab.symm
  have := h2.forall hsymm (List.mem_range.mpr hi) (List.mem_range.mpr hj) hij
  exact this hq hq'

/-- C8: `quill_alloc_destruct_thread` on a state whose local free lists `L i`,
global free lists `G i` and unused region slots (of the six classes) are
lists in memory that together hold no slab twice, run with more fuel than
any local list is long: it ends, and for every class `i` the global list has grown by the
unused slots `next_i .. 8191` of the region and the `L i` local slabs, the
count has grown by their number `|L i| + r` (modulo `2^64`, and exactly when
the sum is representable), with `r = 8192 - next_i` (0 without a region), and
the local list is empty. -/
theorem quill_alloc_destruct_thread_drains (t fuel : Nat) (s : State)
    (G L : Nat → List SlabPtr)
    (hG : ∀ i, i < CLASS_COUNT → Chain s.slab (s.global_unused i).next (G i))
    (hL : ∀ i, i < CLASS_COUNT → Chain s.slab (s.classes t i).unused_next (L i))
    (hnd : ((List.range CLASS_COUNT).flatMap
      (fun i => L i ++ G i ++ unused_slots s t i)).Nodup)
    (hf : ∀ i, i < CLASS_COUNT → (L i).length < fuel) :
    ∃ s', quill_alloc_destruct_thread t fuel s = some s' ∧
      ∀ i, i < CLASS_COUNT →
        Chain s'.slab (s'.global_unused i).next
          ((unused_slots s t i).reverse ++ ((L i).reverse ++ G i)) ∧
        (s'.classes t i).unused_next = none ∧
        (s'.global_unused i).count =
          ((s.global_unused i).count + (L i).length + (unused_slots s t i).length) % WORD ∧
        ((s.global_unused i).count + (L i).length + (unused_slots s t i).length < WORD →
          (s'.global_unused i).count =
            (s.global_unused i).count + (L i).length + (unused_slots s t i).length) ∧
        (unused_slots s t i).length =
          match (s.classes t i).next with
          | none => 0
          | some r => REGION_SLAB_COUNT - (s.region r).next_i := by
  obtain ⟨hnd1, hdis⟩ := nodup_lists_split hnd
  obtain ⟨s', e, h1, -, -, -⟩ :=
    destruct_classes_spec t fuel G L CLASS_COUNT 0 s
      (fun i _ h => hG i (by omega)) (fun i _ h => hL i (by omega))
      (fun i _ h => hnd1 i (by omega))
      (fun i j _ hi _ hj hij => hdis i (by omega) j (by omega) hij)
      (fun i _ h => hf i (by omega))
  refine ⟨s', e, fun i hi => ?_⟩
  obtain ⟨a1, a2, a3⟩ := h1 i (Nat.zero_le _) (by omega)
  exact ⟨a1, a2, a3, fun hlt => by rw [a3, Nat.mod_eq_of_lt hlt], unused_slots_length s t i⟩

/-! ## Allocation from the thread-local free list, and hand-over between threads -/

/-- With a non-empty thread-local free list `p :: l`, `quill_alloc_alloc`
returns its head `p` and leaves `l`. -/
theorem quill_alloc_alloc_pops (t n c : Nat) (s : State) (p : SlabPtr) (l : List SlabPtr)
    (hn : n ≤ MAX_SLAB_SIZE) (hc : size_class_of n = some c)
    (hl : Chain s.slab (s.classes t c).unused_next (p :: l)) :
    quill_alloc_alloc t n s = .ok (p, s.setUnusedNext t c (s.slab p).next) ∧
      Chain (s.setUnusedNext t c (s.slab p).next).slab
        ((s.setUnusedNext t c (s.slab p).next).classes t c).unused_next l := by
  simp only [Chain] at hl
  obtain ⟨hhd, htl⟩ := hl
  have hn' : ¬ n > MAX_SLAB_SIZE := by omega
  refine ⟨?_, ?_⟩
  · simp only [quill_alloc_alloc, hn', if_false, hc, hhd]
  · simpa [State.setUnusedNext, State.setClass] using htl

/-- As many allocations of one class as the thread-local free list has
entries in front return these entries in order, without any other change to
the state than the list head. -/
theorem alloc_seq_pops (t c : Nat) :
    ∀ (ns : List Nat) (l₁ l₂ : List SlabPtr) (s : State),
      (∀ n, n ∈ ns → n ≤ MAX_SLAB_SIZE ∧ size_class_of n = some c) →
      ns.length = l₁.length →
      Chain s.slab (s.classes t c).unused_next (l₁ ++ l₂) →
      ∃ s', alloc_seq t ns s = .ok (l₁, s') ∧
        Chain s'.slab (s'.classes t c).unused_next l₂ ∧
        Frame [] s s' ∧ s'.global_unused = s.global_unused ∧ s'.slab = s.slab
  | [], [], l₂, s, _, _, hl => ⟨s, rfl, hl, Frame.refl [] s, rfl, rfl⟩
  | [], _ :: _, _, _, _, hlen, _ => by simp at hlen
  | _ :: _, [], _, _, _, hlen, _ => by simp at hlen
  | n :: ns, p :: l₁, l₂, s, hns, hlen, hl => by
    obtain ⟨hn, hc⟩ := hns n (List.mem_cons_self _ _)
    obtain ⟨e1, h1⟩ := quill_alloc_alloc_pops t n c s p (l₁ ++ l₂) hn hc hl
    obtain ⟨s', e2, h2, h3, h4, h5⟩ :=
      alloc_seq_pops t c ns l₁ l₂ (s.setUnusedNext t c (s.slab p).next)
        (fun m hm => hns m (List.mem_cons_of_mem _ hm)) (by simpa using hlen) h1
    refine ⟨s', ?_, h2, ?_, ?_, ?_⟩
    · simp only [alloc_seq, e1, e2]
    · simpa using (Frame.setUnusedNext s t c (s.slab p).next).trans h3
    · rw [h4]
      rfl
    · rw [h5]
      rfl

/-- A pull on a global list `G` and a local list `L` that share no slab, as
lists in memory after it. -/
theorem fetch_global_unused_lists (t c : Nat) (s : State) (G L : List SlabPtr)
    (hG : Chain s.slab (s.global_unused c).next G)
    (hL : Chain s.slab (s.classes t c).unused_next L)
    (hnd : (G ++ L).Nodup) :
    Chain (fetch_global_unused t c s).slab
        ((fetch_global_unused t c s).classes t c).unused_next
        ((G.take G_UNUSED_BATCH_SIZE).reverse ++ L) ∧
      Chain (fetch_global_unused t c s).slab
        ((fetch_global_unused t c s).global_unused c).next (G.drop G_UNUSED_BATCH_SIZE) ∧
      Frame (G.take G_UNUSED_BATCH_SIZE) s (fetch_global_unused t c s) := by
  obtain ⟨-, i2, i3, i4, -, -, -⟩ :=
    fetch_loop_spec t c G_UNUSED_BATCH_SIZE 0 s G L hG hL hnd
  refine ⟨?_, ?_, ?_⟩
  · simpa [fetch_global_unused, State.setGlobal] using i3
  · simpa [fetch_global_unused, State.setGlobal] using i2
  · simpa using i4.trans (Frame.setGlobal_count _ c _)

/-- C10: hand-over between threads.  The global pools are as
`quill_alloc_init_global` leaves them; thread `a` has the free lists `L i` and
its unused region slots, thread `b` the free list `LB` of class `c`, and no
slab is on two of these lists.  Then `quill_alloc_destruct_thread` by `a`
puts the `d = |L c| + r` slabs of class `c` on the global list and sets the
count to `d`; a pull of class `c` by `b` puts the first `min 16 d` of them in
front of `LB`; and the next allocations of class `c` by `b` (at most
`min 16 d` of them) return these slabs, each one drained by `a`, while the
region and the cursor of `b` stay as they were (nothing is bump-allocated). -/
theorem drained_slabs_reach_other_thread (a b fuel c : Nat) (s : State)
    (L : Nat → List SlabPtr) (LB : List SlabPtr) (ns : List Nat)
    (hab : a ≠ b)
    (hc : c < CLASS_COUNT)
    (hfresh : ∀ i, i < CLASS_COUNT → s.global_unused i = { count := 0, next := none })
    (hL : ∀ i, i < CLASS_COUNT → Chain s.slab (s.classes a i).unused_next (L i))
    (hLB : Chain s.slab (s.classes b c).unused_next LB)
    (hnd : (LB ++ (List.range CLASS_COUNT).flatMap
      (fun i => L i ++ unused_slots s a i)).Nodup)
    (hf : ∀ i, i < CLASS_COUNT → (L i).length < fuel)
    (hsmall : (L c).length + (unused_slots s a c).length < WORD)
    (hns : ∀ n, n ∈ ns → n ≤ MAX_SLAB_SIZE ∧ size_class_of n = some c)
    (hlen : ns.length ≤
      min G_UNUSED_BATCH_SIZE ((L c).length + (unused_slots s a c).length)) :
    ∃ s1, quill_alloc_destruct_thread a fuel s = some s1 ∧
      Chain s1.slab (s1.global_unused c).next
        ((unused_slots s a c).reverse ++ (L c).reverse) ∧
      (s1.global_unused c).count = (L c).length + (unused_slots s a c).length ∧
      (((unused_slots s a c).reverse ++ (L c).reverse).take G_UNUSED_BATCH_SIZE).length =
        min G_UNUSED_BATCH_SIZE ((L c).length + (unused_slots s a c).length) ∧
      Chain (fetch_global_unused b c s1).slab
        ((fetch_global_unused b c s1).classes b c).unused_next
        ((((unused_slots s a c).reverse ++ (L c).reverse).take G_UNUSED_BATCH_SIZE).reverse
          ++ LB) ∧
      ∃ s3, alloc_seq b ns (fetch_global_unused b c s1) =
          .ok (((((unused_slots s a c).reverse ++ (L c).reverse).take
            G_UNUSED_BATCH_SIZE).reverse).take ns.length, s3) ∧
        (∀ p, p ∈ ((((unused_slots s a c).reverse ++ (L c).reverse).take
            G_UNUSED_BATCH_SIZE).reverse).take ns.length →
          p ∈ L c ++ unused_slots s a c) ∧
        (s3.classes b c).next = (s.classes b c).next ∧
        s3.region = s.region ∧ s3.regions = s.regions := by
  obtain ⟨hLBnd, hall, hdisj⟩ := List.nodup_append.mp hnd
  have hfun : (fun i => L i ++ (fun _ => ([] : List SlabPtr)) i ++ unused_slots s a i) =
      fun i => L i ++ unused_slots s a i := by
    funext i
    simp
  have hall' : ((List.range CLASS_COUNT).flatMap
      (fun i => L i ++ (fun _ => ([] : List SlabPtr)) i ++ unused_slots s a i)).Nodup := by
    rw [hfun]
    exact hall
  obtain ⟨hnd1, hdis⟩ := nodup_lists_split hall'
  obtain ⟨s1, e, h1, ⟨T, hT, hTsub⟩, -, hcls⟩ :=
    destruct_classes_spec a fuel (fun _ => []) L CLASS_COUNT 0 s
      (fun i _ h => by
        rw [hfresh i (by omega)]
        simp [Chain])
      (fun i _ h => hL i (by omega))
      (fun i _ h => hnd1 i (by omega))
      (fun i j _ hi _ hj hij => hdis i (by omega) j (by omega) hij)
      (fun i _ h => hf i (by omega))
  obtain ⟨p1, -, p3⟩ := h1 c (Nat.zero_le _) (by omega)
  simp only [List.append_nil] at p1
  rw [hfresh c hc] at p3
  simp only [Nat.zero_add] at p3
  rw [Nat.mod_eq_of_lt hsmall] at p3
  -- the list of `b` survives the teardown of `a`
  have hTdis : ∀ q, q ∈ LB → q ∉ T := by
    intro q hq hqT
    obtain ⟨i, -, hi, hmem⟩ := hTsub q hqT
    refine hdisj hq ?_
    rw [List.mem_flatMap]
    exact ⟨i, List.mem_range.mpr (by omega), hmem⟩
  have hLB1 : Chain s1.slab (s1.classes b c).unused_next LB := by
    rw [hcls b c (by
      rintro ⟨h, -⟩
      exact hab h.symm)]
    exact hT.chain hLB hTdis
  -- the drained slabs and the list of `b` share no slab
  have hDr : ((unused_slots s a c).reverse ++ (L c).reverse ++ LB).Nodup := by
    rw [List.nodup_append]
    refine ⟨?_, hLBnd, ?_⟩
    · rw [← List.reverse_append, List.nodup_reverse]
      simpa using hnd1 c hc
    · intro q hq hq'
      refine hdisj hq' ?_
      rw [List.mem_flatMap]
      refine ⟨c, List.mem_range.mpr hc, ?_⟩
      simp only [List.mem_append, List.mem_reverse] at hq ⊢
      tauto
  obtain ⟨f1, -, f3⟩ := fetch_global_unused_lists b c s1 _ LB p1 hLB1 hDr
  have hlenD : (((unused_slots s a c).reverse ++ (L c).reverse).take
      G_UNUSED_BATCH_SIZE).length =
      min G_UNUSED_BATCH_SIZE ((L c).length + (unused_slots s a c).length) := by
    simp only [List.length_take, List.length_append, List.length_reverse]
    omega
  have hsplit : ((((unused_slots s a c).reverse ++ (L c).reverse).take
        G_UNUSED_BATCH_SIZE).reverse).take ns.length ++
      (((((unused_slots s a c).reverse ++ (L c).reverse).take
        G_UNUSED_BATCH_SIZE).reverse).drop ns.length ++ LB) =
      (((unused_slots s a c).reverse ++ (L c).reverse).take G_UNUSED_BATCH_SIZE).reverse
        ++ LB := by
    rw [← List.append_assoc, List.take_append_drop]
  obtain ⟨s3, e3, -, g3, -, -⟩ :=
    alloc_seq_pops b c ns
      (((((unused_slots s a c).reverse ++ (L c).reverse).take
        G_UNUSED_BATCH_SIZE).reverse).take ns.length)
      (((((unused_slots s a c).reverse ++ (L c).reverse).take
        G_UNUSED_BATCH_SIZE).reverse).drop ns.length ++ LB)
      (fetch_global_unused b c s1) hns
      (by
        rw [List.length_take, List.length_reverse, hlenD]
        omega)
      (by
        rw [hsplit]
        exact f1)
  refine ⟨s1, e, p1, p3, hlenD, f1, s3, e3, ?_, ?_, ?_, ?_⟩
  · intro p hp
    have h2 := List.mem_of_mem_take (List.mem_reverse.mp (List.mem_of_mem_take hp))
    simp only [List.mem_append, List.mem_reverse] at h2 ⊢
    tauto
  · rw [g3.cnext, f3.cnext, hT.cnext]
  · rw [g3.region, f3.region, hT.region]
  · rw [g3.regions, f3.regions, hT.regions]

/-! ## Scenarios from a fresh process -/

/-- The first allocation of 200 bytes in a fresh process. -/
theorem first_alloc_filled :
    quill_alloc_alloc 0 200 (quill_alloc_init_global (State.fresh [true, true])) =
      .ok (.slot 0 0, filled 1) := by
  have hs : (bump_slab 5 0
      (((REGION_ALLOC (quill_alloc_init_global (State.fresh [true, true]))).2.setNextI 0
        0).setRegion 0 5 (some 0))).2 = filled 1 := by
    apply State.ext
    · funext t i
      simp only [bump_slab, State.setTag, State.setNextI, State.setRegion, State.setClass,
        REGION_ALLOC, quill_alloc_init_global, State.fresh, filled]
      split <;> simp_all [classes_init]
    · funext i
      simp only [bump_slab, State.setTag, State.setNextI, State.setRegion, State.setClass,
        REGION_ALLOC, quill_alloc_init_global, State.fresh, filled]
      split <;> rfl
    · funext r
      simp only [bump_slab, State.setTag, State.setNextI, State.setRegion, State.setClass,
        REGION_ALLOC, quill_alloc_init_global, State.fresh, filled]
      split <;> simp_all [WORD]
    · funext q
      simp only [bump_slab, State.setTag, State.setNextI, State.setRegion, State.setClass,
        REGION_ALLOC, quill_alloc_init_global, State.fresh, filled]
      cases q with
      | slot r j =>
        by_cases h : r = 0 ∧ j < 1
        · obtain ⟨h1, h2⟩ := h
          have h3 : j = 0 := by omega
          subst h1 h3
          simp
        · have : SlabPtr.slot r j ≠ SlabPtr.slot 0 0 := by
            intro he
            injection he with h1 h2
            exact h ⟨h1, by omega⟩
          have h' : ¬ (r = 0 ∧ j = 0) := by
            rintro ⟨hr, hj⟩
            exact h ⟨hr, by omega⟩
          simp [h', this]
      | block b => simp
    · funext q
      simp only [bump_slab, State.setTag, State.setNextI, State.setRegion, State.setClass,
        REGION_ALLOC, quill_alloc_init_global, State.fresh, filled]
      cases q with
      | slot r j => simp
      | block b => simp
    · rfl
    · rfl
    · rfl
    · rfl
  rw [← hs]
  rfl

/-- A further allocation of 200 bytes by thread 0 while its region has room. -/
theorem next_alloc_filled (j : Nat) (h1 : 1 ≤ j) (h2 : j < REGION_SLAB_COUNT) :
    quill_alloc_alloc 0 200 (filled j) = .ok (.slot 0 j, filled (j + 1)) := by
  have hne : j ≠ REGION_SLAB_COUNT := by omega
  have hmod : (j + 1) % WORD = j + 1 := by
    apply Nat.mod_eq_of_lt
    unfold REGION_SLAB_COUNT at h2
    unfold WORD
    omega
  have hs : (bump_slab 5 0 (filled j)).2 = filled (j + 1) := by
    apply State.ext
    · rfl
    · rfl
    · funext r
      simp only [bump_slab, State.setTag, State.setNextI, filled, if_true, hmod]
      split <;> rfl
    · funext q
      simp only [bump_slab, State.setTag, State.setNextI, filled, if_true, true_and]
      cases q with
      | slot r i =>
        by_cases hq : SlabPtr.slot r i = SlabPtr.slot 0 j
        · injection hq with hr hi
          subst hr hi
          simp
        · have hne' : ¬ (r = 0 ∧ i = j) := by
            rintro ⟨hr, hi⟩
            exact hq (by rw [hr, hi])
          simp only [hq, if_false]
          by_cases hr : r = 0
          · have : i ≠ j := fun hi => hne' ⟨hr, hi⟩
            have e : (i < j + 1) = (i < j) := by
              apply propext
              omega
            simp only [hr, true_and, e]
          · simp [hr]
      | block b => simp
    · rfl
    · rfl
    · rfl
    · rfl
    · rfl
  have hsz : size_class_of 200 = some 5 := by decide
  have hbig : ¬ 200 > MAX_SLAB_SIZE := by decide
  have hp : (bump_slab 5 0 (filled j)).1 = .slot 0 j := rfl
  rw [← hs, ← hp]
  simp only [quill_alloc_alloc, hbig, if_false, hsz]
  have hun : ((filled j).classes 0 5).unused_next = none := rfl
  have hcnt : ¬ ((filled j).global_unused 5).count ≥ G_UNUSED_BATCH_SIZE := by
    show ¬ (0 ≥ G_UNUSED_BATCH_SIZE)
    decide
  simp only [hun, hcnt, if_false, allocate_slab]
  have hnx : ((filled j).classes 0 5).next = some 0 := rfl
  have hni : ((filled j).region 0).next_i = j := rfl
  simp only [hnx, hni, hne, if_false]

/-- Thread 0 fills its region of class 5 up to slot `j + k`. -/
theorem alloc_times_filled :
    ∀ (k j : Nat), 1 ≤ j → j + k ≤ REGION_SLAB_COUNT →
      alloc_times 0 200 k (filled j) = some (filled (j + k))
  | 0, _, _, _ => rfl
  | k + 1, j, h1, h2 => by
    rw [alloc_times, next_alloc_filled j h1 (by omega)]
    simp only
    rw [alloc_times_filled k (j + 1) (by omega) (by omega)]
    congr 2
    omega

/-- The state after 8176 allocations of 200 bytes by thread 0 of a fresh
process. -/
theorem alloc_times_fresh :
    alloc_times 0 200 8176 (quill_alloc_init_global (State.fresh [true, true])) =
      some (filled 8176) := by
  have h : alloc_times 0 200 (8175 + 1) (quill_alloc_init_global (State.fresh [true, true])) =
      alloc_times 0 200 8175 (filled 1) := by
    rw [alloc_times, first_alloc_filled]
  exact h.trans (alloc_times_filled 8175 1 (by decide) (by decide))

/-- When the slab that `quill_alloc_alloc(n)` returns carries the tag of the
class of `n`, freeing it at once and allocating a size `m` of the same class
returns the same slab. -/
theorem alloc_free_alloc_same (t n m c : Nat) (s s1 : State) (p : SlabPtr)
    (hm : m ≤ MAX_SLAB_SIZE) (hcm : size_class_of m = some c) (hc : c < CLASS_COUNT)
    (_ha : quill_alloc_alloc t n s = .ok (p, s1))
    (htag : to_size_t (s1.slab p).class_i = c) :
    ∃ s2 s3, quill_alloc_free t p s1 = .ok s2 ∧ quill_alloc_alloc t m s2 = .ok (p, s3) := by
  refine ⟨_, ((s1.setNext p (s1.classes t c).unused_next).setUnusedNext t c
    (some p)).setUnusedNext t c
      (((s1.setNext p (s1.classes t c).unused_next).setUnusedNext t c (some p)).slab p).next,
    quill_alloc_free_slab t p s1 c htag hc, ?_⟩
  have hm' : ¬ m > MAX_SLAB_SIZE := by omega
  have hhd : (((s1.setNext p (s1.classes t c).unused_next).setUnusedNext t c
      (some p)).classes t c).unused_next = some p := by
    simp [State.setUnusedNext, State.setClass]
  simp only [quill_alloc_alloc, hm', if_false, hcm, hhd]

/-- Rounds of allocate-and-free of one class, started with a slab `p` at the
head of the free list that carries the tag of the class: every round returns
`p` and puts it back, and only list links change. -/
theorem churn_reuses_head (t n c : Nat) (p : SlabPtr)
    (hn : n ≤ MAX_SLAB_SIZE) (hcn : size_class_of n = some c) (hc : c < CLASS_COUNT) :
    ∀ (k : Nat) (s : State), (s.classes t c).unused_next = some p →
      to_size_t (s.slab p).class_i = c →
      ∃ s' T, churn t n k s = some s' ∧ Frame T s s' ∧
        (s'.classes t c).unused_next = some p
  | 0, s, hhd, _ => ⟨s, [], rfl, Frame.refl [] s, hhd⟩
  | k + 1, s, hhd, htag => by
    have hn' : ¬ n > MAX_SLAB_SIZE := by omega
    have e1 : quill_alloc_alloc t n s = .ok (p, s.setUnusedNext t c (s.slab p).next) := by
      simp only [quill_alloc_alloc, hn', if_false, hcn, hhd]
    have f1 := Frame.setUnusedNext s t c (s.slab p).next
    have htag1 : to_size_t ((s.setUnusedNext t c (s.slab p).next).slab p).class_i = c := by
      rw [f1.tag]
      exact htag
    have e2 := quill_alloc_free_slab t p _ c htag1 hc
    have f2 := (Frame.setNext (s.setUnusedNext t c (s.slab p).next) p
      ((s.setUnusedNext t c (s.slab p).next).classes t c).unused_next).trans
      (Frame.setUnusedNext ((s.setUnusedNext t c (s.slab p).next).setNext p
        ((s.setUnusedNext t c (s.slab p).next).classes t c).unused_next) t c (some p))
    obtain ⟨s', T, e3, f3, h3⟩ := churn_reuses_head t n c p hn hcn hc k
      (((s.setUnusedNext t c (s.slab p).next).setNext p
        ((s.setUnusedNext t c (s.slab p).next).classes t c).unused_next).setUnusedNext t c
          (some p))
      (by simp [State.setUnusedNext, State.setClass])
      (by
        rw [f2.tag]
        exact htag1)
    refine ⟨s', _, ?_, (f1.trans f2).trans f3, h3⟩
    simp only [churn, e1, e2, e3]

/-- When the slab that the first allocation of a class returns carries the
tag of the class, any number of further allocate-and-free rounds of the class
leave the region and its cursor as they were after the first allocation, and
acquire no region. -/
theorem churn_keeps_cursor (t n c k : Nat) (s s1 : State) (p : SlabPtr)
    (hn : n ≤ MAX_SLAB_SIZE) (hcn : size_class_of n = some c) (hc : c < CLASS_COUNT)
    (ha : quill_alloc_alloc t n s = .ok (p, s1))
    (htag : to_size_t (s1.slab p).class_i = c) :
    ∃ s', churn t n (k + 1) s = some s' ∧ s'.region = s1.region ∧
      (s'.classes t c).next = (s1.classes t c).next ∧ s'.regions = s1.regions := by
  have e2 := quill_alloc_free_slab t p s1 c htag hc
  have f2 := (Frame.setNext s1 p (s1.classes t c).unused_next).trans
    (Frame.setUnusedNext (s1.setNext p (s1.classes t c).unused_next) t c (some p))
  obtain ⟨s', T, e3, f3, -⟩ := churn_reuses_head t n c p hn hcn hc k
    ((s1.setNext p (s1.classes t c).unused_next).setUnusedNext t c (some p))
    (by simp [State.setUnusedNext, State.setClass])
    (by
      rw [f2.tag]
      exact htag)
  refine ⟨s', ?_, ?_, ?_, ?_⟩
  · simp only [churn, ha, e2, e3]
  · rw [f3.region, f2.region]
  · rw [f3.cnext, f2.cnext]
  · rw [f3.regions, f2.regions]

/-- C2 fails on the code: in a fresh process, thread 0 allocates 200 bytes
once (which leaves the state `filled 1`) and is torn down; thread 1 allocates
200 bytes and gets `slot 0 8176`, whose tag is 0 (the teardown pushed the slot
untagged), frees it, and allocates 200 bytes again: it gets `slot 0 8177`, not
the slab just freed. -/
theorem reuse_after_handover_differs :
    quill_alloc_alloc 0 200 (quill_alloc_init_global (State.fresh [true, true])) =
        .ok (.slot 0 0, filled 1) ∧
      reuse_after_handover (filled 1) = some (.slot 0 8176, 0, .slot 0 8177) :=
  ⟨first_alloc_filled, by decide!⟩

/-- C3 fails on the code: in a fresh process, thread 0 allocates 200 bytes
8176 times (which leaves the state `filled 8176`) and is torn down; thread 1
then allocates and frees 200 bytes in rounds.  Right after its first
allocation, and after 16 rounds, thread 1 has no region of class 5; the
allocation of round 17 bump-allocates from a new region, whose cursor is 1
afterwards. -/
theorem cursor_moves_after_handover :
    alloc_times 0 200 8176 (quill_alloc_init_global (State.fresh [true, true])) =
        some (filled 8176) ∧
      cursor_after_rounds (filled 8176) 16 = some (none, none, 0) ∧
      cursor_after_rounds (filled 8176) 17 = some (none, some 1, 1) :=
  ⟨alloc_times_fresh, by decide!, by decide!⟩

/-! ## Single calls of `quill_alloc_alloc` and `quill_alloc_free` -/

/-- Lists in memory depend on the `next` fields only. -/
theorem Chain.congr_next {slab slab' : SlabPtr → quill_slab}
    (h : ∀ q, (slab' q).next = (slab q).next) :
    ∀ {l : List SlabPtr} {hd : Option SlabPtr}, Chain slab hd l → Chain slab' hd l
  | [], _, hl => hl
  | p :: l, _, hl => by
    simp only [Chain] at hl ⊢
    refine ⟨hl.1, ?_⟩
    rw [h p]
    exact Chain.congr_next h hl.2

/-- The value of `NO_CLASS` read into a `size_t`. -/
theorem to_size_t_NO_CLASS : to_size_t NO_CLASS = WORD - 1 := by decide

/-- The large path of `quill_alloc_alloc` when the system heap grants. -/
theorem quill_alloc_alloc_large (t n : Nat) (s : State) (os : List Bool)
    (hn : n > MAX_SLAB_SIZE) (hos : s.os = true :: os) :
    quill_alloc_alloc t n s =
      .ok (.block s.blocks, (malloc s).2.setTag (.block s.blocks) NO_CLASS) := by
  simp only [quill_alloc_alloc, hn, if_true, malloc, hos]

/-- The large path of `quill_alloc_alloc` when the system heap refuses: the
null pointer is dereferenced. -/
theorem quill_alloc_alloc_large_refused (t n : Nat) (s : State)
    (hn : n > MAX_SLAB_SIZE) (hos : ∀ os, s.os ≠ true :: os) :
    quill_alloc_alloc t n s = .error .undefined := by
  have hm : (malloc s).1 = none := by
    unfold malloc
    split
    · next os h => exact absurd h (hos os)
    · rfl
    · rfl
  simp only [quill_alloc_alloc, hn, if_true]
  split
  · rfl
  · next b s1 h =>
    rw [h] at hm
    simp at hm

/-- Function `allocate_slab` when the class has a region with room. -/
theorem allocate_slab_usable (t c r : Nat) (s : State)
    (hr : (s.classes t c).next = some r) (hroom : (s.region r).next_i ≠ REGION_SLAB_COUNT) :
    allocate_slab t c s = .ok (bump_slab c r s) := by
  simp only [allocate_slab, hr, hroom, if_false]

/-- Function `allocate_slab` when the class has no region with room and the
OS grants a new one. -/
theorem allocate_slab_fresh (t c : Nat) (s : State) (os : List Bool)
    (hr : ∀ r, (s.classes t c).next = some r → (s.region r).next_i = REGION_SLAB_COUNT)
    (hos : s.os = true :: os) :
    allocate_slab t c s =
      .ok (bump_slab c s.regions
        (((REGION_ALLOC s).2.setNextI s.regions 0).setRegion t c (some s.regions))) := by
  have hreg : REGION_ALLOC s = (some s.regions, (REGION_ALLOC s).2) := by
    unfold REGION_ALLOC
    rw [hos]
  unfold allocate_slab
  cases hn : (s.classes t c).next with
  | none =>
    simp only
    rw [hreg]
  | some r =>
    simp only [hr r hn, if_true]
    rw [hreg]

/-- Function `allocate_slab` when the class has no region with room and the
OS refuses a new one: `quill_panic`. -/
theorem allocate_slab_refused (t c : Nat) (s : State)
    (hr : ∀ r, (s.classes t c).next = some r → (s.region r).next_i = REGION_SLAB_COUNT)
    (hos : ∀ os, s.os ≠ true :: os) :
    allocate_slab t c s = .error .panic := by
  have hreg : (REGION_ALLOC s).1 = none := by
    unfold REGION_ALLOC
    split
    · next os h => exact absurd h (hos os)
    · rfl
    · rfl
  have hpanic : (match REGION_ALLOC s with
      | (none, _) => (.error .panic : Except Fault (SlabPtr × State))
      | (some r, s1) =>
        .ok (bump_slab c r ((s1.setNextI r 0).setRegion t c (some r)))) = .error .panic := by
    split
    · rfl
    · next r s1 h =>
      rw [h] at hreg
      simp at hreg
  unfold allocate_slab
  cases hn : (s.classes t c).next with
  | none => exact hpanic
  | some r =>
    simp only [hr r hn, if_true]
    exact hpanic

/-- With an empty thread-local list and a global count below the batch size,
`quill_alloc_alloc` is `allocate_slab`. -/
theorem quill_alloc_alloc_bumps (t n c : Nat) (s : State)
    (hn : n ≤ MAX_SLAB_SIZE) (hc : size_class_of n = some c)
    (hl : (s.classes t c).unused_next = none)
    (hcount : (s.global_unused c).count < G_UNUSED_BATCH_SIZE) :
    quill_alloc_alloc t n s = allocate_slab t c s := by
  have hn' : ¬ n > MAX_SLAB_SIZE := by omega
  have hcount' : ¬ (s.global_unused c).count ≥ G_UNUSED_BATCH_SIZE := by omega
  simp only [quill_alloc_alloc, hn', if_false, hc, hl, hcount']

/-- With a non-empty thread-local list, `quill_alloc_alloc` pops its head. -/
theorem quill_alloc_alloc_fast (t n c : Nat) (s : State) (p : SlabPtr)
    (hn : n ≤ MAX_SLAB_SIZE) (hc : size_class_of n = some c)
    (hhd : (s.classes t c).unused_next = some p) :
    quill_alloc_alloc t n s = .ok (p, s.setUnusedNext t c (s.slab p).next) := by
  have hn' : ¬ n > MAX_SLAB_SIZE := by omega
  simp only [quill_alloc_alloc, hn', if_false, hc, hhd]

/-- C12: for `n > 256` and a system heap that grants the request,
`quill_alloc_alloc(n)` returns a new system-heap block with header tag
`NO_CLASS` (which reads as `2^64 - 1` in a `size_t`, as `NO_CLASS` itself
does) and leaves every thread's class state, every global pool, every region
cursor and every `next` link alone; `quill_alloc_free` of the block (by any
thread) releases it to the system heap and again leaves all of these alone,
so that after the round trip every free list in memory is the list it was. -/
theorem large_round_trip (t t' n : Nat) (s : State) (os : List Bool)
    (hn : n > MAX_SLAB_SIZE) (hos : s.os = true :: os) :
    ∃ s1 s2, quill_alloc_alloc t n s = .ok (.block s.blocks, s1) ∧
      (s1.slab (.block s.blocks)).class_i = NO_CLASS ∧
      to_size_t (s1.slab (.block s.blocks)).class_i = WORD - 1 ∧
      to_size_t NO_CLASS = WORD - 1 ∧
      s1.classes = s.classes ∧ s1.global_unused = s.global_unused ∧
      s1.region = s.region ∧ (∀ q, (s1.slab q).next = (s.slab q).next) ∧
      s1.live = s.blocks :: s.live ∧
      quill_alloc_free t' (.block s.blocks) s1 = .ok s2 ∧
      s2.classes = s.classes ∧ s2.global_unused = s.global_unused ∧
      s2.region = s.region ∧ s2.slab = s1.slab ∧ s2.live = s.live ∧
      (∀ hd l, Chain s2.slab hd l ↔ Chain s.slab hd l) := by
  have hm : (malloc s).2.classes = s.classes ∧ (malloc s).2.global_unused = s.global_unused ∧
      (malloc s).2.region = s.region ∧ (malloc s).2.slab = s.slab ∧
      (malloc s).2.live = s.blocks :: s.live := by
    simp [malloc, hos]
  obtain ⟨m1, m2, m3, m4, m5⟩ := hm
  have hnext : ∀ q, (((malloc s).2.setTag (.block s.blocks) NO_CLASS).slab q).next =
      (s.slab q).next := by
    intro q
    simp only [State.setTag, m4]
    split
    · next h => rw [h]
    · rfl
  have htag : (((malloc s).2.setTag (.block s.blocks) NO_CLASS).slab
      (.block s.blocks)).class_i = NO_CLASS := by
    simp [State.setTag]
  have hmem : s.blocks ∈ ((malloc s).2.setTag (.block s.blocks) NO_CLASS).live := by
    show s.blocks ∈ (malloc s).2.live
    rw [m5]
    exact List.mem_cons_self _ _
  refine ⟨(malloc s).2.setTag (.block s.blocks) NO_CLASS,
    { (malloc s).2.setTag (.block s.blocks) NO_CLASS with
      live := ((malloc s).2.setTag (.block s.blocks) NO_CLASS).live.erase s.blocks },
    quill_alloc_alloc_large t n s os hn hos, htag, ?_, to_size_t_NO_CLASS, m1, m2,
    m3, hnext, m5, ?_, m1, m2, m3, rfl, ?_, ?_⟩
  · rw [htag]
    exact to_size_t_NO_CLASS
  · simp only [quill_alloc_free, htag, if_true]
    rw [if_pos hmem]
  · show (malloc s).2.live.erase s.blocks = s.live
    rw [m5]
    simp
  · intro hd l
    exact ⟨Chain.congr_next (fun q => (hnext q).symm), Chain.congr_next hnext⟩

/-- C14 fails on the code in the large path: when the system heap refuses the
memory of a request above 256 bytes, `quill_alloc_alloc` does not call
`quill_panic` but writes the tag through the null pointer (here for 257 bytes
in a fresh process whose OS refuses, and for every such call).  In the small
path the claim holds: when a new region is needed and the OS refuses it, the
call ends in `quill_panic`. -/
theorem refused_memory_outcomes :
    quill_alloc_alloc 0 257 (quill_alloc_init_global (State.fresh [])) = .error .undefined ∧
      (∀ (t n : Nat) (s : State), n > MAX_SLAB_SIZE → (∀ os, s.os ≠ true :: os) →
        quill_alloc_alloc t n s = .error .undefined) ∧
      quill_alloc_alloc 0 8 (quill_alloc_init_global (State.fresh [])) = .error .panic ∧
      (∀ (t n c : Nat) (s : State), n ≤ MAX_SLAB_SIZE → size_class_of n = some c →
        (s.classes t c).unused_next = none →
        (s.global_unused c).count < G_UNUSED_BATCH_SIZE →
        (∀ r, (s.classes t c).next = some r → (s.region r).next_i = REGION_SLAB_COUNT) →
        (∀ os, s.os ≠ true :: os) →
        quill_alloc_alloc t n s = .error .panic) := by
  refine ⟨rfl, quill_alloc_alloc_large_refused, rfl, ?_⟩
  intro t n c s hn hc hl hcount hr hos
  rw [quill_alloc_alloc_bumps t n c s hn hc hl hcount]
  exact allocate_slab_refused t c s hr hos

/-- C17: with an empty thread-local list of the class `c` of `n ≤ 256` and a
global count of `c` below 16, `quill_alloc_alloc(n)` bump-allocates.  (1) If
the class has a region with cursor other than 8192, the call returns the slot
at the cursor, writes tag `c` into it and advances the cursor by one (modulo
`2^64`, so by exactly one for a cursor below 8192); nothing else changes.
(2) Otherwise, if the OS grants a region, the call returns slot 0 of the new
region, which becomes the region of the class with cursor 1, and writes tag
`c` into it; if the OS refuses, the call panics.  In both cases the global
pools (list heads and counts) are untouched, whatever they hold. -/
theorem bump_path (t n c : Nat) (s : State)
    (hn : n ≤ MAX_SLAB_SIZE) (hc : size_class_of n = some c)
    (hl : (s.classes t c).unused_next = none)
    (hcount : (s.global_unused c).count < G_UNUSED_BATCH_SIZE) :
    (∀ r, (s.classes t c).next = some r → (s.region r).next_i ≠ REGION_SLAB_COUNT →
      ∃ s', quill_alloc_alloc t n s = .ok (.slot r (s.region r).next_i, s') ∧
        s' = (s.setNextI r (((s.region r).next_i + 1) % WORD)).setTag
          (.slot r (s.region r).next_i) (c : Int) ∧
        (s'.slab (.slot r (s.region r).next_i)).class_i = (c : Int) ∧
        (s'.region r).next_i = ((s.region r).next_i + 1) % WORD ∧
        ((s.region r).next_i < REGION_SLAB_COUNT →
          (s'.region r).next_i = (s.region r).next_i + 1) ∧
        s'.classes = s.classes ∧ s'.global_unused = s.global_unused ∧
        (∀ q, (s'.slab q).next = (s.slab q).next)) ∧
    ((∀ r, (s.classes t c).next = some r → (s.region r).next_i = REGION_SLAB_COUNT) →
      (∀ os, s.os = true :: os →
        ∃ s', quill_alloc_alloc t n s = .ok (.slot s.regions 0, s') ∧
          (s'.slab (.slot s.regions 0)).class_i = (c : Int) ∧
          (s'.classes t c).next = some s.regions ∧
          (s'.region s.regions).next_i = 1 ∧
          s'.regions = s.regions + 1 ∧
          s'.global_unused = s.global_unused ∧
          (∀ r i, r ≠ s.regions → s'.slab (.slot r i) = s.slab (.slot r i))) ∧
      ((∀ os, s.os ≠ true :: os) → quill_alloc_alloc t n s = .error .panic)) := by
  have hb := quill_alloc_alloc_bumps t n c s hn hc hl hcount
  refine ⟨?_, ?_⟩
  · intro r hr hroom
    refine ⟨_, ?_, rfl, ?_, ?_, ?_, rfl, rfl, ?_⟩
    · rw [hb, allocate_slab_usable t c r s hr hroom]
      rfl
    · simp [State.setTag]
    · simp [State.setTag, State.setNextI]
    · intro hlt
      have : ((s.region r).next_i + 1) % WORD = (s.region r).next_i + 1 := by
        apply Nat.mod_eq_of_lt
        unfold REGION_SLAB_COUNT at hlt
        unfold WORD
        omega
      simp [State.setTag, State.setNextI, this]
    · intro q
      simp only [State.setTag, State.setNextI]
      split
      · next h => rw [h]
      · rfl
  · intro hr
    refine ⟨?_, fun hos => by rw [hb]; exact allocate_slab_refused t c s hr hos⟩
    intro os hos
    have hcur : ((((REGION_ALLOC s).2.setNextI s.regions 0).setRegion t c
        (some s.regions)).region s.regions).next_i = 0 := by
      simp [State.setRegion, State.setClass, State.setNextI]
    have hregs : (REGION_ALLOC s).2.regions = s.regions + 1 := by
      simp [REGION_ALLOC, hos]
    have hglob : (REGION_ALLOC s).2.global_unused = s.global_unused := by
      simp [REGION_ALLOC, hos]
    have hslab : ∀ r i, r ≠ s.regions →
        (REGION_ALLOC s).2.slab (.slot r i) = s.slab (.slot r i) := by
      intro r i hri
      simp [REGION_ALLOC, hos, hri]
    have hone : (0 + 1) % WORD = 1 := by decide
    have hb2 : bump_slab c s.regions
        (((REGION_ALLOC s).2.setNextI s.regions 0).setRegion t c (some s.regions)) =
        (.slot s.regions 0,
          ((((REGION_ALLOC s).2.setNextI s.regions 0).setRegion t c (some s.regions)).setNextI
            s.regions 1).setTag (.slot s.regions 0) (c : Int)) := by
      simp only [bump_slab, hcur, hone]
    refine ⟨((((REGION_ALLOC s).2.setNextI s.regions 0).setRegion t c (some s.regions)).setNextI
        s.regions 1).setTag (.slot s.regions 0) (c : Int), ?_, ?_, ?_, ?_, ?_, ?_, ?_⟩
    · rw [hb, allocate_slab_fresh t c s os hr hos, hb2]
    · simp [State.setTag]
    · simp [State.setTag, State.setNextI, State.setRegion, State.setClass]
    · simp [State.setTag, State.setNextI]
    · exact hregs
    · exact hglob
    · intro r i hri
      have hne : SlabPtr.slot r i ≠ SlabPtr.slot s.regions 0 := by
        intro h
        injection h with h1 h2
        exact hri h1
      simp only [State.setTag, State.setNextI, State.setRegion, State.setClass, hne, if_false]
      exact hslab r i hri

/-- C18: with a non-empty thread-local list of the class `c` of `n ≤ 256`,
`quill_alloc_alloc(n)` returns the head `p` of the list, and the state after
it differs from the state before only in the head of that list, which is now
`p->next`: the rest of the list stays, and the region and cursor of `c`, every
other class of every thread, every global pool and the whole memory are
unchanged. -/
theorem fast_path_frame (t n c : Nat) (s : State) (p : SlabPtr)
    (hn : n ≤ MAX_SLAB_SIZE) (hc : size_class_of n = some c)
    (hhd : (s.classes t c).unused_next = some p) :
    ∃ s', quill_alloc_alloc t n s = .ok (p, s') ∧
      (s'.classes t c).unused_next = (s.slab p).next ∧
      (∀ l, Chain s.slab (s.classes t c).unused_next (p :: l) →
        Chain s'.slab (s'.classes t c).unused_next l) ∧
      (s'.classes t c).next = (s.classes t c).next ∧
      (s'.classes t c).slab_content_size = (s.classes t c).slab_content_size ∧
      (∀ t' i, ¬ (t' = t ∧ i = c) → s'.classes t' i = s.classes t' i) ∧
      s'.global_unused = s.global_unused ∧ s'.region = s.region ∧ s'.slab = s.slab ∧
      s'.alloc = s.alloc ∧ s'.regions = s.regions ∧ s'.blocks = s.blocks ∧
      s'.live = s.live ∧ s'.os = s.os := by
  refine ⟨_, quill_alloc_alloc_fast t n c s p hn hc hhd, ?_, ?_, ?_, ?_, ?_, rfl, rfl, rfl, rfl,
    rfl, rfl, rfl, rfl⟩
  · simp [State.setUnusedNext, State.setClass]
  · intro l hl
    simp only [Chain] at hl
    simpa [State.setUnusedNext, State.setClass] using hl.2
  · simp [State.setUnusedNext, State.setClass]
  · simp [State.setUnusedNext, State.setClass]
  · intro t' i hi
    simp [State.setUnusedNext, State.setClass, hi]

/-- Function `allocate_slab` never touches the global pools. -/
theorem allocate_slab_global (t c : Nat) (s s' : State) (p : SlabPtr)
    (h : allocate_slab t c s = .ok (p, s')) : s'.global_unused = s.global_unused := by
  have hreg : (REGION_ALLOC s).2.global_unused = s.global_unused := by
    unfold REGION_ALLOC
    split <;> rfl
  have hfresh : (match REGION_ALLOC s with
      | (none, _) => (.error .panic : Except Fault (SlabPtr × State))
      | (some r, s1) => .ok (bump_slab c r ((s1.setNextI r 0).setRegion t c (some r)))) =
      .ok (p, s') → s'.global_unused = s.global_unused := by
    intro h
    cases hR : REGION_ALLOC s with
    | mk o s1 =>
      rw [hR] at h hreg
      cases o with
      | none => simp at h
      | some r =>
        simp only [Except.ok.injEq] at h
        rw [← (Prod.mk.inj h).2]
        exact hreg
  unfold allocate_slab at h
  cases hn : (s.classes t c).next with
  | none =>
    rw [hn] at h
    exact hfresh h
  | some r =>
    rw [hn] at h
    by_cases hfull : (s.region r).next_i = REGION_SLAB_COUNT
    · simp only [hfull, if_true] at h
      exact hfresh h
    · simp only [hfull, if_false, Except.ok.injEq] at h
      rw [← (Prod.mk.inj h).2]
      rfl

/-- A pull from an empty global list whose count is a `uint64_t` value
changes nothing. -/
theorem fetch_global_unused_empty (t c : Nat) (s : State)
    (hG : (s.global_unused c).next = none) (hword : (s.global_unused c).count < WORD) :
    fetch_global_unused t c s = s := by
  have hloop : fetch_loop t c G_UNUSED_BATCH_SIZE 0 s = (0, s) := by
    show fetch_loop t c (15 + 1) 0 s = (0, s)
    simp only [fetch_loop, hG]
  have hcnt : ((s.global_unused c).count + WORD - 0) % WORD = (s.global_unused c).count := by
    rw [Nat.sub_zero, Nat.add_mod_right, Nat.mod_eq_of_lt hword]
  unfold fetch_global_unused
  rw [hloop]
  simp only [hcnt]
  apply State.ext <;> try rfl
  funext i
  simp only [State.setGlobal]
  split
  · next h => rw [h]
  · rfl

/-- C19: the thread-local list of the class `c` of `n ≤ 256` is empty and the
global count reads at least 16 although the global list `G` holds fewer than
16 slabs.  Then the pull of `quill_alloc_alloc(n)` moves all of `G` to the
thread (in reverse order), empties the global list and lowers the count by
exactly `|G|`.  If `G` is not empty, the call returns the last slab of `G`
and keeps the others on the thread-local list, acquiring no region; if `G` is
empty, the pull changes nothing and the call is `allocate_slab`, which
returns a slab whenever the OS grants the next request, the count unchanged. -/
theorem stale_count_pull (t n c : Nat) (s : State) (G : List SlabPtr)
    (hn : n ≤ MAX_SLAB_SIZE) (hc : size_class_of n = some c)
    (hl : (s.classes t c).unused_next = none)
    (hcount : (s.global_unused c).count ≥ G_UNUSED_BATCH_SIZE)
    (hword : (s.global_unused c).count < WORD)
    (hG : Chain s.slab (s.global_unused c).next G) (hnd : G.Nodup)
    (hshort : G.length < G_UNUSED_BATCH_SIZE) :
    Chain (fetch_global_unused t c s).slab
        ((fetch_global_unused t c s).classes t c).unused_next G.reverse ∧
      ((fetch_global_unused t c s).global_unused c).next = none ∧
      ((fetch_global_unused t c s).global_unused c).count =
        (s.global_unused c).count - G.length ∧
      (∀ g G', G = G' ++ [g] →
        ∃ s', quill_alloc_alloc t n s = .ok (g, s') ∧
          Chain s'.slab (s'.classes t c).unused_next G'.reverse ∧
          (s'.global_unused c).next = none ∧
          (s'.global_unused c).count = (s.global_unused c).count - G.length ∧
          s'.region = s.region ∧ (s'.classes t c).next = (s.classes t c).next ∧
          s'.regions = s.regions ∧ s'.os = s.os) ∧
      (G = [] →
        fetch_global_unused t c s = s ∧
        quill_alloc_alloc t n s = allocate_slab t c s ∧
        (∀ p s', quill_alloc_alloc t n s = .ok (p, s') →
          s'.global_unused = s.global_unused) ∧
        (∀ os, s.os = true :: os → ∃ p s', quill_alloc_alloc t n s = .ok (p, s'))) := by
  have hn' : ¬ n > MAX_SLAB_SIZE := by omega
  have hL : Chain s.slab (s.classes t c).unused_next [] := by
    simp only [Chain]
    exact hl
  obtain ⟨i1, i2, i3, i4, i5, -, -⟩ :=
    fetch_loop_spec t c G_UNUSED_BATCH_SIZE 0 s G [] hG hL (by simpa using hnd)
  have htake : G.take G_UNUSED_BATCH_SIZE = G := List.take_of_length_le (by omega)
  have hdrop : G.drop G_UNUSED_BATCH_SIZE = [] := List.drop_eq_nil_of_le (by omega)
  rw [htake, List.append_nil] at i3
  rw [hdrop] at i2
  rw [htake] at i4
  have hmin : min G_UNUSED_BATCH_SIZE G.length = G.length := by omega
  rw [hmin, Nat.zero_add] at i1
  have f1 : Chain (fetch_global_unused t c s).slab
      ((fetch_global_unused t c s).classes t c).unused_next G.reverse := by
    simpa [fetch_global_unused, State.setGlobal] using i3
  have f2 : ((fetch_global_unused t c s).global_unused c).next = none := by
    simp only [Chain] at i2
    simpa [fetch_global_unused, State.setGlobal] using i2
  have f3 : ((fetch_global_unused t c s).global_unused c).count =
      (s.global_unused c).count - G.length := by
    simp only [fetch_global_unused, State.setGlobal, if_true, i1, i5]
    have e : (s.global_unused c).count + WORD - G.length =
        WORD + ((s.global_unused c).count - G.length) := by omega
    rw [e, Nat.add_mod_left]
    exact Nat.mod_eq_of_lt (by omega)
  have f4 : Frame G s (fetch_global_unused t c s) := by
    simpa using i4.trans (Frame.setGlobal_count _ c _)
  refine ⟨f1, f2, f3, ?_, ?_⟩
  · intro g G' hGG
    rw [hGG, List.reverse_append, List.reverse_singleton, List.singleton_append] at f1
    have hhd : ((fetch_global_unused t c s).classes t c).unused_next = some g := by
      simp only [Chain] at f1
      exact f1.1
    have ftl := f1
    simp only [Chain] at ftl
    have f5 := Frame.setUnusedNext (fetch_global_unused t c s) t c
      ((fetch_global_unused t c s).slab g).next
    refine ⟨(fetch_global_unused t c s).setUnusedNext t c
      ((fetch_global_unused t c s).slab g).next, ?_, ?_, ?_, ?_, ?_, ?_, ?_, ?_⟩
    · simp only [quill_alloc_alloc, hn', if_false, hc, hl, hcount, ge_iff_le, if_true, hhd]
    · simpa [State.setUnusedNext, State.setClass] using ftl.2
    · exact f2
    · exact f3
    · rw [f5.region, f4.region]
    · rw [f5.cnext, f4.cnext]
    · rw [f5.regions, f4.regions]
    · rw [f5.os, f4.os]
  · intro hnil
    subst hnil
    simp only [Chain] at hG
    have hfe := fetch_global_unused_empty t c s hG hword
    have ha : quill_alloc_alloc t n s = allocate_slab t c s := by
      simp only [quill_alloc_alloc, hn', if_false, hc, hl, hcount, ge_iff_le, if_true, hfe]
    refine ⟨hfe, ha, ?_, ?_⟩
    · intro p s' h
      rw [ha] at h
      exact allocate_slab_global t c s s' p h
    · intro os hos
      rw [ha]
      exact allocate_slab_returns t c s os hos

/-! ## Page rounding in `mmap_alloc` -/

/-- Clearing the low `k` bits of a 64-bit value rounds it down to a multiple
of `2^k`. -/
theorem land_high_mask (x k : Nat) (hx : x < 2 ^ 64) (hk : k ≤ 64) :
    x &&& (2 ^ 64 - ((2 ^ k - 1) + 1)) = 2 ^ k * (x / 2 ^ k) := by
  apply Nat.eq_of_testBit_eq
  intro i
  have hlt : 2 ^ k - 1 < 2 ^ 64 := by
    have : 2 ^ k ≤ 2 ^ 64 := Nat.pow_le_pow_right (by decide) hk
    have : 0 < 2 ^ k := Nat.two_pow_pos k
    omega
  rw [Nat.testBit_and, Nat.testBit_two_pow_sub_succ hlt, Nat.testBit_two_pow_sub_one,
    Nat.testBit_mul_pow_two, ← Nat.shiftRight_eq_div_pow, Nat.testBit_shiftRight]
  by_cases hik : i < k
  · have : ¬ i ≥ k := by omega
    simp [hik, this]
  · have hge : i ≥ k := by omega
    have e : k + (i - k) = i := by omega
    rw [e]
    by_cases hi : i < 64
    · simp [hik, hge, hi]
    · have hxi : x.testBit i = false := by
        apply Nat.testBit_lt_two_pow
        calc x < 2 ^ 64 := hx
          _ ≤ 2 ^ i := Nat.pow_le_pow_right (by decide) (by omega)
      simp [hxi]

/-- The size passed to the OS, for a page size `2^k` and a request whose
rounding does not overflow. -/
theorem aligned_size_eq (s k : Nat) (hk : k < 64) (hs : s + 2 ^ k - 1 < WORD) :
    aligned_size s (2 ^ k) = 2 ^ k * ((s + 2 ^ k - 1) / 2 ^ k) := by
  have hpos : 0 < 2 ^ k := Nat.two_pow_pos k
  have hP : 2 ^ k < WORD := by
    unfold WORD
    exact Nat.pow_lt_pow_right (by decide) hk
  have h1 : ((s + 2 ^ k) % WORD + WORD - 1) % WORD = s + 2 ^ k - 1 := by
    rcases Nat.lt_or_ge (s + 2 ^ k) WORD with h | h
    · rw [Nat.mod_eq_of_lt h]
      have e : s + 2 ^ k + WORD - 1 = (s + 2 ^ k - 1) + WORD := by omega
      rw [e, Nat.add_mod_right, Nat.mod_eq_of_lt hs]
    · have e : s + 2 ^ k = WORD := by omega
      rw [e, Nat.mod_self]
      have e2 : 0 + WORD - 1 = WORD - 1 := by omega
      rw [e2, Nat.mod_eq_of_lt (by omega)]
  have h2 : WORD - 1 - (2 ^ k + WORD - 1) % WORD = 2 ^ 64 - ((2 ^ k - 1) + 1) := by
    have e : 2 ^ k + WORD - 1 = (2 ^ k - 1) + WORD := by omega
    rw [e, Nat.add_mod_right, Nat.mod_eq_of_lt (by omega)]
    unfold WORD
    omega
  unfold aligned_size
  rw [h1, h2]
  exact land_high_mask _ k hs (by omega)

/-- C20: for a page size `P = 2^k` (`k < 64`) and a request `s` with
`s + P - 1` representable in `size_t`, the size that `mmap_alloc` and
`mmap_free` pass to the OS is a multiple of `P`, is at least `s`, is at most
every multiple of `P` that is at least `s`, and is `s` itself when `s` is a
multiple of `P`. -/
theorem aligned_size_least_multiple (s k : Nat) (hk : k < 64)
    (hs : s + 2 ^ k - 1 < WORD) :
    2 ^ k ∣ aligned_size s (2 ^ k) ∧ s ≤ aligned_size s (2 ^ k) ∧
      (∀ m, 2 ^ k ∣ m → s ≤ m → aligned_size s (2 ^ k) ≤ m) ∧
      (2 ^ k ∣ s → aligned_size s (2 ^ k) = s) := by
  have hpos : 0 < 2 ^ k := Nat.two_pow_pos k
  rw [aligned_size_eq s k hk hs]
  have hdm := Nat.div_add_mod (s + 2 ^ k - 1) (2 ^ k)
  have hmod := Nat.mod_lt (s + 2 ^ k - 1) hpos
  refine ⟨Dvd.intro _ rfl, by omega, ?_, ?_⟩
  · rintro m ⟨j, rfl⟩ hsm
    apply Nat.mul_le_mul_left
    rw [Nat.div_le_iff_le_mul_add_pred hpos]
    have hsm' : s ≤ 2 ^ k * j := hsm
    have hc := Nat.mul_comm (2 ^ k) j
    omega
  · rintro ⟨j, rfl⟩
    have e : 2 ^ k * j + 2 ^ k - 1 = 2 ^ k - 1 + 2 ^ k * j := by omega
    rw [e, Nat.add_mul_div_left _ _ hpos, Nat.div_eq_of_lt (by omega), Nat.zero_add]

/-! ## Properties of all reachable states -/

/-- C11 fails on the code: in a fresh process, thread 0 allocates 200 bytes
once (class 5, which leaves the state `filled 1`) and is torn down.  The head
of the global free list of class 5 is then `slot 0 8191` with tag 0, not 5.
Thread 1 allocates 200 bytes and gets `slot 0 8176` with tag 0, not
`size_class_of[200] = 5`; when it frees the slab, the slab becomes the head of
its free list of class 0, not of class 5. -/
theorem tags_after_handover_stale :
    quill_alloc_alloc 0 200 (quill_alloc_init_global (State.fresh [true, true])) =
        .ok (.slot 0 0, filled 1) ∧
      size_class_of 200 = some 5 ∧
      tags_after_handover (filled 1) =
        some (.slot 0 8191, 0, .slot 0 8176, 0, some (.slot 0 8176)) :=
  ⟨first_alloc_filled, by decide, by decide!⟩

/-- The first loop of the teardown only rewires lists, whatever the state. -/
theorem drain_local_frame (t c : Nat) :
    ∀ (fuel a : Nat) (s : State) (a' : Nat) (s' : State),
      drain_local t c fuel a s = some (a', s') → ∃ T, Frame T s s'
  | 0, _, _, _, _, h => by simp [drain_local] at h
  | fuel + 1, a, s, a', s', h => by
    cases hl : (s.classes t c).unused_next with
    | none =>
      simp only [drain_local, hl, Option.some.injEq, Prod.mk.injEq] at h
      rw [← h.2]
      exact ⟨[], Frame.refl [] s⟩
    | some p =>
      rw [drain_local_succ t c fuel a s p hl] at h
      obtain ⟨T, hT⟩ := drain_local_frame t c fuel _ _ a' s' h
      have h1 := Frame.setUnusedNext s t c (s.slab p).next
      have h2 := Frame.setNext (s.setUnusedNext t c (s.slab p).next) p (s.global_unused c).next
      have h3 := Frame.setGlobal_next
        ((s.setUnusedNext t c (s.slab p).next).setNext p (s.global_unused c).next) c (some p)
      exact ⟨(([] ++ [p]) ++ []) ++ T, ((h1.trans h2).trans h3).trans hT⟩

/-- The second loop of the teardown only rewires lists, whatever the state. -/
theorem drain_region_frame (c r : Nat) :
    ∀ (k i a : Nat) (s : State), ∃ T, Frame T s (drain_region c r k i a s).2
  | 0, _, _, s => ⟨[], Frame.refl [] s⟩
  | k + 1, i, a, s => by
    obtain ⟨T, hT⟩ := drain_region_frame c r k (i + 1) ((a + 1) % WORD)
      ((s.setNext (SlabPtr.slot r i) (s.global_unused c).next).setGlobal c
        { s.global_unused c with next := some (SlabPtr.slot r i) })
    have h1 := Frame.setNext s (SlabPtr.slot r i) (s.global_unused c).next
    have h2 := Frame.setGlobal_next (s.setNext (SlabPtr.slot r i) (s.global_unused c).next) c
      (some (SlabPtr.slot r i))
    exact ⟨([SlabPtr.slot r i] ++ []) ++ T, (h1.trans h2).trans hT⟩

/-- The teardown of one class only rewires lists, whatever the state. -/
theorem destruct_class_frame (t c fuel : Nat) (s s' : State)
    (h : destruct_class t c fuel s = some s') : ∃ T, Frame T s s' := by
  unfold destruct_class at h
  cases hd : drain_local t c fuel 0 s with
  | none => simp [hd] at h
  | some r1 =>
    obtain ⟨a1, s1⟩ := r1
    obtain ⟨T1, hT1⟩ := drain_local_frame t c fuel 0 s a1 s1 hd
    simp only [hd, Option.some.injEq] at h
    rw [← h]
    cases hn : (s1.classes t c).next with
    | none => exact ⟨T1 ++ [], hT1.trans (Frame.setGlobal_count s1 c _)⟩
    | some r =>
      obtain ⟨T2, hT2⟩ := drain_region_frame c r (REGION_SLAB_COUNT - (s1.region r).next_i)
        (s1.region r).next_i a1 s1
      exact ⟨(T1 ++ T2) ++ [], (hT1.trans hT2).trans (Frame.setGlobal_count _ c _)⟩

/-- The teardown only rewires lists, whatever the state. -/
theorem destruct_classes_frame (t fuel : Nat) :
    ∀ (k c : Nat) (s s' : State), destruct_classes t fuel k c s = some s' → ∃ T, Frame T s s'
  | 0, _, s, s', h => by
    simp only [destruct_classes, Option.some.injEq] at h
    rw [← h]
    exact ⟨[], Frame.refl [] s⟩
  | k + 1, c, s, s', h => by
    simp only [destruct_classes] at h
    cases hd : destruct_class t c fuel s with
    | none => simp [hd] at h
    | some s1 =>
      simp only [hd] at h
      obtain ⟨T1, hT1⟩ := destruct_class_frame t c fuel s s1 hd
      obtain ⟨T2, hT2⟩ := destruct_classes_frame t fuel k (c + 1) s1 s' h
      exact ⟨T1 ++ T2, hT1.trans hT2⟩

/-- Function `quill_alloc_free` changes neither a region header nor the
region of a class. -/
theorem quill_alloc_free_regions (t : Nat) (p : SlabPtr) (s s' : State)
    (h : quill_alloc_free t p s = .ok s') :
    s'.region = s.region ∧ ∀ t' c, (s'.classes t' c).next = (s.classes t' c).next := by
  by_cases hno : to_size_t (s.slab p).class_i = to_size_t NO_CLASS
  · cases p with
    | slot r i => simp [quill_alloc_free, hno] at h
    | block b =>
      by_cases hb : b ∈ s.live
      · simp only [quill_alloc_free, hno, if_true, hb, Except.ok.injEq] at h
        rw [← h]
        exact ⟨rfl, fun _ _ => rfl⟩
      · simp [quill_alloc_free, hno, hb] at h
  · by_cases hlt : to_size_t (s.slab p).class_i < CLASS_COUNT
    · simp only [quill_alloc_free, hno, if_false, hlt, if_true, Except.ok.injEq] at h
      rw [← h]
      have f := (Frame.setNext s p (s.classes t (to_size_t (s.slab p).class_i)).unused_next).trans
        (Frame.setUnusedNext _ t (to_size_t (s.slab p).class_i) (some p))
      exact ⟨f.region, f.cnext⟩
    · simp [quill_alloc_free, hno, hlt] at h

/-- The cursor bound only depends on the region headers and the regions of
the classes. -/
theorem CursorInv.of_same {s s' : State} (h : CursorInv s) (hr : s'.region = s.region)
    (hc : ∀ t c, (s'.classes t c).next = (s.classes t c).next) : CursorInv s' := by
  intro t c r hn
  rw [hr]
  exact h t c r (by rw [← hc]; exact hn)

/-- What `allocate_slab` does to the cursors, in a state in which every
cursor is at most `REGION_SLAB_COUNT`: it keeps the bound, and either takes
the slot at a cursor below `REGION_SLAB_COUNT` of the current region, or -
when there is no current region or its cursor is `REGION_SLAB_COUNT` - takes
slot 0 of a region obtained from the OS. -/
theorem allocate_slab_cursor (t c : Nat) (s s' : State) (p : SlabPtr)
    (hinv : CursorInv s) (h : allocate_slab t c s = .ok (p, s')) :
    CursorInv s' ∧
      ((∃ r, (s.classes t c).next = some r ∧ (s.region r).next_i < REGION_SLAB_COUNT ∧
          p = .slot r (s.region r).next_i ∧ (s'.classes t c).next = some r ∧
          (s'.region r).next_i = (s.region r).next_i + 1 ∧ s'.regions = s.regions) ∨
        ((∀ r, (s.classes t c).next = some r → (s.region r).next_i = REGION_SLAB_COUNT) ∧
          p = .slot s.regions 0 ∧ (s'.classes t c).next = some s.regions ∧
          (s'.region s.regions).next_i = 1 ∧ s'.regions = s.regions + 1)) := by
  by_cases hroom : ∃ r, (s.classes t c).next = some r ∧ (s.region r).next_i ≠ REGION_SLAB_COUNT
  · obtain ⟨r, hr, hne⟩ := hroom
    have hle := hinv t c r hr
    have hlt : (s.region r).next_i < REGION_SLAB_COUNT := by omega
    have hmod : ((s.region r).next_i + 1) % WORD = (s.region r).next_i + 1 := by
      apply Nat.mod_eq_of_lt
      unfold REGION_SLAB_COUNT at hlt
      unfold WORD
      omega
    rw [allocate_slab_usable t c r s hr hne] at h
    simp only [Except.ok.injEq] at h
    have hp := (Prod.mk.inj h).1
    have hs := (Prod.mk.inj h).2
    refine ⟨?_, Or.inl ⟨r, hr, hlt, hp.symm, ?_, ?_, ?_⟩⟩
    · intro t' c' r' hn'
      rw [← hs] at hn' ⊢
      have hn'' : (s.classes t' c').next = some r' := hn'
      by_cases heq : r' = r
      · simp only [bump_slab, State.setTag, State.setNextI, hmod, heq, if_true]
        omega
      · simp only [bump_slab, State.setTag, State.setNextI, heq, if_false]
        exact hinv t' c' r' hn''
    · rw [← hs]
      exact hr
    · rw [← hs]
      simp [bump_slab, State.setTag, State.setNextI, hmod]
    · rw [← hs]
      rfl
  · have hfull : ∀ r, (s.classes t c).next = some r →
        (s.region r).next_i = REGION_SLAB_COUNT := by
      intro r hr
      by_contra hne
      exact hroom ⟨r, hr, hne⟩
    have hos : ∃ os, s.os = true :: os := by
      by_contra hno
      have := allocate_slab_refused t c s hfull (fun os hos => hno ⟨os, hos⟩)
      rw [this] at h
      simp at h
    obtain ⟨os, hos⟩ := hos
    rw [allocate_slab_fresh t c s os hfull hos] at h
    simp only [Except.ok.injEq] at h
    have hp := (Prod.mk.inj h).1
    have hs := (Prod.mk.inj h).2
    have hcur : ((((REGION_ALLOC s).2.setNextI s.regions 0).setRegion t c
        (some s.regions)).region s.regions).next_i = 0 := by
      simp [State.setRegion, State.setClass, State.setNextI]
    have hregion : ∀ r, r ≠ s.regions → (REGION_ALLOC s).2.region r = s.region r := by
      intro r hr
      simp [REGION_ALLOC, hos, hr]
    have hclasses : (REGION_ALLOC s).2.classes = s.classes := by
      simp [REGION_ALLOC, hos]
    have hregs : (REGION_ALLOC s).2.regions = s.regions + 1 := by
      simp [REGION_ALLOC, hos]
    have hone : (0 + 1) % WORD = 1 := by decide
    refine ⟨?_, Or.inr ⟨hfull, ?_, ?_, ?_, ?_⟩⟩
    · intro t' c' r' hn'
      rw [← hs] at hn' ⊢
      simp only [bump_slab, hcur, hone, State.setTag, State.setNextI, State.setRegion,
        State.setClass, hclasses] at hn' ⊢
      by_cases hr' : r' = s.regions
      · simp only [hr', if_true]
        unfold REGION_SLAB_COUNT
        omega
      · simp only [hr', if_false]
        rw [hregion r' hr']
        split at hn'
        · simp only [Option.some.injEq] at hn'
          exact absurd hn'.symm hr'
        · exact hinv t' c' r' hn'
    · rw [← hp]
      simp only [bump_slab, hcur]
    · rw [← hs]
      simp [bump_slab, State.setTag, State.setNextI, State.setRegion, State.setClass]
    · rw [← hs, hcur, hone]
      simp only [State.setTag, State.setNextI, if_true]
    · rw [← hs]
      simp only [bump_slab, State.setTag, State.setNextI, State.setRegion, State.setClass]
      exact hregs

/-- Function `quill_alloc_alloc` keeps every cursor at most
`REGION_SLAB_COUNT`. -/
theorem quill_alloc_alloc_cursor (t n : Nat) (s s' : State) (p : SlabPtr)
    (hinv : CursorInv s) (h : quill_alloc_alloc t n s = .ok (p, s')) : CursorInv s' := by
  by_cases hn : n > MAX_SLAB_SIZE
  · cases hm : malloc s with
    | mk b s1 =>
      have hr : s1.region = s.region ∧ s1.classes = s.classes := by
        unfold malloc at hm
        split at hm <;> simp only [Prod.mk.injEq] at hm <;> rw [← hm.2] <;> exact ⟨rfl, rfl⟩
      cases b with
      | none => simp [quill_alloc_alloc, hn, hm] at h
      | some b =>
        simp only [quill_alloc_alloc, hn, if_true, hm, Except.ok.injEq, Prod.mk.injEq] at h
        rw [← h.2]
        exact hinv.of_same hr.1 (fun t' c' => by
          show (s1.classes t' c').next = _
          rw [hr.2])
  · cases hc : size_class_of n with
    | none => simp [quill_alloc_alloc, hn, hc] at h
    | some c =>
      cases hl : (s.classes t c).unused_next with
      | some q =>
        simp only [quill_alloc_alloc, hn, if_false, hc, hl, Except.ok.injEq,
          Prod.mk.injEq] at h
        rw [← h.2]
        have f := Frame.setUnusedNext s t c (s.slab q).next
        exact hinv.of_same f.region f.cnext
      | none =>
        by_cases hcount : (s.global_unused c).count ≥ G_UNUSED_BATCH_SIZE
        · obtain ⟨T, hT⟩ := fetch_global_unused_frame t c s
          have hinv1 : CursorInv (fetch_global_unused t c s) := hinv.of_same hT.region hT.cnext
          cases hl1 : ((fetch_global_unused t c s).classes t c).unused_next with
          | some q =>
            simp only [quill_alloc_alloc, hn, if_false, hc, hl, hcount, if_true, hl1,
              Except.ok.injEq, Prod.mk.injEq] at h
            rw [← h.2]
            have f := Frame.setUnusedNext (fetch_global_unused t c s) t c
              ((fetch_global_unused t c s).slab q).next
            exact hinv1.of_same f.region f.cnext
          | none =>
            simp only [quill_alloc_alloc, hn, if_false, hc, hl, hcount, if_true, hl1] at h
            exact (allocate_slab_cursor t c _ s' p hinv1 h).1
        · simp only [quill_alloc_alloc, hn, if_false, hc, hl, hcount] at h
          exact (allocate_slab_cursor t c s s' p hinv h).1

/-- Every reachable state keeps every cursor at most `REGION_SLAB_COUNT`. -/
theorem Reachable.cursorInv {s : State} (h : Reachable s) : CursorInv s := by
  induction h with
  | init os =>
    intro t c r hn
    have hnone : ((quill_alloc_init_global (State.fresh os)).classes t c).next = none := by
      simp only [quill_alloc_init_global, State.fresh, classes_init]
      split <;> rfl
    rw [hnone] at hn
    cases hn
  | alloc t n p _ hstep ih => exact quill_alloc_alloc_cursor t n _ _ p ih hstep
  | free t p _ hstep ih =>
    have f := quill_alloc_free_regions t p _ _ hstep
    exact ih.of_same f.1 f.2
  | pull t c _ _ ih =>
    obtain ⟨T, hT⟩ := fetch_global_unused_frame t c _
    exact ih.of_same hT.region hT.cnext
  | destruct t fuel _ hstep ih =>
    obtain ⟨T, hT⟩ := destruct_classes_frame t fuel CLASS_COUNT 0 _ _ hstep
    exact ih.of_same hT.region hT.cnext

/-- C13: in every state reachable from initialisation through calls of
alloc, free, pull_batch and the thread teardown, the cursor of the current
region of every class of every thread is at most `REGION_SLAB_COUNT` (8192);
a bump allocation (`allocate_slab`) that returns hands out slot `i` of a
region with `i < 8192`: the slot at the cursor of the current region, when
there is one and its cursor is not 8192, and slot 0 of a fresh region, whose
cursor was set to 0, exactly when there is no current region or its cursor
equals 8192; the bound holds again afterwards. -/
theorem cursor_bounded (s : State) (h : Reachable s) :
    (∀ t c r, (s.classes t c).next = some r → (s.region r).next_i ≤ REGION_SLAB_COUNT) ∧
      ∀ t c p s', allocate_slab t c s = .ok (p, s') →
        (∃ r i, p = .slot r i ∧ i < REGION_SLAB_COUNT ∧ (s'.classes t c).next = some r ∧
          (s'.region r).next_i = i + 1) ∧
        (∀ t' c' r, (s'.classes t' c').next = some r →
          (s'.region r).next_i ≤ REGION_SLAB_COUNT) ∧
        (((s.classes t c).next = none ∨
            ∃ r, (s.classes t c).next = some r ∧ (s.region r).next_i = REGION_SLAB_COUNT) ↔
          p = .slot s.regions 0 ∧ s'.regions = s.regions + 1 ∧
            (s'.classes t c).next = some s.regions) ∧
        ((∃ r, (s.classes t c).next = some r ∧ (s.region r).next_i ≠ REGION_SLAB_COUNT) ↔
          (s'.classes t c).next = (s.classes t c).next ∧ s'.regions = s.regions ∧
            ∃ r, (s.classes t c).next = some r ∧ p = .slot r (s.region r).next_i) := by
  refine ⟨h.cursorInv, ?_⟩
  intro t c p s' hstep
  obtain ⟨hinv', hcase⟩ := allocate_slab_cursor t c s s' p h.cursorInv hstep
  refine ⟨?_, hinv', ?_, ?_⟩
  · rcases hcase with ⟨r, _, hlt, hp, hn', hi, _⟩ | ⟨_, hp, hn', hi, _⟩
    · exact ⟨r, _, hp, hlt, hn', hi⟩
    · exact ⟨s.regions, 0, hp, by decide, hn', hi⟩
  · rcases hcase with ⟨r, hr, hlt, hp, hn', hi, hregs⟩ | ⟨hfull, hp, hn', hi, hregs⟩
    · constructor
      · rintro (hnone | ⟨r', hr', hfull'⟩)
        · rw [hnone] at hr
          cases hr
        · rw [hr] at hr'
          cases hr'
          omega
      · rintro ⟨_, hregs', _⟩
        omega
    · constructor
      · intro _
        exact ⟨hp, hregs, hn'⟩
      · intro _
        cases hn : (s.classes t c).next with
        | none => exact Or.inl rfl
        | some r => exact Or.inr ⟨r, rfl, hfull r hn⟩
  · rcases hcase with ⟨r, hr, hlt, hp, hn', hi, hregs⟩ | ⟨hfull, hp, hn', hi, hregs⟩
    · constructor
      · intro _
        exact ⟨by rw [hn', hr], hregs, r, hr, hp⟩
      · intro _
        exact ⟨r, hr, by omega⟩
    · constructor
      · rintro ⟨r, hr, hne⟩
        exact absurd (hfull r hr) hne
      · rintro ⟨_, hregs', _⟩
        omega


/-! ## The global count against the global list -/

/-- The state after `k` allocations of 200 bytes by thread 0 of a fresh
process, for `1 ≤ k ≤ REGION_SLAB_COUNT`. -/
theorem alloc_times_fresh_filled (k : Nat) (h1 : 1 ≤ k) (h2 : k ≤ REGION_SLAB_COUNT) :
    alloc_times 0 200 k (quill_alloc_init_global (State.fresh [true, true])) =
      some (filled k) := by
  obtain ⟨j, rfl⟩ : ∃ j, k = j + 1 := ⟨k - 1, by omega⟩
  rw [alloc_times, first_alloc_filled]
  simp only
  rw [alloc_times_filled j 1 (by omega) (by omega)]
  congr 2
  omega

/-- C16 as stated fails, in three runs of a fresh process in which thread 0
first allocates 200 bytes 8191 times (8177 times in the second run), which
leaves the state `filled 8191` (`filled 8177`).  A double free: thread 0
frees its last allocation `a` (slot 8190), thread 1 frees `a` again, thread 0
is torn down, thread 1 allocates twice, getting `a` and slot 0 of a new
region, and frees both; the global count of class 5 is then 2 while the
global list holds the 3 slabs slot 8191, `a`, slot 0 of region 1.  An
allocation after the teardown: thread 0 is torn down, which puts the slots
8177..8191 on the global list of class 5 but leaves the cursor at 8177,
allocates twice, getting the slots 8177 and 8178 that are on the global list,
and frees the second; the count is then 15 while the list holds the 14 slots
8191..8178.  A second teardown: thread 0 is torn down twice; the global list
is then slot 8191 linked to itself, with count 2. -/
theorem global_count_differs :
    alloc_times 0 200 8191 (quill_alloc_init_global (State.fresh [true, true])) =
        some (filled 8191) ∧
      (∃ s ∈ double_free_run (filled 8191) (.slot 0 8190),
        (s.global_unused 5).count = 2 ∧
          Chain s.slab (s.global_unused 5).next [.slot 0 8191, .slot 0 8190, .slot 1 0]) ∧
      alloc_times 0 200 8177 (quill_alloc_init_global (State.fresh [true, true])) =
        some (filled 8177) ∧
      (∃ r ∈ alloc_after_teardown (filled 8177),
        r.1 = .slot 0 8177 ∧ r.2.1 = .slot 0 8178 ∧
          (r.2.2.global_unused 5).count = 15 ∧
          Chain r.2.2.slab (r.2.2.global_unused 5).next (region_slots 0 8178 14).reverse ∧
          (region_slots 0 8178 14).reverse.length = 14) ∧
      (∃ s ∈ teardown_twice (filled 8191),
        (s.global_unused 5).count = 2 ∧
          (s.global_unused 5).next = some (.slot 0 8191) ∧
          (s.slab (.slot 0 8191)).next = some (.slot 0 8191)) :=
  ⟨alloc_times_fresh_filled 8191 (by decide) (by decide), by decide!,
    alloc_times_fresh_filled 8177 (by decide) (by decide), by decide!, by decide!⟩


/-! ## Concurrent releases -/

/-- Replacing an entry `x` of a list by something else lowers the number of
`x` in it by one. -/
theorem count_set_of_eq {α : Type} [DecidableEq α] (x y : α) (hy : y ≠ x) :
    ∀ (l : List α) (i : Nat), l[i]? = some x → (l.set i y).count x + 1 = l.count x
  | [], i, h => by simp at h
  | a :: l, 0, h => by
    simp only [List.getElem?_cons_zero, Option.some.injEq] at h
    subst h
    simp [List.count_cons, hy]
  | a :: l, i + 1, h => by
    simp only [List.getElem?_cons_succ] at h
    have ih := count_set_of_eq x y hy l i h
    simp only [List.set_cons_succ, List.count_cons]
    omega

/-- Replacing an entry other than `x` by something other than `x` keeps the
number of `x`. -/
theorem count_set_of_ne {α : Type} [DecidableEq α] (x y z : α) (hy : y ≠ x) (hz : z ≠ x) :
    ∀ (l : List α) (i : Nat), l[i]? = some z → (l.set i y).count x = l.count x
  | [], i, h => by simp at h
  | a :: l, 0, h => by
    simp only [List.getElem?_cons_zero, Option.some.injEq] at h
    subst h
    simp [List.count_cons, hy, hz]
  | a :: l, i + 1, h => by
    simp only [List.getElem?_cons_succ] at h
    have ih := count_set_of_ne x y z hy hz l i h
    simp only [List.set_cons_succ, List.count_cons]
    omega

/-- An entry of a list is a member of it. -/
theorem mem_of_getElem?_eq {α : Type} (l : List α) (i : Nat) (x : α) (h : l[i]? = some x) :
    x ∈ l := by
  obtain ⟨hi, hx⟩ := List.getElem?_eq_some_iff.mp h
  rw [← hx]
  exact List.getElem_mem hi

/-- Every step of every call keeps `rc_dec_inv`. -/
theorem rc_dec_step_inv (a : quill_alloc_t) (n j : Nat) (r : rc_dec_run) (hw : n < WORD)
    (h : rc_dec_inv a n r) : rc_dec_inv a n (rc_dec_step j r) := by
  obtain ⟨hlen, hd, hcase⟩ := h
  cases hj : r.pcs[j]? with
  | none =>
    have e : rc_dec_step j r = r := by simp [rc_dec_step, hj]
    rw [e]
    exact ⟨hlen, hd, hcase⟩
  | some x =>
    have hjn : j < n := by
      obtain ⟨hi, _⟩ := List.getElem?_eq_some_iff.mp hj
      omega
    have hmem : x ∈ r.pcs := mem_of_getElem?_eq r.pcs j x hj
    have hother : ∀ (y : rc_dec_pc) (k : Nat), k ≠ j → (r.pcs.set j y)[k]? = r.pcs[k]? := by
      intro y k hk
      exact List.getElem?_set_ne (Ne.symm hk)
    have hself : ∀ y : rc_dec_pc, (r.pcs.set j y)[j]? = some y := by
      intro y
      rw [List.getElem?_set_self]
      simp [hlen, hjn]
    cases x with
    | returned =>
      have e : rc_dec_step j r = r := by simp [rc_dec_step, hj]
      rw [e]
      exact ⟨hlen, hd, hcase⟩
    | fetch_sub =>
      rcases hcase with ⟨hrc, hpos, hall, hone, hev⟩ | ⟨i, hi, hrest, _, hi3⟩
      · have hle : r.pcs.count .fetch_sub ≤ n := by
          rw [← hlen]
          exact List.count_le_length _ _
        by_cases h1 : r.alloc.rc = 1
        · have hstep : rc_dec_step j r =
              { r with
                alloc := { r.alloc with rc := 0 }
                observed := r.observed ++ [(j, 1)]
                pcs := r.pcs.set j .destruct } := by
            have hz : (1 + WORD - 1) % WORD = 0 := by decide
            simp only [rc_dec_step, hj, h1, ne_eq, not_true_eq_false, if_false, hz]
          rw [hstep]
          have hc := count_set_of_eq rc_dec_pc.fetch_sub rc_dec_pc.destruct (by decide)
            r.pcs j hj
          have hzero : (r.pcs.set j .destruct).count .fetch_sub = 0 := by omega
          refine ⟨by simp [hlen], hd, Or.inr ⟨j, hjn, ?_, ?_, Or.inl ⟨hself _, hev⟩⟩⟩
          · intro k hk hkn
            show (r.pcs.set j .destruct)[k]? = _
            have hk2 : k < (r.pcs.set j .destruct).length := by simp [hlen, hkn]
            have hget : (r.pcs.set j .destruct)[k]? = some ((r.pcs.set j .destruct)[k]) :=
              List.getElem?_eq_getElem hk2
            have hmem2 : (r.pcs.set j .destruct)[k] ∈ r.pcs.set j .destruct :=
              List.getElem_mem hk2
            have hold : (r.pcs.set j .destruct)[k] ∈ r.pcs := by
              have e1 := hother .destruct k hk
              rw [hget] at e1
              exact mem_of_getElem?_eq r.pcs k _ e1.symm
            rw [hget]
            rcases hall _ hold with hf | hr
            · rw [hf] at hmem2
              exact absurd hzero (Nat.pos_iff_ne_zero.mp (List.count_pos_iff.mpr hmem2))
            · rw [hr]
          · show List.filter _ (r.observed ++ [(j, 1)]) = _
            have : observed_one r = List.filter (fun o => o.2 = 1) r.observed := rfl
            rw [List.filter_append, ← this, hone]
            rfl
        · obtain ⟨v, hv, hstep⟩ : ∃ v, v = (r.alloc.rc + WORD - 1) % WORD ∧
              rc_dec_step j r =
                { r with
                  alloc := { r.alloc with rc := v }
                  observed := r.observed ++ [(j, r.alloc.rc)]
                  pcs := r.pcs.set j .returned } :=
            ⟨_, rfl, by simp only [rc_dec_step, hj, h1, ne_eq, not_false_eq_true, if_true]⟩
          rw [hstep]
          have hc := count_set_of_eq rc_dec_pc.fetch_sub rc_dec_pc.returned (by decide)
            r.pcs j hj
          have hge : 2 ≤ r.alloc.rc := by omega
          have hpos2 : 1 ≤ (r.pcs.set j .returned).count .fetch_sub := by omega
          have hnew : v = (r.pcs.set j .returned).count .fetch_sub := by
            have e1 : r.alloc.rc + WORD - 1 = r.alloc.rc - 1 + WORD := by omega
            have e2 : r.alloc.rc - 1 < WORD := by omega
            have e3 : r.alloc.rc - 1 = (r.pcs.set j .returned).count .fetch_sub := by omega
            rw [hv, e1, Nat.add_mod_right, Nat.mod_eq_of_lt e2]
            exact e3
          clear hv
          refine ⟨by simp [hlen], hd, Or.inl ⟨hnew, hpos2, ?_, ?_, hev⟩⟩
          · intro x hx
            rcases List.mem_or_eq_of_mem_set hx with hx1 | hx2
            · exact hall x hx1
            · exact Or.inr hx2
          · show List.filter _ (r.observed ++ [(j, r.alloc.rc)]) = _
            have : observed_one r = List.filter (fun o => o.2 = 1) r.observed := rfl
            rw [List.filter_append, ← this, hone]
            simp [h1]
      · exfalso
        by_cases hji : j = i
        · rw [hji] at hj
          rw [hj] at hi3
          simp at hi3
        · have := hrest j hji hjn
          rw [hj] at this
          simp at this
    | destruct =>
      rcases hcase with ⟨_, _, hall, _, _⟩ | ⟨i, hi, hrest, hone, hi3⟩
      · exfalso
        rcases hall _ hmem with h | h <;> cases h
      · have hji : j = i := by
          by_contra hne
          have := hrest j hne hjn
          rw [hj] at this
          simp at this
        subst hji
        have hev : r.events = [] := by
          rw [hj] at hi3
          simpa using hi3
        have hstep : rc_dec_step j r =
            { r with events := r.events ++ destructor_events r.alloc j
                     pcs := r.pcs.set j .free } := by
          simp only [rc_dec_step, hj, destructor_events]
        rw [hstep]
        refine ⟨by simp [hlen], hd, Or.inr ⟨j, hjn, ?_, hone, Or.inr (Or.inl ⟨hself _, ?_⟩)⟩⟩
        · intro k hk hkn
          show (r.pcs.set j .free)[k]? = _
          rw [hother _ k hk]
          exact hrest k hk hkn
        · show r.events ++ destructor_events r.alloc j = destructor_events a j
          rw [hev]
          simp [destructor_events, hd]
    | free =>
      rcases hcase with ⟨_, _, hall, _, _⟩ | ⟨i, hi, hrest, hone, hi3⟩
      · exfalso
        rcases hall _ hmem with h | h <;> cases h
      · have hji : j = i := by
          by_contra hne
          have := hrest j hne hjn
          rw [hj] at this
          simp at this
        subst hji
        have hev : r.events = destructor_events a j := by
          rw [hj] at hi3
          simpa using hi3
        have hstep : rc_dec_step j r =
            { r with events := r.events ++ [.free j], pcs := r.pcs.set j .returned } := by
          simp only [rc_dec_step, hj]
        rw [hstep]
        refine ⟨by simp [hlen], hd, Or.inr ⟨j, hjn, ?_, hone, Or.inr (Or.inr ⟨hself _, ?_⟩)⟩⟩
        · intro k hk hkn
          show (r.pcs.set j .returned)[k]? = _
          rw [hother _ k hk]
          exact hrest k hk hkn
        · show r.events ++ [.free j] = release_events a j
          rw [hev]
          rfl

/-- Every interleaving keeps `rc_dec_inv`. -/
theorem rc_dec_schedule_inv (a : quill_alloc_t) (n : Nat) (hw : n < WORD) :
    ∀ (sched : List Nat) (r : rc_dec_run), rc_dec_inv a n r →
      rc_dec_inv a n (rc_dec_schedule sched r)
  | [], _, h => h
  | j :: sched, r, h =>
    rc_dec_schedule_inv a n hw sched (rc_dec_step j r) (rc_dec_step_inv a n j r hw h)

/-- At the start, with the count equal to the number of calls, `rc_dec_inv`
holds. -/
theorem rc_dec_begin_inv (a : quill_alloc_t) (n : Nat) (hn : 1 ≤ n) (hrc : a.rc = n) :
    rc_dec_inv a n (rc_dec_begin a n) := by
  refine ⟨by simp [rc_dec_begin], rfl, Or.inl ⟨?_, ?_, ?_, rfl, rfl⟩⟩
  · simp [rc_dec_begin, hrc]
  · simp [rc_dec_begin, hn]
  · intro x hx
    simp only [rc_dec_begin, List.mem_replicate] at hx
    exact Or.inl hx.2

/-- A step of call `j` leaves the other calls where they are and moves call
`j` on, unless it has returned. -/
theorem rc_dec_step_rank (j : Nat) (r : rc_dec_run) :
    (rc_dec_step j r).pcs.length = r.pcs.length ∧
      (∀ i, i ≠ j → (rc_dec_step j r).pcs[i]? = r.pcs[i]?) ∧
      (∀ x, r.pcs[j]? = some x →
        ∃ y, (rc_dec_step j r).pcs[j]? = some y ∧ min 3 (x.rank + 1) ≤ y.rank) := by
  cases hj : r.pcs[j]? with
  | none =>
    have e : rc_dec_step j r = r := by simp [rc_dec_step, hj]
    rw [e]
    exact ⟨rfl, fun _ _ => rfl, fun x hx => by cases hx⟩
  | some x =>
    have hjn : j < r.pcs.length := (List.getElem?_eq_some_iff.mp hj).1
    have hself : ∀ y : rc_dec_pc, (r.pcs.set j y)[j]? = some y := by
      intro y
      rw [List.getElem?_set_self]
      exact hjn
    have hother : ∀ (y : rc_dec_pc) (k : Nat), k ≠ j → (r.pcs.set j y)[k]? = r.pcs[k]? := by
      intro y k hk
      exact List.getElem?_set_ne (Ne.symm hk)
    have key : ∀ y : rc_dec_pc, (rc_dec_step j r).pcs = r.pcs.set j y →
        min 3 (x.rank + 1) ≤ y.rank →
        (rc_dec_step j r).pcs.length = r.pcs.length ∧
          (∀ i, i ≠ j → (rc_dec_step j r).pcs[i]? = r.pcs[i]?) ∧
          (∀ x1, some x = some x1 →
            ∃ y, (rc_dec_step j r).pcs[j]? = some y ∧ min 3 (x1.rank + 1) ≤ y.rank) := by
      intro y hy hr
      rw [hy]
      refine ⟨by simp, fun i hi => hother y i hi, ?_⟩
      intro x1 hx1
      cases hx1
      exact ⟨y, hself y, hr⟩
    cases x with
    | returned =>
      have e : rc_dec_step j r = r := by simp [rc_dec_step, hj]
      rw [e]
      refine ⟨rfl, fun _ _ => rfl, ?_⟩
      intro x1 hx1
      cases hx1
      exact ⟨.returned, hj, by decide⟩
    | fetch_sub =>
      by_cases h1 : r.alloc.rc = 1
      · exact key .destruct (by simp [rc_dec_step, hj, h1]) (by decide)
      · exact key .returned (by simp [rc_dec_step, hj, h1]) (by decide)
    | destruct => exact key .free (by simp [rc_dec_step, hj]) (by decide)
    | free => exact key .returned (by simp [rc_dec_step, hj]) (by decide)

/-- An interleaving moves every call on by as many steps as it gives it, up
to its return. -/
theorem rc_dec_schedule_rank :
    ∀ (sched : List Nat) (r : rc_dec_run) (i : Nat) (x : rc_dec_pc), r.pcs[i]? = some x →
      ∃ y, (rc_dec_schedule sched r).pcs[i]? = some y ∧
        min 3 (x.rank + sched.count i) ≤ y.rank
  | [], r, i, x, h => ⟨x, h, by simp⟩
  | j :: sched, r, i, x, h => by
    obtain ⟨_, hne, hself⟩ := rc_dec_step_rank j r
    by_cases hij : i = j
    · subst hij
      obtain ⟨y, hy, hr⟩ := hself x h
      obtain ⟨z, hz, hr2⟩ := rc_dec_schedule_rank sched (rc_dec_step i r) i y hy
      refine ⟨z, hz, ?_⟩
      simp only [List.count_cons_self]
      omega
    · obtain ⟨z, hz, hr2⟩ := rc_dec_schedule_rank sched (rc_dec_step j r) i x
        (by rw [hne i hij]; exact h)
      refine ⟨z, hz, ?_⟩
      have : (j :: sched).count i = sched.count i := by
        rw [List.count_cons]
        simp [Ne.symm hij]
      rw [this]
      exact hr2

/-- An interleaving keeps the number of calls. -/
theorem rc_dec_schedule_length :
    ∀ (sched : List Nat) (r : rc_dec_run), (rc_dec_schedule sched r).pcs.length = r.pcs.length
  | [], _ => rfl
  | j :: sched, r => by
    rw [rc_dec_schedule, rc_dec_schedule_length sched, (rc_dec_step_rank j r).1]

/-- One call run alone to its end does to the count what `quill_rc_dec` does,
and calls the destructor when `quill_rc_dec` does: the steps are the body of
`quill_rc_dec` cut at its atomic operation. -/
theorem rc_dec_steps_agree (D : Nat → SlabPtr → State → Except Fault State) (t : Nat)
    (p : SlabPtr) (s : State) :
    ((rc_dec_schedule [0, 0, 0] (rc_dec_begin (s.alloc p) 1)).alloc.rc =
        ((s.alloc p).rc + WORD - 1) % WORD) ∧
      (rc_dec_schedule [0, 0, 0] (rc_dec_begin (s.alloc p) 1)).pcs = [.returned] ∧
      ((rc_dec_schedule [0, 0, 0] (rc_dec_begin (s.alloc p) 1)).events.filterMap
          (fun e =>
            match e with
            | .destructor _ d => some (d, p)
            | .free _ => none) =
        (quill_rc_dec D t (some p) s).2) ∧
      ((s.alloc p).rc ≠ 1 →
        (rc_dec_schedule [0, 0, 0] (rc_dec_begin (s.alloc p) 1)).events = [] ∧
          (quill_rc_dec D t (some p) s).1 =
            .ok (s.setAlloc p { s.alloc p with rc := ((s.alloc p).rc + WORD - 1) % WORD })) ∧
      ((s.alloc p).rc = 1 →
        (rc_dec_schedule [0, 0, 0] (rc_dec_begin (s.alloc p) 1)).events =
          release_events (s.alloc p) 0) := by
  by_cases h1 : (s.alloc p).rc = 1
  · cases hd : (s.alloc p).destructor with
    | none =>
      simp [rc_dec_schedule, rc_dec_step, rc_dec_begin, h1, hd, quill_rc_dec, State.setAlloc,
        release_events, destructor_events]
    | some d =>
      simp [rc_dec_schedule, rc_dec_step, rc_dec_begin, h1, hd, quill_rc_dec, State.setAlloc,
        release_events, destructor_events]
  · simp [rc_dec_schedule, rc_dec_step, rc_dec_begin, h1, quill_rc_dec]

/-- C15: `n ≥ 1` calls of `quill_rc_dec` run concurrently on one allocation
whose count is `n`, the number of outstanding references (`n < 2^64`), each
cut at its atomic operations, interleaved by any schedule.  At every moment at
most one call has observed the pre-decrement value 1, and at most one
destructor call and one call of `quill_alloc_free` have been made.  Every
schedule that gives each call three steps brings all calls to their return.
And once all calls have returned, exactly one call `i` has observed 1, and
the calls made are exactly the destructor call (when a destructor is
registered) followed by `quill_alloc_free`, both made by call `i`. -/
theorem rc_dec_exactly_once (a : quill_alloc_t) (n : Nat) (sched : List Nat)
    (hn : 1 ≤ n) (hrc : a.rc = n) (hw : n < WORD) :
    ((observed_one (rc_dec_schedule sched (rc_dec_begin a n))).length ≤ 1 ∧
        ((rc_dec_schedule sched (rc_dec_begin a n)).events.filter
          (fun e => e matches .destructor _ _)).length ≤ 1 ∧
        ((rc_dec_schedule sched (rc_dec_begin a n)).events.filter
          (fun e => e matches .free _)).length ≤ 1) ∧
      ((∀ i, i < n → 3 ≤ sched.count i) →
        (rc_dec_schedule sched (rc_dec_begin a n)).pcs = List.replicate n .returned) ∧
      ((rc_dec_schedule sched (rc_dec_begin a n)).pcs = List.replicate n .returned →
        ∃ i, i < n ∧
          observed_one (rc_dec_schedule sched (rc_dec_begin a n)) = [(i, 1)] ∧
          (rc_dec_schedule sched (rc_dec_begin a n)).events = release_events a i ∧
          ((rc_dec_schedule sched (rc_dec_begin a n)).events.filter
            (fun e => e matches .free _)).length = 1 ∧
          (∀ d, a.destructor = some d →
            (rc_dec_schedule sched (rc_dec_begin a n)).events =
              [.destructor i d, .free i])) := by
  have hinv := rc_dec_schedule_inv a n hw sched _ (rc_dec_begin_inv a n hn hrc)
  have hfree : ∀ i, ((release_events a i).filter (fun e => e matches .free _)).length = 1 := by
    intro i
    cases hd : a.destructor <;> simp [release_events, destructor_events, hd]
  have hfree0 : ∀ i, ((destructor_events a i).filter (fun e => e matches .free _)).length = 0
      := by
    intro i
    cases hd : a.destructor <;> simp [destructor_events, hd]
  have hdes : ∀ i, ((release_events a i).filter
      (fun e => e matches .destructor _ _)).length ≤ 1 := by
    intro i
    cases hd : a.destructor <;> simp [release_events, destructor_events, hd]
  have hdes0 : ∀ i, ((destructor_events a i).filter
      (fun e => e matches .destructor _ _)).length ≤ 1 := by
    intro i
    cases hd : a.destructor <;> simp [destructor_events, hd]
  obtain ⟨hlen, _, hcase⟩ := hinv
  refine ⟨?_, ?_, ?_⟩
  · rcases hcase with ⟨_, _, _, hone, hev⟩ | ⟨i, _, _, hone, hpc⟩
    · rw [hone, hev]
      simp
    · rw [hone]
      rcases hpc with ⟨_, hev⟩ | ⟨_, hev⟩ | ⟨_, hev⟩
      · rw [hev]
        simp
      · rw [hev]
        exact ⟨by simp, hdes0 i, by rw [hfree0 i]; omega⟩
      · rw [hev]
        exact ⟨by simp, hdes i, by rw [hfree i]⟩
  · intro hfair
    rw [List.eq_replicate_iff]
    refine ⟨hlen, ?_⟩
    intro y hy
    obtain ⟨i, hi, hget⟩ := List.getElem_of_mem hy
    have hin : i < n := by omega
    have hstart : (rc_dec_begin a n).pcs[i]? = some .fetch_sub := by
      simp [rc_dec_begin, hin]
    obtain ⟨z, hz, hr⟩ := rc_dec_schedule_rank sched (rc_dec_begin a n) i .fetch_sub hstart
    have hzy : z = y := by
      rw [List.getElem?_eq_getElem hi, hget] at hz
      exact (Option.some.inj hz).symm
    have h3 := hfair i hin
    rw [hzy] at hr
    have : 3 ≤ y.rank := by
      have : rc_dec_pc.rank .fetch_sub = 0 := rfl
      omega
    cases y <;> first | rfl | (exfalso; revert this; decide)
  · intro hall
    rcases hcase with ⟨_, hpos, _, _, _⟩ | ⟨i, hi, _, hone, hpc⟩
    · exfalso
      rw [hall] at hpos
      rw [List.count_replicate] at hpos
      simp at hpos
    · have hret : (rc_dec_schedule sched (rc_dec_begin a n)).pcs[i]? = some .returned := by
        rw [hall]
        simp [hi]
      have hev : (rc_dec_schedule sched (rc_dec_begin a n)).events = release_events a i := by
        rcases hpc with ⟨h, _⟩ | ⟨h, _⟩ | ⟨_, hev⟩
        · rw [hret] at h
          cases h
        · rw [hret] at h
          cases h
        · exact hev
      refine ⟨i, hi, hone, hev, by rw [hev]; exact hfree i, ?_⟩
      intro d hd
      rw [hev]
      simp [release_events, destructor_events, hd]


/-! ## The global count in runs that keep to the contract -/

/-- The book of a fresh process is right: nothing is held. -/
theorem Ledger.ok_init (os : List Bool) :
    Ledger.ok { L := fun _ _ => [], G := fun _ => [], own := fun _ => none }
      (quill_alloc_init_global (State.fresh os)) [] (fun _ _ => False) where
  chainL := by
    intro t c
    show ((quill_alloc_init_global (State.fresh os)).classes t c).unused_next = none
    simp only [quill_alloc_init_global, State.fresh, classes_init]
    split <;> rfl
  chainG := by
    intro c
    show ((quill_alloc_init_global (State.fresh os)).global_unused c).next = none
    simp only [quill_alloc_init_global, State.fresh]
    split <;> rfl
  nodupL := fun _ _ => List.nodup_nil
  nodupG := fun _ => List.nodup_nil
  nodupLive := List.nodup_nil
  ownLive := by simp
  ownL := by simp
  ownG := by simp
  ownU := fun _ _ _ _ _ => rfl
  freshR := fun _ _ _ => rfl
  freshB := fun _ _ => rfl
  regLt := by
    intro t c r h
    have hnone : ((quill_alloc_init_global (State.fresh os)).classes t c).next = none := by
      simp only [quill_alloc_init_global, State.fresh, classes_init]
      split <;> rfl
    rw [hnone] at h
    cases h
  regInj := by
    intro t c t' c' r h
    have hnone : ((quill_alloc_init_global (State.fresh os)).classes t c).next = none := by
      simp only [quill_alloc_init_global, State.fresh, classes_init]
      split <;> rfl
    rw [hnone] at h
    cases h
  cursor := (Reachable.init os).cursorInv
  count := by
    intro c
    show ((quill_alloc_init_global (State.fresh os)).global_unused c).count = _
    simp only [quill_alloc_init_global, State.fresh]
    split <;> rfl

/-- Moving slabs in the book: a list that is neither their old nor their new
holder keeps its entry. -/
theorem Ledger.move_other (g : Ledger) (T : List SlabPtr) (o o0 : Option Owner) (x : Owner)
    (X : List SlabPtr) (hT : ∀ q, q ∈ T → g.own q = o0) (h0 : o0 ≠ some x) (h1 : o ≠ some x)
    (hX : ∀ q, q ∈ X ↔ g.own q = some x) :
    ∀ q, q ∈ X ↔ (g.move T o).own q = some x := by
  intro q
  by_cases hq : q ∈ T
  · have e : (g.move T o).own q = o := by simp [Ledger.move, hq]
    rw [e, hX, hT q hq]
    exact ⟨fun h => absurd h h0, fun h => absurd h h1⟩
  · have e : (g.move T o).own q = g.own q := by simp [Ledger.move, hq]
    rw [e]
    exact hX q

/-- Moving slabs in the book: the list they leave. -/
theorem Ledger.move_source (g : Ledger) (T : List SlabPtr) (o : Option Owner) (x : Owner)
    (X X' : List SlabPtr) (h1 : o ≠ some x)
    (hX : ∀ q, q ∈ X ↔ g.own q = some x) (hX' : ∀ q, q ∈ X' ↔ q ∈ X ∧ q ∉ T) :
    ∀ q, q ∈ X' ↔ (g.move T o).own q = some x := by
  intro q
  by_cases hq : q ∈ T
  · have e : (g.move T o).own q = o := by simp [Ledger.move, hq]
    rw [e, hX']
    exact ⟨fun h => absurd hq h.2, fun h => absurd h h1⟩
  · have e : (g.move T o).own q = g.own q := by simp [Ledger.move, hq]
    rw [e, hX', ← hX]
    exact ⟨fun h => h.1, fun h => ⟨h, hq⟩⟩

/-- Moving slabs in the book: the list they join. -/
theorem Ledger.move_target (g : Ledger) (T : List SlabPtr) (x : Owner)
    (X X' : List SlabPtr)
    (hX : ∀ q, q ∈ X ↔ g.own q = some x) (hX' : ∀ q, q ∈ X' ↔ q ∈ X ∨ q ∈ T) :
    ∀ q, q ∈ X' ↔ (g.move T (some x)).own q = some x := by
  intro q
  by_cases hq : q ∈ T
  · have e : (g.move T (some x)).own q = some x := by simp [Ledger.move, hq]
    rw [e, hX']
    exact ⟨fun _ => rfl, fun _ => Or.inr hq⟩
  · have e : (g.move T (some x)).own q = g.own q := by simp [Ledger.move, hq]
    rw [e, hX', ← hX]
    exact ⟨fun h => h.resolve_right hq, fun h => Or.inl h⟩

/-- A slab that no one holds is held by no one after a move of other slabs. -/
theorem Ledger.move_none (g : Ledger) (T : List SlabPtr) (o : Option Owner) (q : SlabPtr)
    (hq : g.own q = none) (hT : ∀ p, p ∈ T → g.own p ≠ none) : (g.move T o).own q = none := by
  have : q ∉ T := fun h => hT q h hq
  simp [Ledger.move, this, hq]

/-- A state with the same region headers, regions of the classes and numbers
of regions and blocks has the same unused slots, so the book is right about
them as long as no unheld slab gets a holder. -/
theorem Ledger.ok_regions_of {g g' : Ledger} {s s' : State} {live : List SlabPtr}
    {dead : Nat → Nat → Prop} (h : g.ok s live dead)
    (hregion : s'.region = s.region) (hregions : s'.regions = s.regions)
    (hblocks : s'.blocks = s.blocks)
    (hcnext : ∀ t c, (s'.classes t c).next = (s.classes t c).next)
    (hown : ∀ q, g.own q = none → g'.own q = none) :
    (∀ t c q, ¬ dead t c → q ∈ unused_slots s' t c → g'.own q = none) ∧
      (∀ r i, s'.regions ≤ r → g'.own (.slot r i) = none) ∧
      (∀ b, s'.blocks ≤ b → g'.own (.block b) = none) ∧
      (∀ t c r, (s'.classes t c).next = some r → r < s'.regions) ∧
      (∀ t c t' c' r, (s'.classes t c).next = some r →
        (s'.classes t' c').next = some r → t = t' ∧ c = c') ∧
      CursorInv s' := by
  have hU : ∀ t c, unused_slots s' t c = unused_slots s t c := by
    intro t c
    simp only [unused_slots, hcnext, hregion]
  refine ⟨?_, ?_, ?_, ?_, ?_, h.cursor.of_same hregion hcnext⟩
  · intro t c q hd hq
    rw [hU] at hq
    exact hown q (h.ownU t c q hd hq)
  · intro r i hr
    rw [hregions] at hr
    exact hown _ (h.freshR r i hr)
  · intro b hb
    rw [hblocks] at hb
    exact hown _ (h.freshB b hb)
  · intro t c r hr
    rw [hcnext] at hr
    rw [hregions]
    exact h.regLt t c r hr
  · intro t c t' c' r hr hr'
    rw [hcnext] at hr hr'
    exact h.regInj t c t' c' r hr hr'

/-- The same for a state that differs from `s` only by list surgery. -/
theorem Ledger.ok_regions {g g' : Ledger} {s s' : State} {live : List SlabPtr}
    {dead : Nat → Nat → Prop} {T : List SlabPtr} (h : g.ok s live dead) (f : Frame T s s')
    (hown : ∀ q, g.own q = none → g'.own q = none) :
    (∀ t c q, ¬ dead t c → q ∈ unused_slots s' t c → g'.own q = none) ∧
      (∀ r i, s'.regions ≤ r → g'.own (.slot r i) = none) ∧
      (∀ b, s'.blocks ≤ b → g'.own (.block b) = none) ∧
      (∀ t c r, (s'.classes t c).next = some r → r < s'.regions) ∧
      (∀ t c t' c' r, (s'.classes t c).next = some r →
        (s'.classes t' c').next = some r → t = t' ∧ c = c') ∧
      CursorInv s' :=
  Ledger.ok_regions_of h f.region f.regions f.blocks f.cnext hown

/-- The fast path of `quill_alloc_alloc` keeps the book right: the head of the
free list of class `c` of thread `t` becomes live. -/
theorem Ledger.ok_pop (g : Ledger) (s : State) (live : List SlabPtr)
    (dead : Nat → Nat → Prop) (t c : Nat) (p : SlabPtr) (l : List SlabPtr)
    (h : g.ok s live dead) (hL : g.L t c = p :: l) :
    ((g.setL t c l).move [p] (some .live)).ok
      (s.setUnusedNext t c (s.slab p).next) (p :: live) dead := by
  have hown : g.own p = some (.loc t c) := (h.ownL t c p).mp (by rw [hL]; simp)
  have hT : ∀ q, q ∈ [p] → (g.setL t c l).own q = some (.loc t c) := by
    intro q hq
    rw [List.mem_singleton.mp hq]
    exact hown
  have hch := h.chainL t c
  rw [hL] at hch
  have hnd := h.nodupL t c
  rw [hL, List.nodup_cons] at hnd
  have f := Frame.setUnusedNext s t c (s.slab p).next
  obtain ⟨r1, r2, r3, r4, r5, r6⟩ := Ledger.ok_regions h f
    (fun q hq => Ledger.move_none (g.setL t c l) [p] (some .live) q hq (by
      intro p' hp'
      rw [hT p' hp']
      simp))
  refine { chainL := ?_, chainG := h.chainG, nodupL := ?_, nodupG := h.nodupG,
           nodupLive := ?_, ownLive := ?_, ownL := ?_, ownG := ?_, ownU := r1, freshR := r2,
           freshB := r3, regLt := r4, regInj := r5, cursor := r6, count := h.count }
  · intro t' c'
    by_cases hc : t' = t ∧ c' = c
    · obtain ⟨rfl, rfl⟩ := hc
      simpa [State.setUnusedNext, State.setClass, Ledger.setL, Ledger.move] using hch.2
    · simpa [State.setUnusedNext, State.setClass, Ledger.setL, Ledger.move, hc] using
        h.chainL t' c'
  · intro t' c'
    by_cases hc : t' = t ∧ c' = c
    · simpa [Ledger.setL, Ledger.move, hc] using hnd.2
    · simpa [Ledger.setL, Ledger.move, hc] using h.nodupL t' c'
  · rw [List.nodup_cons]
    refine ⟨fun hp => ?_, h.nodupLive⟩
    have := (h.ownLive p).mp hp
    rw [hown] at this
    cases this
  · exact Ledger.move_target (g.setL t c l) [p] .live live (p :: live) h.ownLive (by
      intro q
      simp only [List.mem_cons, List.mem_singleton, List.not_mem_nil, or_false]
      tauto)
  · intro t' c'
    by_cases hc : t' = t ∧ c' = c
    · obtain ⟨rfl, rfl⟩ := hc
      have e : ((g.setL t' c' l).move [p] (some .live)).L t' c' = l := by
        simp [Ledger.setL, Ledger.move]
      rw [e]
      refine Ledger.move_source (g.setL t' c' l) [p] (some .live) (.loc t' c') (p :: l) l
        (by simp) ?_ ?_
      · intro q
        rw [← hL]
        exact h.ownL t' c' q
      · intro q
        simp only [List.mem_cons, List.mem_singleton, List.not_mem_nil, or_false]
        constructor
        · intro hq
          exact ⟨Or.inr hq, fun e => hnd.1 (e ▸ hq)⟩
        · rintro ⟨hq | hq, hne⟩
          · exact absurd hq hne
          · exact hq
    · have e : ((g.setL t c l).move [p] (some .live)).L t' c' = g.L t' c' := by
        simp [Ledger.setL, Ledger.move, hc]
      rw [e]
      refine Ledger.move_other (g.setL t c l) [p] (some .live) (some (.loc t c)) (.loc t' c')
        (g.L t' c') hT ?_ (by simp) (h.ownL t' c')
      intro e
      simp only [Option.some.injEq, Owner.loc.injEq] at e
      exact hc ⟨e.1.symm, e.2.symm⟩
  · intro c'
    exact Ledger.move_other (g.setL t c l) [p] (some .live) (some (.loc t c)) (.glob c')
      (g.G c') hT (by simp) (by simp) (h.ownG c')

/-- The small path of `quill_alloc_free` keeps the book right: a live slab
becomes the head of the free list of class `c` of thread `t`. -/
theorem Ledger.ok_push (g : Ledger) (s : State) (live : List SlabPtr)
    (dead : Nat → Nat → Prop) (t c : Nat) (p : SlabPtr)
    (h : g.ok s live dead) (hp : p ∈ live) :
    ((g.setL t c (p :: g.L t c)).move [p] (some (.loc t c))).ok
      ((s.setNext p (s.classes t c).unused_next).setUnusedNext t c (some p))
      (live.erase p) dead := by
  have hown : g.own p = some .live := (h.ownLive p).mp hp
  have hT : ∀ q, q ∈ [p] → (g.setL t c (p :: g.L t c)).own q = some .live := by
    intro q hq
    rw [List.mem_singleton.mp hq]
    exact hown
  have hpL : ∀ t' c', p ∉ g.L t' c' := by
    intro t' c' hm
    have := (h.ownL t' c' p).mp hm
    rw [hown] at this
    cases this
  have hpG : ∀ c', p ∉ g.G c' := by
    intro c' hm
    have := (h.ownG c' p).mp hm
    rw [hown] at this
    cases this
  have f : Frame ([p] ++ []) s
      ((s.setNext p (s.classes t c).unused_next).setUnusedNext t c (some p)) :=
    (Frame.setNext s p (s.classes t c).unused_next).trans (Frame.setUnusedNext _ t c (some p))
  have hnotT : ∀ (X : List SlabPtr), p ∉ X → ∀ q, q ∈ X → q ∉ [p] ++ [] := by
    intro X hX q hq hm
    simp only [List.append_nil, List.mem_singleton] at hm
    exact hX (hm ▸ hq)
  obtain ⟨r1, r2, r3, r4, r5, r6⟩ := Ledger.ok_regions h f
    (fun q hq => Ledger.move_none (g.setL t c (p :: g.L t c)) [p] (some (.loc t c)) q hq (by
      intro p' hp'
      rw [hT p' hp']
      simp))
  refine { chainL := ?_, chainG := ?_, nodupL := ?_, nodupG := h.nodupG,
           nodupLive := h.nodupLive.erase p, ownLive := ?_, ownL := ?_, ownG := ?_,
           ownU := r1, freshR := r2, freshB := r3, regLt := r4, regInj := r5, cursor := r6,
           count := h.count }
  · intro t' c'
    by_cases hc : t' = t ∧ c' = c
    · obtain ⟨rfl, rfl⟩ := hc
      have e : ((g.setL t' c' (p :: g.L t' c')).move [p] (some (.loc t' c'))).L t' c' =
          p :: g.L t' c' := by
        simp [Ledger.setL, Ledger.move]
      rw [e]
      have old := f.chain (h.chainL t' c') (hnotT _ (hpL t' c'))
      refine ⟨by simp [State.setUnusedNext, State.setClass], ?_⟩
      have e2 : (((s.setNext p (s.classes t' c').unused_next).setUnusedNext t' c'
          (some p)).slab p).next = (s.classes t' c').unused_next := by
        simp [State.setUnusedNext, State.setClass, State.setNext]
      rw [e2]
      exact old
    · have e : ((g.setL t c (p :: g.L t c)).move [p] (some (.loc t c))).L t' c' =
          g.L t' c' := by
        simp [Ledger.setL, Ledger.move, hc]
      rw [e]
      have old := f.chain (h.chainL t' c') (hnotT _ (hpL t' c'))
      simpa [State.setUnusedNext, State.setClass, hc] using old
  · intro c'
    exact f.chain (h.chainG c') (hnotT _ (hpG c'))
  · intro t' c'
    by_cases hc : t' = t ∧ c' = c
    · obtain ⟨rfl, rfl⟩ := hc
      simpa [Ledger.setL, Ledger.move] using ⟨hpL t' c', h.nodupL t' c'⟩
    · simpa [Ledger.setL, Ledger.move, hc] using h.nodupL t' c'
  · exact Ledger.move_source (g.setL t c (p :: g.L t c)) [p] (some (.loc t c)) .live live
      (live.erase p) (by simp) h.ownLive (by
        intro q
        rw [h.nodupLive.mem_erase_iff]
        simp only [List.mem_singleton]
        tauto)
  · intro t' c'
    by_cases hc : t' = t ∧ c' = c
    · obtain ⟨rfl, rfl⟩ := hc
      have e : ((g.setL t' c' (p :: g.L t' c')).move [p] (some (.loc t' c'))).L t' c' =
          p :: g.L t' c' := by
        simp [Ledger.setL, Ledger.move]
      rw [e]
      exact Ledger.move_target (g.setL t' c' (p :: g.L t' c')) [p] (.loc t' c') (g.L t' c')
        (p :: g.L t' c') (h.ownL t' c') (by
          intro q
          simp only [List.mem_cons, List.mem_singleton, List.not_mem_nil, or_false]
          tauto)
    · have e : ((g.setL t c (p :: g.L t c)).move [p] (some (.loc t c))).L t' c' =
          g.L t' c' := by
        simp [Ledger.setL, Ledger.move, hc]
      rw [e]
      refine Ledger.move_other (g.setL t c (p :: g.L t c)) [p] (some (.loc t c)) (some .live)
        (.loc t' c') (g.L t' c') hT (by simp) ?_ (h.ownL t' c')
      intro e
      simp only [Option.some.injEq, Owner.loc.injEq] at e
      exact hc ⟨e.1.symm, e.2.symm⟩
  · intro c'
    exact Ledger.move_other (g.setL t c (p :: g.L t c)) [p] (some (.loc t c)) (some .live)
      (.glob c') (g.G c') hT (by simp) (by simp) (h.ownG c')

/-- The unused slots are the slots of the current region from the cursor to
the end of the region. -/
theorem mem_unused_slots {s : State} {t c : Nat} {q : SlabPtr} :
    q ∈ unused_slots s t c ↔
      ∃ r i, q = .slot r i ∧ (s.classes t c).next = some r ∧ (s.region r).next_i ≤ i ∧
        i < REGION_SLAB_COUNT := by
  unfold unused_slots
  cases hr : (s.classes t c).next with
  | none => simp
  | some r =>
    simp only [mem_region_slots, Option.some.injEq]
    constructor
    · rintro ⟨j, hj1, hj2, hq⟩
      exact ⟨r, j, hq, rfl, hj1, by omega⟩
    · rintro ⟨r', j, hq, hr', hj1, hj2⟩
      subst hr'
      exact ⟨j, hj1, by omega, hq⟩

/-- The book is right for fewer drained classes, it is right for more. -/
theorem Ledger.ok.weaken {g : Ledger} {s : State} {live : List SlabPtr}
    {dead dead' : Nat → Nat → Prop} (h : g.ok s live dead)
    (hd : ∀ t c, dead t c → dead' t c) : g.ok s live dead' :=
  { h with ownU := fun t c q hn hq => h.ownU t c q (fun hdead => hn (hd t c hdead)) hq }

/-- The large path of `quill_alloc_free` keeps the book right: a live block
is no longer held. -/
theorem Ledger.ok_release (g : Ledger) (s : State) (live : List SlabPtr)
    (dead : Nat → Nat → Prop) (p : SlabPtr) (X : List Nat)
    (h : g.ok s live dead) (hp : p ∈ live) :
    (g.move [p] none).ok { s with live := X } (live.erase p) dead := by
  have hown : g.own p = some .live := (h.ownLive p).mp hp
  have hT : ∀ q, q ∈ [p] → g.own q = some .live := by
    intro q hq
    rw [List.mem_singleton.mp hq]
    exact hown
  obtain ⟨r1, r2, r3, r4, r5, r6⟩ :=
    @Ledger.ok_regions_of g (g.move [p] none) s { s with live := X } live dead h rfl rfl rfl
      (fun _ _ => rfl)
      (fun q hq => Ledger.move_none g [p] none q hq (by
        intro p' hp'
        rw [hT p' hp']
        simp))
  exact { chainL := h.chainL, chainG := h.chainG, nodupL := h.nodupL, nodupG := h.nodupG,
          nodupLive := h.nodupLive.erase p,
          ownLive := Ledger.move_source g [p] none .live live (live.erase p) (by simp)
            h.ownLive (by
              intro q
              rw [h.nodupLive.mem_erase_iff]
              simp only [List.mem_singleton]
              tauto),
          ownL := fun t' c' => Ledger.move_other g [p] none (some .live) (.loc t' c')
            (g.L t' c') hT (by simp) (by simp) (h.ownL t' c'),
          ownG := fun c' => Ledger.move_other g [p] none (some .live) (.glob c')
            (g.G c') hT (by simp) (by simp) (h.ownG c'),
          ownU := r1, freshR := r2, freshB := r3, regLt := r4, regInj := r5, cursor := r6,
          count := h.count }

/-- The large path of `quill_alloc_alloc` keeps the book right: the new block
is live. -/
theorem Ledger.ok_large (g : Ledger) (s : State) (live : List SlabPtr)
    (dead : Nat → Nat → Prop) (os : List Bool)
    (h : g.ok s live dead) (hos : s.os = true :: os) :
    (g.move [.block s.blocks] (some .live)).ok
      ((malloc s).2.setTag (.block s.blocks) NO_CLASS) (.block s.blocks :: live) dead := by
  have hown : g.own (.block s.blocks) = none := h.freshB s.blocks (Nat.le_refl _)
  have hT : ∀ q, q ∈ [SlabPtr.block s.blocks] → g.own q = none := by
    intro q hq
    rw [List.mem_singleton.mp hq]
    exact hown
  have hm : (malloc s).2.classes = s.classes ∧ (malloc s).2.global_unused = s.global_unused ∧
      (malloc s).2.region = s.region ∧ (malloc s).2.slab = s.slab ∧
      (malloc s).2.regions = s.regions ∧ (malloc s).2.blocks = s.blocks + 1 := by
    simp [malloc, hos]
  obtain ⟨m1, m2, m3, m4, m5, m6⟩ := hm
  have hnext : ∀ q, (((malloc s).2.setTag (.block s.blocks) NO_CLASS).slab q).next =
      (s.slab q).next := by
    intro q
    simp only [State.setTag, m4]
    split
    · next e => rw [e]
    · rfl
  have hcl : ((malloc s).2.setTag (.block s.blocks) NO_CLASS).classes = s.classes := m1
  have hgl : ((malloc s).2.setTag (.block s.blocks) NO_CLASS).global_unused =
      s.global_unused := m2
  have hU : ∀ t c, unused_slots ((malloc s).2.setTag (.block s.blocks) NO_CLASS) t c =
      unused_slots s t c := by
    intro t c
    have hreg : ((malloc s).2.setTag (.block s.blocks) NO_CLASS).region = s.region := m3
    simp only [unused_slots, hcl, hreg]
  have hmove : ∀ q, q ≠ .block s.blocks → g.own q = none →
      (g.move [.block s.blocks] (some .live)).own q = none := by
    intro q hq hn
    simp [Ledger.move, hq, hn]
  refine { chainL := ?_, chainG := ?_, nodupL := h.nodupL, nodupG := h.nodupG,
           nodupLive := ?_, ownLive := ?_, ownL := ?_, ownG := ?_, ownU := ?_, freshR := ?_,
           freshB := ?_, regLt := ?_, regInj := ?_, cursor := ?_, count := ?_ }
  · intro t c
    rw [hcl]
    exact Chain.congr_next hnext (h.chainL t c)
  · intro c
    rw [hgl]
    exact Chain.congr_next hnext (h.chainG c)
  · rw [List.nodup_cons]
    refine ⟨fun hp => ?_, h.nodupLive⟩
    have := (h.ownLive _).mp hp
    rw [hown] at this
    cases this
  · exact Ledger.move_target g [.block s.blocks] .live live (.block s.blocks :: live)
      h.ownLive (by
        intro q
        simp only [List.mem_cons, List.mem_singleton, List.not_mem_nil, or_false]
        tauto)
  · intro t' c'
    exact Ledger.move_other g [.block s.blocks] (some .live) none (.loc t' c') (g.L t' c') hT
      (by simp) (by simp) (h.ownL t' c')
  · intro c'
    exact Ledger.move_other g [.block s.blocks] (some .live) none (.glob c') (g.G c') hT
      (by simp) (by simp) (h.ownG c')
  · intro t c q hd hq
    rw [hU] at hq
    obtain ⟨r, i, e, _, _⟩ := mem_unused_slots.mp hq
    exact hmove q (by rw [e]; simp) (h.ownU t c q hd hq)
  · intro r i hr
    have hr' : s.regions ≤ r := by
      have : ((malloc s).2.setTag (.block s.blocks) NO_CLASS).regions = s.regions := m5
      omega
    exact hmove _ (by simp) (h.freshR r i hr')
  · intro b hb
    have hb' : s.blocks + 1 ≤ b := by
      have : ((malloc s).2.setTag (.block s.blocks) NO_CLASS).blocks = s.blocks + 1 := m6
      omega
    exact hmove _ (by simp; omega) (h.freshB b (by omega))
  · intro t c r hr
    rw [hcl] at hr
    have : ((malloc s).2.setTag (.block s.blocks) NO_CLASS).regions = s.regions := m5
    rw [this]
    exact h.regLt t c r hr
  · intro t c t' c' r hr hr'
    rw [hcl] at hr hr'
    exact h.regInj t c t' c' r hr hr'
  · exact h.cursor.of_same m3 (fun t c => by rw [hcl])
  · intro c
    rw [hgl]
    exact h.count c

/-- What `bump_slab` does in a region whose cursor is within the region. -/
theorem bump_slab_facts (c r : Nat) (s : State)
    (hlt : (s.region r).next_i < REGION_SLAB_COUNT) :
    (bump_slab c r s).1 = .slot r (s.region r).next_i ∧
      (bump_slab c r s).2.classes = s.classes ∧
      (bump_slab c r s).2.global_unused = s.global_unused ∧
      (bump_slab c r s).2.regions = s.regions ∧
      (bump_slab c r s).2.blocks = s.blocks ∧
      (∀ q, ((bump_slab c r s).2.slab q).next = (s.slab q).next) ∧
      ((bump_slab c r s).2.region r).next_i = (s.region r).next_i + 1 ∧
      (∀ r', r' ≠ r → (bump_slab c r s).2.region r' = s.region r') := by
  have hmod : ((s.region r).next_i + 1) % WORD = (s.region r).next_i + 1 := by
    apply Nat.mod_eq_of_lt
    unfold REGION_SLAB_COUNT at hlt
    unfold WORD
    omega
  refine ⟨rfl, rfl, rfl, rfl, rfl, ?_, ?_, ?_⟩
  · intro q
    simp only [bump_slab, State.setTag, State.setNextI]
    split
    · next e => rw [e]
    · rfl
  · simp only [bump_slab, State.setTag, State.setNextI, hmod, if_true]
  · intro r' hr'
    simp only [bump_slab, State.setTag, State.setNextI, hr', if_false]

/-- Bump allocation in the current region keeps the book right: the slot at
the cursor becomes live. -/
theorem Ledger.ok_take (g : Ledger) (s : State) (live : List SlabPtr)
    (dead : Nat → Nat → Prop) (t c r : Nat)
    (h : g.ok s live dead) (hd : ¬ dead t c) (hr : (s.classes t c).next = some r)
    (hlt : (s.region r).next_i < REGION_SLAB_COUNT) :
    (g.move [(bump_slab c r s).1] (some .live)).ok (bump_slab c r s).2
      ((bump_slab c r s).1 :: live) dead := by
  obtain ⟨b1, b2, b3, b4, b5, b6, b7, b8⟩ := bump_slab_facts c r s hlt
  rw [b1]
  have hpU : SlabPtr.slot r (s.region r).next_i ∈ unused_slots s t c :=
    mem_unused_slots.mpr ⟨r, _, rfl, hr, Nat.le_refl _, hlt⟩
  have hown : g.own (.slot r (s.region r).next_i) = none := h.ownU t c _ hd hpU
  have hT : ∀ q, q ∈ [SlabPtr.slot r (s.region r).next_i] → g.own q = none := by
    intro q hq
    rw [List.mem_singleton.mp hq]
    exact hown
  have hmove : ∀ q, q ≠ .slot r (s.region r).next_i → g.own q = none →
      (g.move [.slot r (s.region r).next_i] (some .live)).own q = none := by
    intro q hq hn
    simp [Ledger.move, hq, hn]
  refine { chainL := ?_, chainG := ?_, nodupL := h.nodupL, nodupG := h.nodupG,
           nodupLive := ?_, ownLive := ?_, ownL := ?_, ownG := ?_, ownU := ?_, freshR := ?_,
           freshB := ?_, regLt := ?_, regInj := ?_, cursor := ?_, count := ?_ }
  · intro t' c'
    rw [b2]
    exact Chain.congr_next b6 (h.chainL t' c')
  · intro c'
    rw [b3]
    exact Chain.congr_next b6 (h.chainG c')
  · rw [List.nodup_cons]
    refine ⟨fun hp => ?_, h.nodupLive⟩
    have := (h.ownLive _).mp hp
    rw [hown] at this
    cases this
  · exact Ledger.move_target g [.slot r (s.region r).next_i] .live live
      (.slot r (s.region r).next_i :: live) h.ownLive (by
        intro q
        simp only [List.mem_cons, List.mem_singleton, List.not_mem_nil, or_false]
        tauto)
  · intro t' c'
    exact Ledger.move_other g [.slot r (s.region r).next_i] (some .live) none (.loc t' c')
      (g.L t' c') hT (by simp) (by simp) (h.ownL t' c')
  · intro c'
    exact Ledger.move_other g [.slot r (s.region r).next_i] (some .live) none (.glob c')
      (g.G c') hT (by simp) (by simp) (h.ownG c')
  · intro t' c' q hd' hq
    obtain ⟨r', j, e, hr', hj1, hj2⟩ := mem_unused_slots.mp hq
    rw [b2] at hr'
    by_cases hrr : r' = r
    · subst hrr
      obtain ⟨rfl, rfl⟩ := h.regInj t c t' c' r' hr hr'
      rw [b7] at hj1
      have hq' : q ∈ unused_slots s t c :=
        mem_unused_slots.mpr ⟨r', j, e, hr, by omega, hj2⟩
      refine hmove q ?_ (h.ownU t c q hd hq')
      rw [e]
      intro e2
      simp only [SlabPtr.slot.injEq, true_and] at e2
      omega
    · rw [b8 r' hrr] at hj1
      have hq' : q ∈ unused_slots s t' c' := mem_unused_slots.mpr ⟨r', j, e, hr', hj1, hj2⟩
      refine hmove q ?_ (h.ownU t' c' q hd' hq')
      rw [e]
      intro e2
      simp only [SlabPtr.slot.injEq] at e2
      exact hrr e2.1
  · intro r' i hr'
    rw [b4] at hr'
    have hlt' := h.regLt t c r hr
    refine hmove _ ?_ (h.freshR r' i hr')
    intro e2
    simp only [SlabPtr.slot.injEq] at e2
    omega
  · intro b hb
    rw [b5] at hb
    exact hmove _ (by simp) (h.freshB b hb)
  · intro t' c' r' hr'
    rw [b2] at hr'
    rw [b4]
    exact h.regLt t' c' r' hr'
  · intro t1 c1 t2 c2 r' h1 h2
    rw [b2] at h1 h2
    exact h.regInj t1 c1 t2 c2 r' h1 h2
  · intro t' c' r' hr'
    rw [b2] at hr'
    by_cases hrr : r' = r
    · subst hrr
      rw [b7]
      omega
    · rw [b8 r' hrr]
      exact h.cursor t' c' r' hr'
  · intro c'
    rw [b3]
    exact h.count c'

/-- Acquiring a new region for class `c` of thread `t` keeps the book right:
no slab changes hands. -/
theorem Ledger.ok_region (g : Ledger) (s : State) (live : List SlabPtr)
    (dead : Nat → Nat → Prop) (t c : Nat) (os : List Bool)
    (h : g.ok s live dead) (hos : s.os = true :: os) :
    g.ok (((REGION_ALLOC s).2.setNextI s.regions 0).setRegion t c (some s.regions)) live
      dead := by
  have hR : (REGION_ALLOC s).2.classes = s.classes ∧
      (REGION_ALLOC s).2.global_unused = s.global_unused ∧
      (REGION_ALLOC s).2.regions = s.regions + 1 ∧
      (REGION_ALLOC s).2.blocks = s.blocks ∧
      (∀ r, r ≠ s.regions → (REGION_ALLOC s).2.region r = s.region r) ∧
      (∀ r i, r ≠ s.regions → (REGION_ALLOC s).2.slab (.slot r i) = s.slab (.slot r i)) ∧
      (∀ b, (REGION_ALLOC s).2.slab (.block b) = s.slab (.block b)) := by
    refine ⟨?_, ?_, ?_, ?_, ?_, ?_, ?_⟩ <;> simp +contextual [REGION_ALLOC, hos]
  obtain ⟨a1, a2, a3, a4, a5, a6, a7⟩ := hR
  have c1 : ∀ t' c', ¬ (t' = t ∧ c' = c) →
      (((REGION_ALLOC s).2.setNextI s.regions 0).setRegion t c (some s.regions)).classes t' c' =
        s.classes t' c' := by
    intro t' c' hne
    simp [State.setRegion, State.setClass, State.setNextI, a1, hne]
  have c2 : ((((REGION_ALLOC s).2.setNextI s.regions 0).setRegion t c
      (some s.regions)).classes t c).next = some s.regions := by
    simp [State.setRegion, State.setClass, State.setNextI]
  have c3 : ∀ t' c', ((((REGION_ALLOC s).2.setNextI s.regions 0).setRegion t c
      (some s.regions)).classes t' c').unused_next = (s.classes t' c').unused_next := by
    intro t' c'
    by_cases hne : t' = t ∧ c' = c
    · obtain ⟨rfl, rfl⟩ := hne
      simp [State.setRegion, State.setClass, State.setNextI, a1]
    · rw [c1 t' c' hne]
  have g1 : (((REGION_ALLOC s).2.setNextI s.regions 0).setRegion t c
      (some s.regions)).global_unused = s.global_unused := a2
  have r1 : (((REGION_ALLOC s).2.setNextI s.regions 0).setRegion t c
      (some s.regions)).regions = s.regions + 1 := a3
  have r2 : (((REGION_ALLOC s).2.setNextI s.regions 0).setRegion t c
      (some s.regions)).blocks = s.blocks := a4
  have r3 : ∀ r, r ≠ s.regions → (((REGION_ALLOC s).2.setNextI s.regions 0).setRegion t c
      (some s.regions)).region r = s.region r := by
    intro r hr
    simp [State.setRegion, State.setClass, State.setNextI, hr, a5 r hr]
  have r4 : ((((REGION_ALLOC s).2.setNextI s.regions 0).setRegion t c
      (some s.regions)).region s.regions).next_i = 0 := by
    simp [State.setRegion, State.setClass, State.setNextI]
  have hslab : ∀ q, g.own q ≠ none →
      (((REGION_ALLOC s).2.setNextI s.regions 0).setRegion t c (some s.regions)).slab q =
        s.slab q := by
    intro q hq
    cases q with
    | block b => exact a7 b
    | slot r i =>
      have hr : r ≠ s.regions := by
        intro e
        exact hq (h.freshR r i (by omega))
      exact a6 r i hr
  have hnext : ∀ t' c' r', ¬ (t' = t ∧ c' = c) →
      ((((REGION_ALLOC s).2.setNextI s.regions 0).setRegion t c
        (some s.regions)).classes t' c').next = some r' →
      (s.classes t' c').next = some r' ∧ r' ≠ s.regions := by
    intro t' c' r' hne hr'
    rw [c1 t' c' hne] at hr'
    have := h.regLt t' c' r' hr'
    exact ⟨hr', by omega⟩
  refine { chainL := ?_, chainG := ?_, nodupL := h.nodupL, nodupG := h.nodupG,
           nodupLive := h.nodupLive, ownLive := h.ownLive, ownL := h.ownL, ownG := h.ownG,
           ownU := ?_, freshR := ?_, freshB := ?_, regLt := ?_, regInj := ?_, cursor := ?_,
           count := ?_ }
  · intro t' c'
    rw [c3]
    refine Chain.congr ?_ (h.chainL t' c')
    intro q hq
    exact hslab q (by rw [(h.ownL t' c' q).mp hq]; simp)
  · intro c'
    rw [g1]
    refine Chain.congr ?_ (h.chainG c')
    intro q hq
    exact hslab q (by rw [(h.ownG c' q).mp hq]; simp)
  · intro t' c' q hd hq
    obtain ⟨r', j, e, hr', hj1, hj2⟩ := mem_unused_slots.mp hq
    by_cases hne : t' = t ∧ c' = c
    · obtain ⟨rfl, rfl⟩ := hne
      rw [c2] at hr'
      cases hr'
      rw [e]
      exact h.freshR _ _ (Nat.le_refl _)
    · obtain ⟨hr'', hrr⟩ := hnext t' c' r' hne hr'
      rw [r3 r' hrr] at hj1
      exact h.ownU t' c' q hd (mem_unused_slots.mpr ⟨r', j, e, hr'', hj1, hj2⟩)
  · intro r i hr
    rw [r1] at hr
    exact h.freshR r i (by omega)
  · intro b hb
    rw [r2] at hb
    exact h.freshB b hb
  · intro t' c' r' hr'
    rw [r1]
    by_cases hne : t' = t ∧ c' = c
    · obtain ⟨rfl, rfl⟩ := hne
      rw [c2] at hr'
      cases hr'
      omega
    · have := h.regLt t' c' r' (hnext t' c' r' hne hr').1
      omega
  · intro t1 c1' t2 c2' r' h1 h2
    by_cases hn1 : t1 = t ∧ c1' = c
    · obtain ⟨rfl, rfl⟩ := hn1
      rw [c2] at h1
      cases h1
      by_cases hn2 : t2 = t1 ∧ c2' = c1'
      · exact ⟨hn2.1.symm, hn2.2.symm⟩
      · exact absurd rfl (hnext t2 c2' _ hn2 h2).2
    · by_cases hn2 : t2 = t ∧ c2' = c
      · obtain ⟨rfl, rfl⟩ := hn2
        rw [c2] at h2
        cases h2
        exact absurd rfl (hnext t1 c1' _ hn1 h1).2
      · exact h.regInj t1 c1' t2 c2' r' (hnext t1 c1' r' hn1 h1).1 (hnext t2 c2' r' hn2 h2).1
  · intro t' c' r' hr'
    by_cases hne : t' = t ∧ c' = c
    · obtain ⟨rfl, rfl⟩ := hne
      rw [c2] at hr'
      cases hr'
      rw [r4]
      exact Nat.zero_le _
    · obtain ⟨hr'', hrr⟩ := hnext t' c' r' hne hr'
      rw [r3 r' hrr]
      exact h.cursor t' c' r' hr''
  · intro c'
    rw [g1]
    exact h.count c'

/-- Function `allocate_slab` run for a class that is not drained keeps the
book right: the slab it returns becomes live. -/
theorem Ledger.ok_allocate_slab (g : Ledger) (s s' : State) (live : List SlabPtr)
    (dead : Nat → Nat → Prop) (t c : Nat) (p : SlabPtr)
    (h : g.ok s live dead) (hd : ¬ dead t c) (hs : allocate_slab t c s = .ok (p, s')) :
    ∃ g' : Ledger, g'.ok s' (p :: live) dead ∧ g'.G = g.G := by
  by_cases hroom : ∃ r, (s.classes t c).next = some r ∧ (s.region r).next_i ≠ REGION_SLAB_COUNT
  · obtain ⟨r, hr, hne⟩ := hroom
    have hle := h.cursor t c r hr
    have hlt : (s.region r).next_i < REGION_SLAB_COUNT := by omega
    rw [allocate_slab_usable t c r s hr hne] at hs
    simp only [Except.ok.injEq] at hs
    have k := Ledger.ok_take g s live dead t c r h hd hr hlt
    rw [hs] at k
    exact ⟨_, k, rfl⟩
  · have hfull : ∀ r, (s.classes t c).next = some r →
        (s.region r).next_i = REGION_SLAB_COUNT := by
      intro r hr
      by_contra hne
      exact hroom ⟨r, hr, hne⟩
    have hos : ∃ os, s.os = true :: os := by
      by_contra hno
      have := allocate_slab_refused t c s hfull (fun os hos => hno ⟨os, hos⟩)
      rw [this] at hs
      simp at hs
    obtain ⟨os, hos⟩ := hos
    rw [allocate_slab_fresh t c s os hfull hos] at hs
    simp only [Except.ok.injEq] at hs
    have k1 := Ledger.ok_region g s live dead t c os h hos
    have hcur : ((((REGION_ALLOC s).2.setNextI s.regions 0).setRegion t c
        (some s.regions)).region s.regions).next_i = 0 := by
      simp [State.setRegion, State.setClass, State.setNextI]
    have k2 := Ledger.ok_take g _ live dead t c s.regions k1 hd
      (by simp [State.setRegion, State.setClass, State.setNextI])
      (by rw [hcur]; decide)
    rw [hs] at k2
    exact ⟨_, k2, rfl⟩

/-- Subtracting from a 64-bit count that is a length modulo `2^64` at most
what the list holds gives the remaining length modulo `2^64`. -/
theorem count_sub_mod (a k : Nat) (hk : k ≤ a) (hW : k ≤ WORD) :
    (a % WORD + WORD - k) % WORD = (a - k) % WORD := by
  have h1 : (a % WORD + WORD - k) + k = a % WORD + WORD := by omega
  have h2 : (a - k) + k = a := by omega
  have e : ((a % WORD + WORD - k) + k) % WORD = ((a - k) + k) % WORD := by
    rw [h1, h2, Nat.add_mod_right, Nat.mod_mod]
  exact Nat.ModEq.add_right_cancel' k e

/-- What `fetch_global_unused` does to the lists in memory and to the count. -/
theorem fetch_global_unused_spec (t c : Nat) (s : State) (G L : List SlabPtr)
    (hG : Chain s.slab (s.global_unused c).next G)
    (hL : Chain s.slab (s.classes t c).unused_next L)
    (hnd : (G ++ L).Nodup) :
    Chain (fetch_global_unused t c s).slab
        ((fetch_global_unused t c s).classes t c).unused_next
        ((G.take G_UNUSED_BATCH_SIZE).reverse ++ L) ∧
      Chain (fetch_global_unused t c s).slab
        ((fetch_global_unused t c s).global_unused c).next (G.drop G_UNUSED_BATCH_SIZE) ∧
      Frame (G.take G_UNUSED_BATCH_SIZE) s (fetch_global_unused t c s) ∧
      ((fetch_global_unused t c s).global_unused c).count =
        ((s.global_unused c).count + WORD - min G_UNUSED_BATCH_SIZE G.length) % WORD ∧
      (∀ i, i ≠ c → (fetch_global_unused t c s).global_unused i = s.global_unused i) ∧
      (∀ t' i, ¬ (t' = t ∧ i = c) →
        (fetch_global_unused t c s).classes t' i = s.classes t' i) := by
  obtain ⟨l1, l2, l3⟩ := fetch_global_unused_lists t c s G L hG hL hnd
  obtain ⟨f1, _, _, _, f5, f6, f7⟩ := fetch_loop_spec t c G_UNUSED_BATCH_SIZE 0 s G L hG hL hnd
  refine ⟨l1, l2, l3, ?_, ?_, ?_⟩
  · have : ((fetch_global_unused t c s).global_unused c).count =
        (((fetch_loop t c G_UNUSED_BATCH_SIZE 0 s).2.global_unused c).count + WORD -
          (fetch_loop t c G_UNUSED_BATCH_SIZE 0 s).1) % WORD := by
      simp [fetch_global_unused, State.setGlobal]
    rw [this, f5, f1, Nat.zero_add]
  · intro i hi
    have : (fetch_global_unused t c s).global_unused i =
        (fetch_loop t c G_UNUSED_BATCH_SIZE 0 s).2.global_unused i := by
      simp [fetch_global_unused, State.setGlobal, hi]
    rw [this, f6 i hi]
  · intro t' i hne
    exact f7 t' i hne

/-- Function `fetch_global_unused` keeps the book right: the first 16 slabs of
the global list of class `c` (or all, if there are fewer) go to the free list
of class `c` of thread `t`, and the count goes down by their number. -/
theorem Ledger.ok_pull (g : Ledger) (s : State) (live : List SlabPtr)
    (dead : Nat → Nat → Prop) (t c : Nat) (h : g.ok s live dead) :
    (((g.setL t c (((g.G c).take G_UNUSED_BATCH_SIZE).reverse ++ g.L t c)).setG c
        ((g.G c).drop G_UNUSED_BATCH_SIZE)).move ((g.G c).take G_UNUSED_BATCH_SIZE)
        (some (.loc t c))).ok (fetch_global_unused t c s) live dead := by
  have hdis : ∀ q, q ∈ g.G c → q ∉ g.L t c := by
    intro q hq hq'
    have e1 := (h.ownG c q).mp hq
    have e2 := (h.ownL t c q).mp hq'
    rw [e1] at e2
    cases e2
  have hnd : (g.G c ++ g.L t c).Nodup :=
    List.nodup_append.mpr ⟨h.nodupG c, h.nodupL t c, fun q hq hq' => hdis q hq hq'⟩
  obtain ⟨s1, s2, s3, s4, s5, s6⟩ :=
    fetch_global_unused_spec t c s (g.G c) (g.L t c) (h.chainG c) (h.chainL t c) hnd
  have hT0 : ∀ q, q ∈ (g.G c).take G_UNUSED_BATCH_SIZE → g.own q = some (.glob c) := by
    intro q hq
    exact (h.ownG c q).mp (List.mem_of_mem_take hq)
  have hT : ∀ q, q ∈ (g.G c).take G_UNUSED_BATCH_SIZE →
      ((g.setL t c (((g.G c).take G_UNUSED_BATCH_SIZE).reverse ++ g.L t c)).setG c
        ((g.G c).drop G_UNUSED_BATCH_SIZE)).own q = some (.glob c) := hT0
  have hsplit : ((g.G c).take G_UNUSED_BATCH_SIZE ++ (g.G c).drop G_UNUSED_BATCH_SIZE).Nodup
      := by
    rw [List.take_append_drop]
    exact h.nodupG c
  obtain ⟨r1, r2, r3, r4, r5, r6⟩ := Ledger.ok_regions h s3
    (fun q hq => Ledger.move_none _ _ (some (.loc t c)) q hq (by
      intro p' hp'
      rw [hT0 p' hp']
      simp))
  have eL : ∀ t' c', (((g.setL t c (((g.G c).take G_UNUSED_BATCH_SIZE).reverse ++ g.L t c)).setG
      c ((g.G c).drop G_UNUSED_BATCH_SIZE)).move ((g.G c).take G_UNUSED_BATCH_SIZE)
      (some (.loc t c))).L t' c' =
        if t' = t ∧ c' = c then ((g.G c).take G_UNUSED_BATCH_SIZE).reverse ++ g.L t c
        else g.L t' c' := fun _ _ => rfl
  have eG : ∀ c', (((g.setL t c (((g.G c).take G_UNUSED_BATCH_SIZE).reverse ++ g.L t c)).setG
      c ((g.G c).drop G_UNUSED_BATCH_SIZE)).move ((g.G c).take G_UNUSED_BATCH_SIZE)
      (some (.loc t c))).G c' =
        if c' = c then (g.G c).drop G_UNUSED_BATCH_SIZE else g.G c' := fun _ => rfl
  refine { chainL := ?_, chainG := ?_, nodupL := ?_, nodupG := ?_,
           nodupLive := h.nodupLive, ownLive := ?_, ownL := ?_, ownG := ?_,
           ownU := r1, freshR := r2, freshB := r3, regLt := r4, regInj := r5, cursor := r6,
           count := ?_ }
  · intro t' c'
    rw [eL]
    by_cases hc : t' = t ∧ c' = c
    · obtain ⟨rfl, rfl⟩ := hc
      simpa using s1
    · rw [if_neg hc, s6 t' c' hc]
      refine s3.chain (h.chainL t' c') ?_
      intro q hq hq'
      have e1 := (h.ownL t' c' q).mp hq
      rw [hT0 q hq'] at e1
      cases e1
  · intro c'
    rw [eG]
    by_cases hc : c' = c
    · subst hc
      simpa using s2
    · rw [if_neg hc, s5 c' hc]
      refine s3.chain (h.chainG c') ?_
      intro q hq hq'
      have e1 := (h.ownG c' q).mp hq
      rw [hT0 q hq'] at e1
      simp only [Option.some.injEq, Owner.glob.injEq] at e1
      exact hc e1.symm
  · intro t' c'
    rw [eL]
    by_cases hc : t' = t ∧ c' = c
    · rw [if_pos hc]
      have := hnd.sublist ((List.take_sublist G_UNUSED_BATCH_SIZE (g.G c)).append_right (g.L t c))
      rw [List.nodup_append] at this ⊢
      exact ⟨List.nodup_reverse.mpr this.1, this.2.1,
        fun q hq => this.2.2 (List.mem_reverse.mp hq)⟩
    · rw [if_neg hc]
      exact h.nodupL t' c'
  · intro c'
    rw [eG]
    by_cases hc : c' = c
    · rw [if_pos hc]
      exact (h.nodupG c).sublist (List.drop_sublist _ _)
    · rw [if_neg hc]
      exact h.nodupG c'
  · exact Ledger.move_other _ _ (some (.loc t c)) (some (.glob c)) .live live hT (by simp)
      (by simp) h.ownLive
  · intro t' c'
    rw [eL]
    by_cases hc : t' = t ∧ c' = c
    · obtain ⟨rfl, rfl⟩ := hc
      rw [if_pos ⟨rfl, rfl⟩]
      exact Ledger.move_target _ _ (.loc t' c') (g.L t' c') _ (h.ownL t' c') (by
        intro q
        simp only [List.mem_append, List.mem_reverse]
        tauto)
    · rw [if_neg hc]
      refine Ledger.move_other _ _ (some (.loc t c)) (some (.glob c)) (.loc t' c') (g.L t' c')
        hT (by simp) ?_ (h.ownL t' c')
      intro e
      simp only [Option.some.injEq, Owner.loc.injEq] at e
      exact hc ⟨e.1.symm, e.2.symm⟩
  · intro c'
    rw [eG]
    by_cases hc : c' = c
    · subst hc
      rw [if_pos rfl]
      refine Ledger.move_source _ _ (some (.loc t c')) (.glob c') (g.G c') _ (by simp)
        (h.ownG c') ?_
      intro q
      constructor
      · intro hq
        exact ⟨List.mem_of_mem_drop hq, fun hq' => (List.nodup_append.mp hsplit).2.2 hq' hq⟩
      · rintro ⟨hq, hq'⟩
        rw [← List.take_append_drop G_UNUSED_BATCH_SIZE (g.G c'), List.mem_append] at hq
        exact hq.resolve_left hq'
    · rw [if_neg hc]
      refine Ledger.move_other _ _ (some (.loc t c)) (some (.glob c)) (.glob c') (g.G c')
        hT ?_ (by simp) (h.ownG c')
      intro e
      simp only [Option.some.injEq, Owner.glob.injEq] at e
      exact hc e.symm
  · intro c'
    rw [eG]
    by_cases hc : c' = c
    · subst hc
      rw [if_pos rfl, s4, h.count c', List.length_drop]
      have hk : min G_UNUSED_BATCH_SIZE (g.G c').length ≤ (g.G c').length := Nat.min_le_right _ _
      have hW : min G_UNUSED_BATCH_SIZE (g.G c').length ≤ WORD := by
        have : min G_UNUSED_BATCH_SIZE (g.G c').length ≤ G_UNUSED_BATCH_SIZE :=
          Nat.min_le_left _ _
        have : G_UNUSED_BATCH_SIZE ≤ WORD := by decide
        omega
      rw [count_sub_mod _ _ hk hW]
      congr 1
      omega
    · rw [if_neg hc, s5 c' hc]
      exact h.count c'

/-- More fuel does not change the result of the first loop of the teardown. -/
theorem drain_local_fuel (t c : Nat) :
    ∀ (fuel k a : Nat) (s : State) (r : Nat × State),
      drain_local t c fuel a s = some r → drain_local t c (fuel + k) a s = some r
  | 0, _, _, _, _, h => by simp [drain_local] at h
  | fuel + 1, k, a, s, r, h => by
    have e : fuel + 1 + k = (fuel + k) + 1 := by omega
    rw [e]
    cases hl : (s.classes t c).unused_next with
    | none =>
      simp only [drain_local, hl] at h ⊢
      exact h
    | some p =>
      rw [drain_local_succ t c fuel a s p hl] at h
      rw [drain_local_succ t c (fuel + k) a s p hl]
      exact drain_local_fuel t c fuel k _ _ r h

/-- More fuel does not change the result of the teardown of one class. -/
theorem destruct_class_fuel (t c fuel k : Nat) (s s' : State)
    (h : destruct_class t c fuel s = some s') : destruct_class t c (fuel + k) s = some s' := by
  unfold destruct_class at h ⊢
  cases hd : drain_local t c fuel 0 s with
  | none => simp [hd] at h
  | some r =>
    rw [drain_local_fuel t c fuel k 0 s r hd]
    rw [hd] at h
    exact h

/-- The unused slots of a class are distinct. -/
theorem unused_slots_nodup (s : State) (t c : Nat) : (unused_slots s t c).Nodup := by
  unfold unused_slots
  cases (s.classes t c).next with
  | none => exact List.nodup_nil
  | some r => exact region_slots_nodup r _ _

/-- The teardown of one class that is not drained yet keeps the book right:
the free list of the class and the unused slots of its region go to the
global list, the count goes up by their number, and the class is drained. -/
theorem Ledger.ok_drain (g : Ledger) (s s' : State) (live : List SlabPtr)
    (dead : Nat → Nat → Prop) (t c fuel : Nat)
    (h : g.ok s live dead) (hd : ¬ dead t c) (hs : destruct_class t c fuel s = some s') :
    ((((g.setL t c []).setG c
        ((unused_slots s t c).reverse ++ ((g.L t c).reverse ++ g.G c))).move (g.L t c)
        (some (.glob c))).move (unused_slots s t c) (some (.glob c))).ok s' live
      (fun t' c' => dead t' c' ∨ (t' = t ∧ c' = c)) := by
  have hU0 : ∀ q, q ∈ unused_slots s t c → g.own q = none := fun q hq => h.ownU t c q hd hq
  have hL0 : ∀ q, q ∈ g.L t c → g.own q = some (.loc t c) := fun q hq => (h.ownL t c q).mp hq
  have hG0 : ∀ q, q ∈ g.G c → g.own q = some (.glob c) := fun q hq => (h.ownG c q).mp hq
  have hLU : ∀ q, q ∈ g.L t c → q ∉ unused_slots s t c := by
    intro q hq hq'
    have := hL0 q hq
    rw [hU0 q hq'] at this
    cases this
  have hnd : (g.L t c ++ g.G c ++ unused_slots s t c).Nodup := by
    rw [List.nodup_append, List.nodup_append]
    refine ⟨⟨h.nodupL t c, h.nodupG c, ?_⟩, unused_slots_nodup s t c, ?_⟩
    · intro q hq hq'
      have := hL0 q hq
      rw [hG0 q hq'] at this
      cases this
    · intro q hq hq'
      rcases List.mem_append.mp hq with hq | hq
      · exact hLU q hq hq'
      · have := hG0 q hq
        rw [hU0 q hq'] at this
        cases this
  obtain ⟨s'', e, d1, d2, d3, d4, d5, d6⟩ :=
    destruct_class_spec t c (fuel + ((g.L t c).length + 1)) s (g.G c) (g.L t c) (h.chainG c)
      (h.chainL t c) hnd (by omega)
  rw [destruct_class_fuel t c fuel _ s s' hs] at e
  cases e
  have eown : ∀ q, ((((g.setL t c []).setG c
      ((unused_slots s t c).reverse ++ ((g.L t c).reverse ++ g.G c))).move (g.L t c)
      (some (.glob c))).move (unused_slots s t c) (some (.glob c))).own q =
        if q ∈ unused_slots s t c then some (.glob c)
        else if q ∈ g.L t c then some (.glob c) else g.own q := fun _ => rfl
  have eL : ∀ t' c', ((((g.setL t c []).setG c
      ((unused_slots s t c).reverse ++ ((g.L t c).reverse ++ g.G c))).move (g.L t c)
      (some (.glob c))).move (unused_slots s t c) (some (.glob c))).L t' c' =
        if t' = t ∧ c' = c then [] else g.L t' c' := fun _ _ => rfl
  have eG : ∀ c', ((((g.setL t c []).setG c
      ((unused_slots s t c).reverse ++ ((g.L t c).reverse ++ g.G c))).move (g.L t c)
      (some (.glob c))).move (unused_slots s t c) (some (.glob c))).G c' =
        if c' = c then (unused_slots s t c).reverse ++ ((g.L t c).reverse ++ g.G c)
        else g.G c' := fun _ => rfl
  have hkeep : ∀ q, g.own q = none → q ∉ unused_slots s t c →
      ((((g.setL t c []).setG c
        ((unused_slots s t c).reverse ++ ((g.L t c).reverse ++ g.G c))).move (g.L t c)
        (some (.glob c))).move (unused_slots s t c) (some (.glob c))).own q = none := by
    intro q hq hqU
    have hqL : q ∉ g.L t c := by
      intro hm
      have := hL0 q hm
      rw [hq] at this
      cases this
    rw [eown, if_neg hqU, if_neg hqL]
    exact hq
  have hiff : ∀ (x : Owner) (X : List SlabPtr), x ≠ .loc t c → x ≠ .glob c →
      (∀ q, q ∈ X ↔ g.own q = some x) →
      ∀ q, q ∈ X ↔ ((((g.setL t c []).setG c
        ((unused_slots s t c).reverse ++ ((g.L t c).reverse ++ g.G c))).move (g.L t c)
        (some (.glob c))).move (unused_slots s t c) (some (.glob c))).own q = some x := by
    intro x X hx1 hx2 hX q
    rw [eown]
    by_cases hqU : q ∈ unused_slots s t c
    · rw [if_pos hqU, hX, hU0 q hqU]
      constructor
      · intro e
        cases e
      · intro e
        simp only [Option.some.injEq] at e
        exact absurd e.symm hx2
    · rw [if_neg hqU]
      by_cases hqL : q ∈ g.L t c
      · rw [if_pos hqL, hX, hL0 q hqL]
        constructor
        · intro e
          simp only [Option.some.injEq] at e
          exact absurd e.symm hx1
        · intro e
          simp only [Option.some.injEq] at e
          exact absurd e.symm hx2
      · rw [if_neg hqL]
        exact hX q
  have hnotT : ∀ (x : Owner) (X : List SlabPtr), x ≠ .loc t c →
      (∀ q, q ∈ X ↔ g.own q = some x) → ∀ q, q ∈ X → q ∉ g.L t c ++ unused_slots s t c := by
    intro x X hx1 hX q hq hm
    have hx := (hX q).mp hq
    rcases List.mem_append.mp hm with hm | hm
    · rw [hL0 q hm] at hx
      simp only [Option.some.injEq] at hx
      exact hx1 hx.symm
    · rw [hU0 q hm] at hx
      cases hx
  refine { chainL := ?_, chainG := ?_, nodupL := ?_, nodupG := ?_,
           nodupLive := h.nodupLive, ownLive := ?_, ownL := ?_, ownG := ?_,
           ownU := ?_, freshR := ?_, freshB := ?_, regLt := ?_, regInj := ?_, cursor := ?_,
           count := ?_ }
  · intro t' c'
    rw [eL]
    by_cases hc : t' = t ∧ c' = c
    · obtain ⟨rfl, rfl⟩ := hc
      rw [if_pos ⟨rfl, rfl⟩]
      exact d2
    · rw [if_neg hc, d6 t' c' hc]
      refine d4.chain (h.chainL t' c') (hnotT (.loc t' c') _ ?_ (h.ownL t' c'))
      intro e
      simp only [Owner.loc.injEq] at e
      exact hc e
  · intro c'
    rw [eG]
    by_cases hc : c' = c
    · subst hc
      rw [if_pos rfl]
      exact d1
    · rw [if_neg hc, d5 c' hc]
      exact d4.chain (h.chainG c') (hnotT (.glob c') _ (by simp) (h.ownG c'))
  · intro t' c'
    rw [eL]
    by_cases hc : t' = t ∧ c' = c
    · rw [if_pos hc]
      exact List.nodup_nil
    · rw [if_neg hc]
      exact h.nodupL t' c'
  · intro c'
    rw [eG]
    by_cases hc : c' = c
    · subst hc
      rw [if_pos rfl]
      have hp : ((unused_slots s t c').reverse ++ ((g.L t c').reverse ++ g.G c')).Perm
          (g.L t c' ++ g.G c' ++ unused_slots s t c') := by
        refine (List.perm_append_comm).trans ?_
        exact ((List.reverse_perm _).append_right _).append (List.reverse_perm _)
      exact hp.nodup_iff.mpr hnd
    · rw [if_neg hc]
      exact h.nodupG c'
  · exact hiff .live live (by simp) (by simp) h.ownLive
  · intro t' c'
    rw [eL]
    by_cases hc : t' = t ∧ c' = c
    · obtain ⟨rfl, rfl⟩ := hc
      rw [if_pos ⟨rfl, rfl⟩]
      intro q
      rw [eown]
      constructor
      · intro hq
        cases hq
      · intro hq
        exfalso
        by_cases hqU : q ∈ unused_slots s t' c'
        · rw [if_pos hqU] at hq
          cases hq
        · rw [if_neg hqU] at hq
          by_cases hqL : q ∈ g.L t' c'
          · rw [if_pos hqL] at hq
            cases hq
          · rw [if_neg hqL] at hq
            exact hqL ((h.ownL t' c' q).mpr hq)
    · rw [if_neg hc]
      refine hiff (.loc t' c') _ ?_ (by simp) (h.ownL t' c')
      intro e
      simp only [Owner.loc.injEq] at e
      exact hc e
  · intro c'
    rw [eG]
    by_cases hc : c' = c
    · subst hc
      rw [if_pos rfl]
      intro q
      rw [eown]
      simp only [List.mem_append, List.mem_reverse]
      by_cases hqU : q ∈ unused_slots s t c'
      · simp [hqU]
      · by_cases hqL : q ∈ g.L t c'
        · simp [hqL]
        · simp only [hqU, hqL, false_or, if_false]
          exact h.ownG c' q
    · rw [if_neg hc]
      refine hiff (.glob c') _ (by simp) ?_ (h.ownG c')
      intro e
      simp only [Owner.glob.injEq] at e
      exact hc e
  · intro t' c' q hd' hq
    rw [d4.unused_slots] at hq
    have hdd : ¬ dead t' c' := fun hx => hd' (Or.inl hx)
    have hne : ¬ (t' = t ∧ c' = c) := fun hx => hd' (Or.inr hx)
    refine hkeep q (h.ownU t' c' q hdd hq) ?_
    intro hqU
    obtain ⟨r1, j1, e1, hr1, _, _⟩ := mem_unused_slots.mp hq
    obtain ⟨r2, j2, e2, hr2, _, _⟩ := mem_unused_slots.mp hqU
    rw [e1] at e2
    simp only [SlabPtr.slot.injEq] at e2
    rw [← e2.1] at hr2
    exact hne (h.regInj t' c' t c r1 hr1 hr2)
  · intro r i hr
    rw [d4.regions] at hr
    refine hkeep _ (h.freshR r i hr) ?_
    intro hqU
    obtain ⟨r2, j2, e2, hr2, _, _⟩ := mem_unused_slots.mp hqU
    simp only [SlabPtr.slot.injEq] at e2
    have := h.regLt t c r2 hr2
    omega
  · intro b hb
    rw [d4.blocks] at hb
    refine hkeep _ (h.freshB b hb) ?_
    intro hqU
    obtain ⟨r2, j2, e2, _, _, _⟩ := mem_unused_slots.mp hqU
    cases e2
  · intro t' c' r hr
    rw [d4.cnext] at hr
    rw [d4.regions]
    exact h.regLt t' c' r hr
  · intro t1 c1 t2 c2 r h1 h2
    rw [d4.cnext] at h1 h2
    exact h.regInj t1 c1 t2 c2 r h1 h2
  · exact h.cursor.of_same d4.region d4.cnext
  · intro c'
    rw [eG]
    by_cases hc : c' = c
    · subst hc
      rw [if_pos rfl, d3, h.count c']
      simp only [List.length_append, List.length_reverse]
      rw [Nat.add_assoc, Nat.mod_add_mod]
      congr 1
      omega
    · rw [if_neg hc, d5 c' hc]
      exact h.count c'

/-- A list in memory with a head is not empty in the book. -/
theorem Chain.head_cons {slab : SlabPtr → quill_slab} {p : SlabPtr} {l : List SlabPtr}
    (h : Chain slab (some p) l) : ∃ l', l = p :: l' := by
  cases l with
  | nil => cases h
  | cons q l' =>
    obtain ⟨e, _⟩ := h
    cases e
    exact ⟨l', rfl⟩

/-- Function `quill_alloc_alloc` keeps the book right when the class of the
size is not drained: the pointer it returns becomes live. -/
theorem Ledger.ok_alloc (g : Ledger) (s s' : State) (live : List SlabPtr)
    (dead : Nat → Nat → Prop) (t n : Nat) (p : SlabPtr)
    (h : g.ok s live dead) (hd : ∀ c, size_class_of n = some c → ¬ dead t c)
    (hs : quill_alloc_alloc t n s = .ok (p, s')) :
    ∃ g' : Ledger, g'.ok s' (p :: live) dead := by
  by_cases hn : n > MAX_SLAB_SIZE
  · have hos : ∃ os, s.os = true :: os := by
      by_contra hno
      rw [quill_alloc_alloc_large_refused t n s hn (fun os hos => hno ⟨os, hos⟩)] at hs
      cases hs
    obtain ⟨os, hos⟩ := hos
    rw [quill_alloc_alloc_large t n s os hn hos] at hs
    simp only [Except.ok.injEq, Prod.mk.injEq] at hs
    obtain ⟨rfl, rfl⟩ := hs
    exact ⟨_, Ledger.ok_large g s live dead os h hos⟩
  · have hn' : n ≤ MAX_SLAB_SIZE := by omega
    cases hc : size_class_of n with
    | none => simp [quill_alloc_alloc, hn, hc] at hs
    | some c =>
      have pop : ∀ (g1 : Ledger) (s1 : State) (q : SlabPtr), g1.ok s1 live dead →
          (s1.classes t c).unused_next = some q →
          ∃ g' : Ledger, g'.ok (s1.setUnusedNext t c (s1.slab q).next) (q :: live) dead := by
        intro g1 s1 q h1 hq
        have hch := h1.chainL t c
        rw [hq] at hch
        obtain ⟨l, hl⟩ := hch.head_cons
        exact ⟨_, Ledger.ok_pop g1 s1 live dead t c q l h1 hl⟩
      cases hl : (s.classes t c).unused_next with
      | some q =>
        rw [quill_alloc_alloc_fast t n c s q hn' hc hl] at hs
        simp only [Except.ok.injEq, Prod.mk.injEq] at hs
        obtain ⟨rfl, rfl⟩ := hs
        exact pop g s q h hl
      | none =>
        by_cases hcount : (s.global_unused c).count ≥ G_UNUSED_BATCH_SIZE
        · have h1 := Ledger.ok_pull g s live dead t c h
          cases hl1 : ((fetch_global_unused t c s).classes t c).unused_next with
          | some q =>
            simp only [quill_alloc_alloc, hn, if_false, hc, hl, hcount, if_true, hl1,
              Except.ok.injEq, Prod.mk.injEq] at hs
            obtain ⟨rfl, rfl⟩ := hs
            exact pop _ _ q h1 hl1
          | none =>
            simp only [quill_alloc_alloc, hn, if_false, hc, hl, hcount, if_true, hl1] at hs
            obtain ⟨g', k, _⟩ := Ledger.ok_allocate_slab _ _ s' live dead t c p h1 (hd c hc) hs
            exact ⟨g', k⟩
        · have hlt : (s.global_unused c).count < G_UNUSED_BATCH_SIZE := by omega
          rw [quill_alloc_alloc_bumps t n c s hn' hc hl hlt] at hs
          obtain ⟨g', k, _⟩ := Ledger.ok_allocate_slab g s s' live dead t c p h (hd c hc) hs
          exact ⟨g', k⟩

/-- Function `quill_alloc_free` of a live pointer keeps the book right. -/
theorem Ledger.ok_free (g : Ledger) (s s' : State) (live : List SlabPtr)
    (dead : Nat → Nat → Prop) (t : Nat) (p : SlabPtr)
    (h : g.ok s live dead) (hp : p ∈ live) (hs : quill_alloc_free t p s = .ok s') :
    ∃ g' : Ledger, g'.ok s' (live.erase p) dead := by
  by_cases hno : to_size_t (s.slab p).class_i = to_size_t NO_CLASS
  · cases p with
    | slot r i => simp [quill_alloc_free, hno] at hs
    | block b =>
      by_cases hb : b ∈ s.live
      · simp only [quill_alloc_free, hno, if_true, hb, Except.ok.injEq] at hs
        have k := Ledger.ok_release g s live dead (.block b) (s.live.erase b) h hp
        rw [hs] at k
        exact ⟨_, k⟩
      · simp [quill_alloc_free, hno, hb] at hs
  · by_cases hlt : to_size_t (s.slab p).class_i < CLASS_COUNT
    · simp only [quill_alloc_free, hno, if_false, hlt, if_true, Except.ok.injEq] at hs
      have k := Ledger.ok_push g s live dead t (to_size_t (s.slab p).class_i) p h hp
      rw [hs] at k
      exact ⟨_, k⟩
    · simp [quill_alloc_free, hno, hlt] at hs

/-- The class loop of the teardown of a thread keeps the book right and
drains the classes it visits. -/
theorem Ledger.ok_destruct (t fuel : Nat) (live : List SlabPtr) :
    ∀ (k c0 : Nat) (g : Ledger) (s s' : State) (dead : Nat → Nat → Prop),
      g.ok s live dead → (∀ c, c0 ≤ c → ¬ dead t c) →
      destruct_classes t fuel k c0 s = some s' →
      ∃ g' : Ledger,
        g'.ok s' live (fun t' c' => dead t' c' ∨ (t' = t ∧ c0 ≤ c' ∧ c' < c0 + k))
  | 0, _, g, s, s', dead, h, _, hs => by
    simp only [destruct_classes, Option.some.injEq] at hs
    rw [← hs]
    exact ⟨g, h.weaken (fun _ _ hx => Or.inl hx)⟩
  | k + 1, c0, g, s, s', dead, h, hd, hs => by
    simp only [destruct_classes] at hs
    cases hc : destruct_class t c0 fuel s with
    | none => simp [hc] at hs
    | some s1 =>
      simp only [hc] at hs
      have h1 := Ledger.ok_drain g s s1 live dead t c0 fuel h (hd c0 (Nat.le_refl _)) hc
      obtain ⟨g', h2⟩ := Ledger.ok_destruct t fuel live k (c0 + 1) _ s1 s'
        (fun t' c' => dead t' c' ∨ (t' = t ∧ c' = c0)) h1 (by
          intro c hle hx
          rcases hx with hx | ⟨_, hx⟩
          · exact hd c (by omega) hx
          · omega) hs
      refine ⟨g', h2.weaken ?_⟩
      intro t' c' hx
      rcases hx with (hx | ⟨hx, hx2⟩) | ⟨hx, hx2, hx3⟩
      · exact Or.inl hx
      · exact Or.inr ⟨hx, by omega, by omega⟩
      · exact Or.inr ⟨hx, by omega, by omega⟩

/-- In every run that keeps to the contract there is a right book. -/
theorem Run.ledger {s : State} {live : List SlabPtr} {dead : List (Nat × Nat)}
    (h : Run s live dead) : ∃ g : Ledger, g.ok s live (fun t c => (t, c) ∈ dead) := by
  induction h with
  | init os =>
    exact ⟨_, (Ledger.ok_init os).weaken (fun _ _ hx => hx.elim)⟩
  | alloc t n p _ hd hs ih =>
    obtain ⟨g, hg⟩ := ih
    exact Ledger.ok_alloc g _ _ _ _ t n p hg hd hs
  | bump t c p _ hd hs ih =>
    obtain ⟨g, hg⟩ := ih
    obtain ⟨g', hg', _⟩ := Ledger.ok_allocate_slab g _ _ _ _ t c p hg hd hs
    exact ⟨g', hg'⟩
  | free t p _ hp hs ih =>
    obtain ⟨g, hg⟩ := ih
    exact Ledger.ok_free g _ _ _ _ t p hg hp hs
  | pull t c _ _ ih =>
    obtain ⟨g, hg⟩ := ih
    exact ⟨_, Ledger.ok_pull g _ _ _ t c hg⟩
  | drain t c fuel _ hd hs ih =>
    obtain ⟨g, hg⟩ := ih
    refine ⟨_, (Ledger.ok_drain g _ _ _ _ t c fuel hg hd hs).weaken ?_⟩
    intro t' c' hx
    rcases hx with hx | ⟨hx1, hx2⟩
    · exact List.mem_cons_of_mem _ hx
    · rw [hx1, hx2]
      exact List.mem_cons_self _ _
  | destruct t fuel _ hd hs ih =>
    obtain ⟨g, hg⟩ := ih
    obtain ⟨g', hg'⟩ := Ledger.ok_destruct t fuel _ CLASS_COUNT 0 g _ _ _ hg (fun c _ => hd c) hs
    refine ⟨g', hg'.weaken ?_⟩
    intro t' c' hx
    rcases hx with hx | ⟨hx1, _, hx3⟩
    · exact List.mem_append_right _ hx
    · refine List.mem_append_left _ (List.mem_map.mpr ⟨c', List.mem_range.mpr (by omega), ?_⟩)
      rw [hx1]

/-- C16, amended: after `quill_alloc_init_global` every global pool has count
0 and an empty list.  And in every state reached from there through calls of
`quill_alloc_alloc`, `quill_alloc_free`, `fetch_global_unused` (the spec's
`pull_batch`) and `quill_alloc_destruct_thread` by any threads, every
lock-protected operation and every lock-free part of a call being one step,
in which every free is of a live pointer and no thread allocates from, or
drains again, a class that its teardown has drained, the global free list of
every class is a list in memory of distinct slabs, and the count of the class
is the length of that list modulo `2^64`: the exact length for every list of
fewer than `2^64` slabs. -/
theorem global_count_is_length (s : State) (live : List SlabPtr) (dead : List (Nat × Nat))
    (h : Run s live dead) :
    (∀ os c, (quill_alloc_init_global (State.fresh os)).global_unused c =
        { count := 0, next := none }) ∧
      ∀ c, ∃ G, Chain s.slab (s.global_unused c).next G ∧ G.Nodup ∧
        (s.global_unused c).count = G.length % WORD ∧
        (G.length < WORD → (s.global_unused c).count = G.length) := by
  constructor
  · intro os c
    simp only [quill_alloc_init_global, State.fresh]
    split <;> rfl
  · obtain ⟨g, hg⟩ := h.ledger
    intro c
    refine ⟨g.G c, hg.chainG c, hg.nodupG c, hg.count c, ?_⟩
    intro hlt
    rw [hg.count c, Nat.mod_eq_of_lt hlt]


/-! ## UTF-8 -/

/-- A byte below 128 is stored as it is and decodes as one byte. -/
theorem utf8_lead1 : ∀ b, b < 128 → to_uint8 b = b ∧ b &&& 0x80 = 0x00 ∧ b &&& 0x7F = b := by
  decide

/-- The lead byte of a two-byte sequence. -/
theorem utf8_lead2 : ∀ h, h < 32 →
    to_uint8 (0xC0 ||| h) &&& 0x80 ≠ 0x00 ∧ to_uint8 (0xC0 ||| h) &&& 0xE0 = 0xC0 ∧
      to_uint8 (0xC0 ||| h) &&& 0x1F = h := by
  decide

/-- The lead byte of a three-byte sequence. -/
theorem utf8_lead3 : ∀ h, h < 16 →
    to_uint8 (0xE0 ||| h) &&& 0x80 ≠ 0x00 ∧ to_uint8 (0xE0 ||| h) &&& 0xE0 ≠ 0xC0 ∧
      to_uint8 (0xE0 ||| h) &&& 0xF0 = 0xE0 ∧ to_uint8 (0xE0 ||| h) &&& 0x0F = h := by
  decide

/-- The lead byte of a four-byte sequence. -/
theorem utf8_lead4 : ∀ h, h < 8 →
    to_uint8 (0xF0 ||| h) &&& 0x80 ≠ 0x00 ∧ to_uint8 (0xF0 ||| h) &&& 0xE0 ≠ 0xC0 ∧
      to_uint8 (0xF0 ||| h) &&& 0xF0 ≠ 0xE0 ∧ to_uint8 (0xF0 ||| h) &&& 0xF8 = 0xF0 ∧
      to_uint8 (0xF0 ||| h) &&& 0x07 = h := by
  decide

/-- A continuation byte holds its six bits. -/
theorem utf8_cont : ∀ l, l < 64 → to_uint8 (0x80 ||| l) &&& 0x3F = l := by
  decide

/-- The bits `n .. n + k - 1` of `p`, as `quill_point_encode` takes them. -/
theorem shift_mask (p n k : Nat) : (p >>> n) &&& (2 ^ k - 1) = p / 2 ^ n % 2 ^ k := by
  rw [Nat.and_pow_two_sub_one_eq_mod, Nat.shiftRight_eq_div_pow]

/-- Two groups of bits put together by `quill_point_decode`. -/
theorem or_digits2 (a b : Nat) (hb : b < 64) :
    (0 ||| (a <<< 6)) ||| (b <<< 0) = a * 64 + b := by
  rw [Nat.zero_or, Nat.shiftLeft_eq, Nat.shiftLeft_eq, Nat.pow_zero, Nat.mul_one]
  have h := Nat.mul_add_lt_is_or (show b < 2 ^ 6 from hb) a
  rw [Nat.mul_comm a (2 ^ 6), ← h]

/-- Three groups of bits put together by `quill_point_decode`. -/
theorem or_digits3 (a b c : Nat) (hb : b < 64) (hc : c < 64) :
    ((0 ||| (a <<< 12)) ||| (b <<< 6)) ||| (c <<< 0) = a * 4096 + b * 64 + c := by
  rw [Nat.zero_or, Nat.shiftLeft_eq, Nat.shiftLeft_eq, Nat.shiftLeft_eq, Nat.pow_zero,
    Nat.mul_one]
  have h1 := Nat.mul_add_lt_is_or (show b * 2 ^ 6 < 2 ^ 12 by norm_num; omega) a
  rw [Nat.mul_comm a (2 ^ 12), ← h1]
  have e : 2 ^ 12 * a + b * 2 ^ 6 = 2 ^ 6 * (64 * a + b) := by norm_num; omega
  rw [e, ← Nat.mul_add_lt_is_or (show c < 2 ^ 6 from hc)]
  norm_num
  omega

/-- Four groups of bits put together by `quill_point_decode`. -/
theorem or_digits4 (a b c d : Nat) (hb : b < 64) (hc : c < 64) (hd : d < 64) :
    (((0 ||| (a <<< 18)) ||| (b <<< 12)) ||| (c <<< 6)) ||| (d <<< 0) =
      a * 262144 + b * 4096 + c * 64 + d := by
  rw [Nat.zero_or, Nat.shiftLeft_eq, Nat.shiftLeft_eq, Nat.shiftLeft_eq, Nat.shiftLeft_eq,
    Nat.pow_zero, Nat.mul_one]
  have h1 := Nat.mul_add_lt_is_or (show b * 2 ^ 12 < 2 ^ 18 by norm_num; omega) a
  rw [Nat.mul_comm a (2 ^ 18), ← h1]
  have e1 : 2 ^ 18 * a + b * 2 ^ 12 = 2 ^ 12 * (64 * a + b) := by norm_num; omega
  rw [e1, ← Nat.mul_add_lt_is_or (show c * 2 ^ 6 < 2 ^ 12 by norm_num; omega)]
  have e2 : 2 ^ 12 * (64 * a + b) + c * 2 ^ 6 = 2 ^ 6 * (4096 * a + 64 * b + c) := by
    norm_num
    omega
  rw [e2, ← Nat.mul_add_lt_is_or (show d < 2 ^ 6 from hd)]
  norm_num
  omega

/-- Decoding a one-byte sequence. -/
theorem decode1 (b : Nat) (hb : b < 128) (data : Nat → Nat) (d0 : data 0 = to_uint8 b) :
    quill_point_decode data = .ok b ∧ quill_point_decode_length (data 0) = .ok 1 := by
  obtain ⟨f0, f1, f2⟩ := utf8_lead1 b hb
  rw [f0] at d0
  simp only [quill_point_decode, quill_point_decode_length, d0, f1, if_true, f2,
    Nat.zero_or, Nat.shiftLeft_zero, and_self]

/-- Decoding a two-byte sequence. -/
theorem decode2 (h l : Nat) (hh : h < 32) (hl : l < 64) (data : Nat → Nat)
    (d0 : data 0 = to_uint8 (0xC0 ||| h)) (d1 : data 1 = to_uint8 (0x80 ||| l)) :
    quill_point_decode data = .ok (h * 64 + l) ∧
      quill_point_decode_length (data 0) = .ok 2 := by
  obtain ⟨f1, f2, f3⟩ := utf8_lead2 h hh
  have g1 := utf8_cont l hl
  simp only [quill_point_decode, quill_point_decode_length, d0, d1, f1, if_false, f2, if_true,
    f3, g1, or_digits2 h l hl, and_self]

/-- Decoding a three-byte sequence. -/
theorem decode3 (h m l : Nat) (hh : h < 16) (hm : m < 64) (hl : l < 64) (data : Nat → Nat)
    (d0 : data 0 = to_uint8 (0xE0 ||| h)) (d1 : data 1 = to_uint8 (0x80 ||| m))
    (d2 : data 2 = to_uint8 (0x80 ||| l)) :
    quill_point_decode data = .ok (h * 4096 + m * 64 + l) ∧
      quill_point_decode_length (data 0) = .ok 3 := by
  obtain ⟨f1, f2, f3, f4⟩ := utf8_lead3 h hh
  have g1 := utf8_cont m hm
  have g2 := utf8_cont l hl
  simp only [quill_point_decode, quill_point_decode_length, d0, d1, d2, f1, if_false, f2, f3,
    if_true, f4, g1, g2, or_digits3 h m l hm hl, and_self]

/-- Decoding a four-byte sequence. -/
theorem decode4 (h n m l : Nat) (hh : h < 8) (hn : n < 64) (hm : m < 64) (hl : l < 64)
    (data : Nat → Nat)
    (d0 : data 0 = to_uint8 (0xF0 ||| h)) (d1 : data 1 = to_uint8 (0x80 ||| n))
    (d2 : data 2 = to_uint8 (0x80 ||| m)) (d3 : data 3 = to_uint8 (0x80 ||| l)) :
    quill_point_decode data = .ok (h * 262144 + n * 4096 + m * 64 + l) ∧
      quill_point_decode_length (data 0) = .ok 4 := by
  obtain ⟨f1, f2, f3, f4, f5⟩ := utf8_lead4 h hh
  have g1 := utf8_cont n hn
  have g2 := utf8_cont m hm
  have g3 := utf8_cont l hl
  simp only [quill_point_decode, quill_point_decode_length, d0, d1, d2, d3, f1, if_false, f2,
    f3, f4, if_true, f5, g1, g2, g3, or_digits4 h n m l hn hm hl, and_self]

/-- What `quill_point_encode` returns and writes, by range of the code
point. -/
theorem quill_point_encode_cases (p : Nat) :
    (p ≤ 0x7F → quill_point_encode p = .ok (1, [to_uint8 p])) ∧
      (0x7F < p → p ≤ 0x7FF → quill_point_encode p =
        .ok (2, [to_uint8 (0xC0 ||| ((p >>> 6) &&& 0x1F)),
                 to_uint8 (0x80 ||| ((p >>> 0) &&& 0x3F))])) ∧
      (0x7FF < p → p ≤ 0xFFFF → quill_point_encode p =
        .ok (3, [to_uint8 (0xE0 ||| ((p >>> 12) &&& 0x0F)),
                 to_uint8 (0x80 ||| ((p >>> 6) &&& 0x3F)),
                 to_uint8 (0x80 ||| ((p >>> 0) &&& 0x3F))])) ∧
      (0xFFFF < p → p ≤ 0x10FFFF → quill_point_encode p =
        .ok (4, [to_uint8 (0xF0 ||| ((p >>> 18) &&& 0x07)),
                 to_uint8 (0x80 ||| ((p >>> 12) &&& 0x3F)),
                 to_uint8 (0x80 ||| ((p >>> 6) &&& 0x3F)),
                 to_uint8 (0x80 ||| ((p >>> 0) &&& 0x3F))])) ∧
      (0x10FFFF < p → quill_point_encode p = .error .panic) := by
  refine ⟨?_, ?_, ?_, ?_, ?_⟩
  · intro h1
    simp only [quill_point_encode, h1, if_true]
  · intro h1 h2
    have n1 : ¬ p ≤ 0x7F := by omega
    simp only [quill_point_encode, n1, if_false, h2, if_true]
  · intro h1 h2
    have n1 : ¬ p ≤ 0x7F := by omega
    have n2 : ¬ p ≤ 0x7FF := by omega
    simp only [quill_point_encode, n1, n2, if_false, h2, if_true]
  · intro h1 h2
    have n1 : ¬ p ≤ 0x7F := by omega
    have n2 : ¬ p ≤ 0x7FF := by omega
    have n3 : ¬ p ≤ 0xFFFF := by omega
    simp only [quill_point_encode, n1, n2, n3, if_false, h2, if_true]
  · intro h1
    have n1 : ¬ p ≤ 0x7F := by omega
    have n2 : ¬ p ≤ 0x7FF := by omega
    have n3 : ¬ p ≤ 0xFFFF := by omega
    have n4 : ¬ p ≤ 0x10FFFF := by omega
    simp only [quill_point_encode, n1, n2, n3, n4, if_false]

/-- C23: for every code point `p ≤ 0x10FFFF`, `quill_point_encode(p, dest)`
returns a `k` with `1 ≤ k ≤ 4` and writes exactly `k` bytes;
`quill_point_decode` on memory that starts with these bytes returns `p`; and
`quill_point_decode_length` of the first byte written returns `k`. -/
theorem utf8_round_trip (p : Nat) (h : p ≤ 0x10FFFF) :
    ∃ k bytes, quill_point_encode p = .ok (k, bytes) ∧ 1 ≤ k ∧ k ≤ 4 ∧ bytes.length = k ∧
      (∀ data : Nat → Nat, (∀ i, i < k → data i = bytes.getD i 0) →
        quill_point_decode data = .ok p) ∧
      quill_point_decode_length (bytes.getD 0 0) = .ok k := by
  obtain ⟨e1, e2, e3, e4, _⟩ := quill_point_encode_cases p
  have m6 : (p >>> 0) &&& 0x3F = p % 64 := by
    have := shift_mask p 0 6
    simpa using this
  have m66 : (p >>> 6) &&& 0x3F = p / 64 % 64 := shift_mask p 6 6
  have m126 : (p >>> 12) &&& 0x3F = p / 4096 % 64 := shift_mask p 12 6
  by_cases h1 : p ≤ 0x7F
  · refine ⟨1, _, e1 h1, by decide, by decide, rfl, ?_, ?_⟩
    · intro data hd
      exact (decode1 p (by omega) data (hd 0 (by decide))).1
    · exact (decode1 p (by omega) (fun _ => to_uint8 p) rfl).2
  · by_cases h2 : p ≤ 0x7FF
    · have m5 : (p >>> 6) &&& 0x1F = p / 64 % 32 := shift_mask p 6 5
      have hp : p / 64 % 32 * 64 + p % 64 = p := by omega
      refine ⟨2, _, e2 (by omega) h2, by decide, by decide, rfl, ?_, ?_⟩
      · intro data hd
        have d0 := hd 0 (by decide)
        have d1 := hd 1 (by decide)
        simp only [List.getD_cons_zero, List.getD_cons_succ, m5, m6] at d0 d1
        have := (decode2 (p / 64 % 32) (p % 64) (Nat.mod_lt _ (by decide))
          (Nat.mod_lt _ (by decide)) data d0 d1).1
        rw [hp] at this
        exact this
      · simp only [List.getD_cons_zero, m5]
        exact (decode2 (p / 64 % 32) 0 (Nat.mod_lt _ (by decide)) (by decide)
          (fun i => if i = 0 then to_uint8 (0xC0 ||| p / 64 % 32) else to_uint8 (0x80 ||| 0))
          rfl rfl).2
    · by_cases h3 : p ≤ 0xFFFF
      · have m4 : (p >>> 12) &&& 0x0F = p / 4096 % 16 := shift_mask p 12 4
        have hp : p / 4096 % 16 * 4096 + p / 64 % 64 * 64 + p % 64 = p := by omega
        refine ⟨3, _, e3 (by omega) h3, by decide, by decide, rfl, ?_, ?_⟩
        · intro data hd
          have d0 := hd 0 (by decide)
          have d1 := hd 1 (by decide)
          have d2 := hd 2 (by decide)
          simp only [List.getD_cons_zero, List.getD_cons_succ, m4, m66, m6] at d0 d1 d2
          have := (decode3 (p / 4096 % 16) (p / 64 % 64) (p % 64) (Nat.mod_lt _ (by decide))
            (Nat.mod_lt _ (by decide)) (Nat.mod_lt _ (by decide)) data d0 d1 d2).1
          rw [hp] at this
          exact this
        · simp only [List.getD_cons_zero, m4]
          exact (decode3 (p / 4096 % 16) 0 0 (Nat.mod_lt _ (by decide)) (by decide)
            (by decide)
            (fun i => if i = 0 then to_uint8 (0xE0 ||| p / 4096 % 16)
              else to_uint8 (0x80 ||| 0)) rfl rfl rfl).2
      · have m3 : (p >>> 18) &&& 0x07 = p / 262144 % 8 := shift_mask p 18 3
        have hp : p / 262144 % 8 * 262144 + p / 4096 % 64 * 4096 + p / 64 % 64 * 64 +
            p % 64 = p := by omega
        refine ⟨4, _, e4 (by omega) h, by decide, by decide, rfl, ?_, ?_⟩
        · intro data hd
          have d0 := hd 0 (by decide)
          have d1 := hd 1 (by decide)
          have d2 := hd 2 (by decide)
          have d3 := hd 3 (by decide)
          simp only [List.getD_cons_zero, List.getD_cons_succ, m3, m126, m66, m6]
            at d0 d1 d2 d3
          have := (decode4 (p / 262144 % 8) (p / 4096 % 64) (p / 64 % 64) (p % 64)
            (Nat.mod_lt _ (by decide)) (Nat.mod_lt _ (by decide)) (Nat.mod_lt _ (by decide))
            (Nat.mod_lt _ (by decide)) data d0 d1 d2 d3).1
          rw [hp] at this
          exact this
        · simp only [List.getD_cons_zero, m3]
          exact (decode4 (p / 262144 % 8) 0 0 0 (Nat.mod_lt _ (by decide)) (by decide)
            (by decide) (by decide)
            (fun i => if i = 0 then to_uint8 (0xF0 ||| p / 262144 % 8)
              else to_uint8 (0x80 ||| 0)) rfl rfl rfl rfl).2

/-- What `quill_point_encode_length` returns, by range of the code point. -/
theorem quill_point_encode_length_cases (p : Nat) :
    (p ≤ 0x7F → quill_point_encode_length p = .ok 1) ∧
      (0x7F < p → p ≤ 0x7FF → quill_point_encode_length p = .ok 2) ∧
      (0xD800 ≤ p → p ≤ 0xDFFF → quill_point_encode_length p = .error .panic) ∧
      (0x7FF < p → p ≤ 0xFFFF → ¬ (0xD800 ≤ p ∧ p ≤ 0xDFFF) →
        quill_point_encode_length p = .ok 3) ∧
      (0xFFFF < p → p ≤ 0x10FFFF → quill_point_encode_length p = .ok 4) ∧
      (0x10FFFF < p → quill_point_encode_length p = .error .panic) := by
  refine ⟨?_, ?_, ?_, ?_, ?_, ?_⟩
  · intro h1
    simp only [quill_point_encode_length, h1, if_true]
  · intro h1 h2
    have n1 : ¬ p ≤ 0x7F := by omega
    simp only [quill_point_encode_length, n1, if_false, h2, if_true]
  · intro h1 h2
    have n1 : ¬ p ≤ 0x7F := by omega
    have n2 : ¬ p ≤ 0x7FF := by omega
    have s : p ≥ 0xD800 ∧ p ≤ 0xDFFF := ⟨h1, h2⟩
    simp only [quill_point_encode_length, n1, n2, if_false, if_pos s]
  · intro h1 h2 hs
    have n1 : ¬ p ≤ 0x7F := by omega
    have n2 : ¬ p ≤ 0x7FF := by omega
    have s : ¬ (p ≥ 0xD800 ∧ p ≤ 0xDFFF) := hs
    simp only [quill_point_encode_length, n1, n2, if_false, s, h2, if_true]
  · intro h1 h2
    have n1 : ¬ p ≤ 0x7F := by omega
    have n2 : ¬ p ≤ 0x7FF := by omega
    have n3 : ¬ p ≤ 0xFFFF := by omega
    have s : ¬ (p ≥ 0xD800 ∧ p ≤ 0xDFFF) := by omega
    simp only [quill_point_encode_length, n1, n2, n3, if_false, s, h2, if_true]
  · intro h1
    have n1 : ¬ p ≤ 0x7F := by omega
    have n2 : ¬ p ≤ 0x7FF := by omega
    have n3 : ¬ p ≤ 0xFFFF := by omega
    have n4 : ¬ p ≤ 0x10FFFF := by omega
    have s : ¬ (p ≥ 0xD800 ∧ p ≤ 0xDFFF) := by omega
    simp only [quill_point_encode_length, n1, n2, n3, n4, if_false, s]

/-- On a surrogate code point `quill_point_encode_length` panics, while
`quill_point_encode` writes three bytes and returns 3. -/
theorem encode_surrogate (p : Nat) (h1 : 0xD800 ≤ p) (h2 : p ≤ 0xDFFF) :
    quill_point_encode_length p = .error .panic ∧
      ∃ bytes, quill_point_encode p = .ok (3, bytes) ∧ bytes.length = 3 := by
  obtain ⟨_, _, l3, _, _, _⟩ := quill_point_encode_length_cases p
  obtain ⟨_, _, e3, _, _⟩ := quill_point_encode_cases p
  exact ⟨l3 h1 h2, _, e3 (by omega) (by omega), rfl⟩

/-- On every other code point the two functions agree: both panic, or
`quill_point_encode` writes and returns what `quill_point_encode_length`
returns. -/
theorem encode_agree (p : Nat) (hs : ¬ (0xD800 ≤ p ∧ p ≤ 0xDFFF)) :
    (quill_point_encode_length p = .error .panic ↔ quill_point_encode p = .error .panic) ∧
      ((∃ k, quill_point_encode_length p = .ok k) ↔
        ∃ k bytes, quill_point_encode p = .ok (k, bytes)) ∧
      ∀ k, quill_point_encode_length p = .ok k →
        ∃ bytes, quill_point_encode p = .ok (k, bytes) ∧ bytes.length = k := by
  obtain ⟨l1, l2, _, l4, l5, l6⟩ := quill_point_encode_length_cases p
  obtain ⟨e1, e2, e3, e4, e5⟩ := quill_point_encode_cases p
  by_cases h1 : p ≤ 0x7F
  · rw [l1 h1, e1 h1]
    refine ⟨by simp, by simp, ?_⟩
    intro k hk
    cases hk
    exact ⟨_, rfl, rfl⟩
  · by_cases h2 : p ≤ 0x7FF
    · rw [l2 (by omega) h2, e2 (by omega) h2]
      refine ⟨by simp, by simp, ?_⟩
      intro k hk
      cases hk
      exact ⟨_, rfl, rfl⟩
    · by_cases h3 : p ≤ 0xFFFF
      · rw [l4 (by omega) h3 hs, e3 (by omega) h3]
        refine ⟨by simp, by simp, ?_⟩
        intro k hk
        cases hk
        exact ⟨_, rfl, rfl⟩
      · by_cases h4 : p ≤ 0x10FFFF
        · rw [l5 (by omega) h4, e4 (by omega) h4]
          refine ⟨by simp, by simp, ?_⟩
          intro k hk
          cases hk
          exact ⟨_, rfl, rfl⟩
        · rw [l6 (by omega), e5 (by omega)]
          refine ⟨by simp, by simp, ?_⟩
          intro k hk
          cases hk

/-- When `quill_point_encode_length` returns, `quill_point_encode` writes and
returns as much, surrogate or not. -/
theorem encode_of_length (p k : Nat) (h : quill_point_encode_length p = .ok k) :
    ∃ bytes, quill_point_encode p = .ok (k, bytes) ∧ bytes.length = k := by
  by_cases hs : 0xD800 ≤ p ∧ p ≤ 0xDFFF
  · rw [(encode_surrogate p hs.1 hs.2).1] at h
    cases h
  · exact (encode_agree p hs).2.2 k h

/-- The two loops of `quill_string_from_points` agree: when the first loop
returns the length `n`, the second loop writes exactly the bytes the length
counts and ends with `offset` at `n`. -/
theorem from_points_agree :
    ∀ (points : List Nat) (length_bytes n : Nat) (written : List Nat) (offset : Nat),
      from_points_length points length_bytes = .ok n →
      ∃ bytes, from_points_encode points written offset =
          .ok (bytes, offset + (n - length_bytes)) ∧
        bytes.length = written.length + (n - length_bytes) ∧ length_bytes ≤ n
  | [], length_bytes, n, written, offset, h => by
    simp only [from_points_length, Except.ok.injEq] at h
    subst h
    exact ⟨written, by simp [from_points_encode], by simp, Nat.le_refl _⟩
  | p :: points, length_bytes, n, written, offset, h => by
    cases hk : quill_point_encode_length p with
    | error e => simp [from_points_length, hk] at h
    | ok k =>
      simp only [from_points_length, hk] at h
      obtain ⟨bytes, he, hlen⟩ := encode_of_length p k hk
      obtain ⟨out, ho, hol, hle⟩ :=
        from_points_agree points (length_bytes + k) n (written ++ bytes) (offset + k) h
      refine ⟨out, ?_, ?_, by omega⟩
      · simp only [from_points_encode, he]
        rw [ho]
        congr 2
        omega
      · rw [hol, List.length_append, hlen]
        omega

/-- C24 fails on the code for the surrogate code points: for `0xD800`
`quill_point_encode_length` panics while `quill_point_encode` writes the three
bytes `ED A0 80` and returns 3, and so for every code point of
`0xD800..0xDFFF`.  For every other code point the two functions agree: both
panic or both return, and `quill_point_encode` writes and returns as many
bytes as `quill_point_encode_length` returns.  In `quill_string_from_points`
the length loop runs first, so when it returns the length `n` the encoding
loop writes exactly `n` bytes. -/
theorem encode_length_disagrees :
    quill_point_encode_length 0xD800 = .error .panic ∧
      quill_point_encode 0xD800 = .ok (3, [0xED, 0xA0, 0x80]) ∧
      (∀ p, 0xD800 ≤ p → p ≤ 0xDFFF → p < 2 ^ 32 ∧
        quill_point_encode_length p = .error .panic ∧
        ∃ bytes, quill_point_encode p = .ok (3, bytes) ∧ bytes.length = 3) ∧
      (∀ p, ¬ (0xD800 ≤ p ∧ p ≤ 0xDFFF) →
        (quill_point_encode_length p = .error .panic ↔
          quill_point_encode p = .error .panic) ∧
        ((∃ k, quill_point_encode_length p = .ok k) ↔
          ∃ k bytes, quill_point_encode p = .ok (k, bytes)) ∧
        ∀ k, quill_point_encode_length p = .ok k →
          ∃ bytes, quill_point_encode p = .ok (k, bytes) ∧ bytes.length = k) ∧
      (∀ points n, from_points_length points 0 = .ok n →
        ∃ bytes, from_points_encode points [] 0 = .ok (bytes, n) ∧ bytes.length = n) := by
  refine ⟨rfl, rfl, ?_, encode_agree, ?_⟩
  · intro p h1 h2
    exact ⟨by omega, encode_surrogate p h1 h2⟩
  · intro points n h
    obtain ⟨bytes, he, hl, _⟩ := from_points_agree points 0 n [] 0 h
    refine ⟨bytes, ?_, ?_⟩
    · rw [he]
      simp
    · rw [hl]
      simp


/-! ## The teardown repeated -/

/-- C21 fails on the code.  In a fresh process thread 0 allocates 200 bytes
8177 times (which leaves the state `filled 8177`) and is torn down.  After
the teardown every free list of thread 0 is empty, but region 0 is still the
current region of its class 5 with the cursor at 8177, so the 15 slots
8177..8191, which are now the global list of class 5 (count 15), are still
unused slots of the thread.  An allocation of 200 bytes by thread 0 then
returns slot 8177, which is on the global list of class 5 before and after
the call.  And a second teardown right after the first pushes the same 15
slots again: the count is 30 and slot 8177, the end of the list before, is
linked to slot 8191. -/
theorem teardown_not_idempotent :
    alloc_times 0 200 8177 (quill_alloc_init_global (State.fresh [true, true])) =
        some (filled 8177) ∧
      (∃ r ∈ teardown_then_alloc (filled 8177),
        (∀ c, c < CLASS_COUNT → (r.1.classes 0 c).unused_next = none) ∧
          (r.1.classes 0 5).next = some 0 ∧ (r.1.region 0).next_i = 8177 ∧
          unused_slots r.1 0 5 = region_slots 0 8177 15 ∧
          (r.1.global_unused 5).count = 15 ∧
          Chain r.1.slab (r.1.global_unused 5).next (region_slots 0 8177 15).reverse ∧
          (r.1.slab (.slot 0 8177)).next = none ∧
          r.2.1 = .slot 0 8177 ∧
          r.2.1 ∈ (region_slots 0 8177 15).reverse ∧
          Chain r.2.2.slab (r.2.2.global_unused 5).next (region_slots 0 8177 15).reverse) ∧
      (∃ s ∈ teardown_twice (filled 8177),
        (s.global_unused 5).count = 30 ∧
          (s.global_unused 5).next = some (.slot 0 8191) ∧
          (s.slab (.slot 0 8177)).next = some (.slot 0 8191)) :=
  ⟨alloc_times_fresh_filled 8177 (by decide) (by decide), by decide!, by decide!⟩

/-- C22 fails on the code.  In a fresh process thread 0 allocates 200 bytes
8176 times (which leaves the state `filled 8176`) and is torn down twice, so
that the 16 unused slots of its class-5 region are pushed on the global list
of class 5 twice and the list runs in a circle.  Thread 1 allocates 8 bytes,
which makes region 1 its class-0 region and returns `x`, slot 0 of region 1,
and frees `x`.  It allocates 200 bytes 16 times, which pulls the 16 slots and
hands them out, the last being `p`, slot 8191 of region 0, while the global
list still starts at `p`.  It frees `p`, whose tag is 0, onto its class-0
list, in front of `x`.  Its next allocation of 200 bytes pulls `p` and `x`
from the global list of class 5 and returns `x`: a slab of a region carved for
class 0, whose payload is 8 bytes. -/
theorem capacity_too_small :
    alloc_times 0 200 8176 (quill_alloc_init_global (State.fresh [true, true])) =
        some (filled 8176) ∧
      size_class_of 200 = some 5 ∧ size_class_of 8 = some 0 ∧
      ∃ r ∈ capacity_run (filled 8176),
        r.1 = .slot 1 0 ∧ r.2.1 = .slot 0 8191 ∧ r.2.2.1 = .slot 1 0 ∧
          (r.2.2.2.classes 1 0).next = some 1 ∧
          (r.2.2.2.classes 1 0).slab_content_size = 8 ∧
          (r.2.2.2.classes 1 5).next = none ∧
          (r.2.2.2.classes 1 0).slab_content_size < 200 :=
  ⟨alloc_times_fresh, by decide, by decide, by decide!⟩

/-! ## Instances on the example states -/

/-- Witness of C9: a pull by thread 1 from the three-slab global pool of
`pool_example`. -/
theorem fetch_global_unused_moves_batch_witness :
    Chain (fetch_global_unused 1 0 pool_example).slab
        ((fetch_global_unused 1 0 pool_example).classes 1 0).unused_next
        ((pool_example_global.take
          (min G_UNUSED_BATCH_SIZE pool_example_global.length)).reverse ++ example_local_1) ∧
      Chain (fetch_global_unused 1 0 pool_example).slab
        ((fetch_global_unused 1 0 pool_example).global_unused 0).next
        (pool_example_global.drop (min G_UNUSED_BATCH_SIZE pool_example_global.length)) ∧
      ((fetch_global_unused 1 0 pool_example).global_unused 0).count =
        ((pool_example.global_unused 0).count + WORD -
          min G_UNUSED_BATCH_SIZE pool_example_global.length) % WORD ∧
      (min G_UNUSED_BATCH_SIZE pool_example_global.length ≤
          (pool_example.global_unused 0).count →
        (pool_example.global_unused 0).count < WORD →
        ((fetch_global_unused 1 0 pool_example).global_unused 0).count =
          (pool_example.global_unused 0).count -
            min G_UNUSED_BATCH_SIZE pool_example_global.length) ∧
      (((pool_example_global.take
          (min G_UNUSED_BATCH_SIZE pool_example_global.length)).reverse ++ example_local_1) ++
        pool_example_global.drop (min G_UNUSED_BATCH_SIZE pool_example_global.length)).Perm
        (example_local_1 ++ pool_example_global) ∧
      (((pool_example_global.take
          (min G_UNUSED_BATCH_SIZE pool_example_global.length)).reverse ++ example_local_1) ++
        pool_example_global.drop
          (min G_UNUSED_BATCH_SIZE pool_example_global.length)).Nodup :=
  fetch_global_unused_moves_batch 1 0 pool_example pool_example_global example_local_1
    (by decide) (by decide) (by decide)

/-- Witness of C8: the teardown of thread 0 in `teardown_example`, whose
class 0 has the two free slabs `slot 0 3`, `slot 0 7` and the two unused
slots 8190 and 8191. -/
theorem quill_alloc_destruct_thread_drains_witness :
    ∃ s', quill_alloc_destruct_thread 0 3 teardown_example = some s' ∧
      ∀ i, i < CLASS_COUNT →
        Chain s'.slab (s'.global_unused i).next
          ((unused_slots teardown_example 0 i).reverse ++
            ((teardown_example_local i).reverse ++ teardown_example_global i)) ∧
        (s'.classes 0 i).unused_next = none ∧
        (s'.global_unused i).count =
          ((teardown_example.global_unused i).count + (teardown_example_local i).length +
            (unused_slots teardown_example 0 i).length) % WORD ∧
        ((teardown_example.global_unused i).count + (teardown_example_local i).length +
            (unused_slots teardown_example 0 i).length < WORD →
          (s'.global_unused i).count =
            (teardown_example.global_unused i).count + (teardown_example_local i).length +
              (unused_slots teardown_example 0 i).length) ∧
        (unused_slots teardown_example 0 i).length =
          match (teardown_example.classes 0 i).next with
          | none => 0
          | some r => REGION_SLAB_COUNT - (teardown_example.region r).next_i :=
  quill_alloc_destruct_thread_drains 0 3 teardown_example teardown_example_global
    teardown_example_local (by decide) (by decide) (by decide) (by decide)

/-- Witness of C6 at size 8 on thread 0 of a fresh process. -/
theorem quill_malloc_spec_witness :
    quill_malloc 0 0 (some 1) (State.fresh [true]) = .ok (none, State.fresh [true]) ∧
      (∀ m s', quill_malloc 0 m (some 1) (State.fresh [true]) = .ok (none, s') → m = 0) ∧
      quill_malloc 0 8 (some 1) (State.fresh [true]) =
        (match quill_alloc_alloc 0 (SIZEOF_QUILL_ALLOC + 8) (State.fresh [true]) with
         | .error e => .error e
         | .ok (p, s1) => .ok (some p, s1.setAlloc p { rc := 1, destructor := some 1 })) ∧
      (∀ r s', quill_malloc 0 8 (some 1) (State.fresh [true]) = .ok (r, s') →
        ∃ p, r = some p ∧ (s'.alloc p).rc = 1 ∧ (s'.alloc p).destructor = some 1) ∧
      (∀ os, (State.fresh [true]).os = true :: os →
        ∃ p s', quill_malloc 0 8 (some 1) (State.fresh [true]) = .ok (some p, s')) :=
  quill_malloc_spec 0 8 (some 1) (State.fresh [true]) (by decide) (by decide)

/-- Witness of C4 with two retains and three releases of the allocation of
`malloc_example_state`. -/
theorem rc_retain_release_witness :
    (∀ j, j ≤ 2 → ∃ sj,
        rc_dec_n noop_destructors 0 (some (.slot 0 0)) j
          (rc_add_n (some (.slot 0 0)) 2 malloc_example_state) = (.ok sj, []) ∧
        (sj.alloc (.slot 0 0)).rc = 2 + 1 - j ∧ (sj.alloc (.slot 0 0)).destructor = some 1) ∧
      (rc_dec_n noop_destructors 0 (some (.slot 0 0)) (2 + 1)
        (rc_add_n (some (.slot 0 0)) 2 malloc_example_state)).2 = [(1, .slot 0 0)] :=
  rc_retain_release noop_destructors 0 8 1 (State.fresh [true]) malloc_example_state
    (.slot 0 0) 2 rfl (by decide)

/-- Witness of C10: thread 0 of `teardown_example` is torn down, thread 1
pulls class 0 and allocates three times. -/
theorem drained_slabs_reach_other_thread_witness :
    ∃ s1, quill_alloc_destruct_thread 0 3 teardown_example = some s1 ∧
      Chain s1.slab (s1.global_unused 0).next
        ((unused_slots teardown_example 0 0).reverse ++ (teardown_example_local 0).reverse) ∧
      (s1.global_unused 0).count =
        (teardown_example_local 0).length + (unused_slots teardown_example 0 0).length ∧
      (((unused_slots teardown_example 0 0).reverse ++
          (teardown_example_local 0).reverse).take G_UNUSED_BATCH_SIZE).length =
        min G_UNUSED_BATCH_SIZE
          ((teardown_example_local 0).length + (unused_slots teardown_example 0 0).length) ∧
      Chain (fetch_global_unused 1 0 s1).slab
        ((fetch_global_unused 1 0 s1).classes 1 0).unused_next
        ((((unused_slots teardown_example 0 0).reverse ++
          (teardown_example_local 0).reverse).take G_UNUSED_BATCH_SIZE).reverse
          ++ example_local_1) ∧
      ∃ s3, alloc_seq 1 [8, 1, 5] (fetch_global_unused 1 0 s1) =
          .ok (((((unused_slots teardown_example 0 0).reverse ++
            (teardown_example_local 0).reverse).take
            G_UNUSED_BATCH_SIZE).reverse).take [8, 1, 5].length, s3) ∧
        (∀ p, p ∈ ((((unused_slots teardown_example 0 0).reverse ++
            (teardown_example_local 0).reverse).take
            G_UNUSED_BATCH_SIZE).reverse).take [8, 1, 5].length →
          p ∈ teardown_example_local 0 ++ unused_slots teardown_example 0 0) ∧
        (s3.classes 1 0).next = (teardown_example.classes 1 0).next ∧
        s3.region = teardown_example.region ∧ s3.regions = teardown_example.regions :=
  drained_slabs_reach_other_thread 0 1 3 0 teardown_example teardown_example_local
    example_local_1 [8, 1, 5] (by decide) (by decide) (by decide) (by decide) (by decide)
    (by decide) (by decide) (by decide) (by decide) (by decide)

/-! ## Further instances -/

/-- Witness of C20: a request of 5000 bytes with 4096-byte pages. -/
theorem aligned_size_least_multiple_witness :
    2 ^ 12 ∣ aligned_size 5000 (2 ^ 12) ∧ 5000 ≤ aligned_size 5000 (2 ^ 12) ∧
      (∀ m, 2 ^ 12 ∣ m → 5000 ≤ m → aligned_size 5000 (2 ^ 12) ≤ m) ∧
      (2 ^ 12 ∣ 5000 → aligned_size 5000 (2 ^ 12) = 5000) :=
  aligned_size_least_multiple 5000 12 (by decide) (by decide)

/-- Witness of C12: 1000 bytes allocated by thread 0 of a fresh process and
freed by thread 1. -/
theorem large_round_trip_witness :
    ∃ s1 s2, quill_alloc_alloc 0 1000 (State.fresh [true]) =
        .ok (.block (State.fresh [true]).blocks, s1) ∧
      (s1.slab (.block (State.fresh [true]).blocks)).class_i = NO_CLASS ∧
      to_size_t (s1.slab (.block (State.fresh [true]).blocks)).class_i = WORD - 1 ∧
      to_size_t NO_CLASS = WORD - 1 ∧
      s1.classes = (State.fresh [true]).classes ∧
      s1.global_unused = (State.fresh [true]).global_unused ∧
      s1.region = (State.fresh [true]).region ∧
      (∀ q, (s1.slab q).next = ((State.fresh [true]).slab q).next) ∧
      s1.live = (State.fresh [true]).blocks :: (State.fresh [true]).live ∧
      quill_alloc_free 1 (.block (State.fresh [true]).blocks) s1 = .ok s2 ∧
      s2.classes = (State.fresh [true]).classes ∧
      s2.global_unused = (State.fresh [true]).global_unused ∧
      s2.region = (State.fresh [true]).region ∧ s2.slab = s1.slab ∧
      s2.live = (State.fresh [true]).live ∧
      (∀ hd l, Chain s2.slab hd l ↔ Chain (State.fresh [true]).slab hd l) :=
  large_round_trip 0 1 1000 (State.fresh [true]) [] (by decide) rfl

/-- Witness of C17: the first allocation of 8 bytes in a fresh process, which
has no region yet. -/
theorem bump_path_witness :
    (∀ r, ((State.fresh [true]).classes 0 0).next = some r →
      ((State.fresh [true]).region r).next_i ≠ REGION_SLAB_COUNT →
      ∃ s', quill_alloc_alloc 0 8 (State.fresh [true]) =
          .ok (.slot r ((State.fresh [true]).region r).next_i, s') ∧
        s' = ((State.fresh [true]).setNextI r
          ((((State.fresh [true]).region r).next_i + 1) % WORD)).setTag
          (.slot r ((State.fresh [true]).region r).next_i) ((0 : Nat) : Int) ∧
        (s'.slab (.slot r ((State.fresh [true]).region r).next_i)).class_i = ((0 : Nat) : Int) ∧
        (s'.region r).next_i = (((State.fresh [true]).region r).next_i + 1) % WORD ∧
        (((State.fresh [true]).region r).next_i < REGION_SLAB_COUNT →
          (s'.region r).next_i = ((State.fresh [true]).region r).next_i + 1) ∧
        s'.classes = (State.fresh [true]).classes ∧
        s'.global_unused = (State.fresh [true]).global_unused ∧
        (∀ q, (s'.slab q).next = ((State.fresh [true]).slab q).next)) ∧
    ((∀ r, ((State.fresh [true]).classes 0 0).next = some r →
        ((State.fresh [true]).region r).next_i = REGION_SLAB_COUNT) →
      (∀ os, (State.fresh [true]).os = true :: os →
        ∃ s', quill_alloc_alloc 0 8 (State.fresh [true]) =
            .ok (.slot (State.fresh [true]).regions 0, s') ∧
          (s'.slab (.slot (State.fresh [true]).regions 0)).class_i = ((0 : Nat) : Int) ∧
          (s'.classes 0 0).next = some (State.fresh [true]).regions ∧
          (s'.region (State.fresh [true]).regions).next_i = 1 ∧
          s'.regions = (State.fresh [true]).regions + 1 ∧
          s'.global_unused = (State.fresh [true]).global_unused ∧
          (∀ r i, r ≠ (State.fresh [true]).regions →
            s'.slab (.slot r i) = (State.fresh [true]).slab (.slot r i))) ∧
      ((∀ os, (State.fresh [true]).os ≠ true :: os) →
        quill_alloc_alloc 0 8 (State.fresh [true]) = .error .panic)) :=
  bump_path 0 8 0 (State.fresh [true]) (by decide) (by decide) rfl (by decide)

/-- Witness of C18: thread 0 of `teardown_example`, whose free list of class 0
starts with `slot 0 3`, allocates 8 bytes. -/
theorem fast_path_frame_witness :
    ∃ s', quill_alloc_alloc 0 8 teardown_example = .ok (.slot 0 3, s') ∧
      (s'.classes 0 0).unused_next = (teardown_example.slab (.slot 0 3)).next ∧
      (∀ l, Chain teardown_example.slab (teardown_example.classes 0 0).unused_next
          (.slot 0 3 :: l) →
        Chain s'.slab (s'.classes 0 0).unused_next l) ∧
      (s'.classes 0 0).next = (teardown_example.classes 0 0).next ∧
      (s'.classes 0 0).slab_content_size =
        (teardown_example.classes 0 0).slab_content_size ∧
      (∀ t' i, ¬ (t' = 0 ∧ i = 0) → s'.classes t' i = teardown_example.classes t' i) ∧
      s'.global_unused = teardown_example.global_unused ∧
      s'.region = teardown_example.region ∧ s'.slab = teardown_example.slab ∧
      s'.alloc = teardown_example.alloc ∧ s'.regions = teardown_example.regions ∧
      s'.blocks = teardown_example.blocks ∧
      s'.live = teardown_example.live ∧ s'.os = teardown_example.os :=
  fast_path_frame 0 8 0 teardown_example (.slot 0 3) (by decide) (by decide) rfl

/-- Witness of C19: thread 0 allocates 8 bytes in `stale_example`, where the
count of class 0 reads 20 and the global list holds three slabs. -/
theorem stale_count_pull_witness :
    Chain (fetch_global_unused 0 0 stale_example).slab
        ((fetch_global_unused 0 0 stale_example).classes 0 0).unused_next
        pool_example_global.reverse ∧
      ((fetch_global_unused 0 0 stale_example).global_unused 0).next = none ∧
      ((fetch_global_unused 0 0 stale_example).global_unused 0).count =
        (stale_example.global_unused 0).count - pool_example_global.length ∧
      (∀ g G', pool_example_global = G' ++ [g] →
        ∃ s', quill_alloc_alloc 0 8 stale_example = .ok (g, s') ∧
          Chain s'.slab (s'.classes 0 0).unused_next G'.reverse ∧
          (s'.global_unused 0).next = none ∧
          (s'.global_unused 0).count =
            (stale_example.global_unused 0).count - pool_example_global.length ∧
          s'.region = stale_example.region ∧
          (s'.classes 0 0).next = (stale_example.classes 0 0).next ∧
          s'.regions = stale_example.regions ∧ s'.os = stale_example.os) ∧
      (pool_example_global = [] →
        fetch_global_unused 0 0 stale_example = stale_example ∧
        quill_alloc_alloc 0 8 stale_example = allocate_slab 0 0 stale_example ∧
        (∀ p s', quill_alloc_alloc 0 8 stale_example = .ok (p, s') →
          s'.global_unused = stale_example.global_unused) ∧
        (∀ os, stale_example.os = true :: os →
          ∃ p s', quill_alloc_alloc 0 8 stale_example = .ok (p, s'))) :=
  stale_count_pull 0 8 0 stale_example pool_example_global (by decide) (by decide) rfl
    (by decide) (by decide) (by decide) (by decide) (by decide)

/-- The cursor bound and the bump rule apply to every state right after
initialisation. -/
theorem cursor_bounded_witness :
    (∀ t c r, ((quill_alloc_init_global (State.fresh [true])).classes t c).next = some r →
        ((quill_alloc_init_global (State.fresh [true])).region r).next_i ≤ REGION_SLAB_COUNT) ∧
      ∃ r i s', allocate_slab 0 0 (quill_alloc_init_global (State.fresh [true])) =
          .ok (.slot r i, s') ∧ i < REGION_SLAB_COUNT :=
  ⟨(cursor_bounded _ (Reachable.init [true])).1, by
    obtain ⟨p, s', hs⟩ := allocate_slab_returns 0 0
      (quill_alloc_init_global (State.fresh [true])) [] rfl
    obtain ⟨⟨r, i, hp, hi, _⟩, _⟩ :=
      (cursor_bounded _ (Reachable.init [true])).2 0 0 p s' hs
    exact ⟨r, i, s', by rw [hs, hp], hi⟩⟩

/-- Three concurrent releases of an allocation with count 3 and destructor
number 7, interleaved so that call 1 decrements last: exactly one call
observes 1, and it calls the destructor and then `quill_alloc_free`. -/
theorem rc_dec_exactly_once_witness :
    (∀ i, i < 3 → 3 ≤ [2, 0, 1, 1, 1, 0, 0, 2, 2].count i) ∧
      ∃ i, i < 3 ∧
        observed_one (rc_dec_schedule [2, 0, 1, 1, 1, 0, 0, 2, 2]
          (rc_dec_begin { rc := 3, destructor := some 7 } 3)) = [(i, 1)] ∧
        (rc_dec_schedule [2, 0, 1, 1, 1, 0, 0, 2, 2]
          (rc_dec_begin { rc := 3, destructor := some 7 } 3)).events =
            [.destructor i 7, .free i] :=
  ⟨by decide, by
    have h := rc_dec_exactly_once { rc := 3, destructor := some 7 } 3
      [2, 0, 1, 1, 1, 0, 0, 2, 2] (by decide) rfl (by decide)
    obtain ⟨i, hi, hone, _, _, hd⟩ := h.2.2 (h.2.1 (by decide))
    exact ⟨i, hi, hone, hd 7 rfl⟩⟩

/-- The count and the global list of class 5 after thread 0 has allocated
200 bytes in a fresh process and has been torn down: a run that keeps to the
contract. -/
theorem global_count_is_length_witness :
    ∃ s, quill_alloc_destruct_thread 0 1 (filled 1) = some s ∧
      Run s [.slot 0 0] ((List.range CLASS_COUNT).map (fun c => (0, c)) ++ []) ∧
      ∃ G, Chain s.slab (s.global_unused 5).next G ∧ G.Nodup ∧
        (s.global_unused 5).count = G.length % WORD ∧
        (G.length < WORD → (s.global_unused 5).count = G.length) := by
  obtain ⟨s, hs⟩ := Option.isSome_iff_exists.mp
    (show (quill_alloc_destruct_thread 0 1 (filled 1)).isSome = true by decide!)
  have hrun : Run s [.slot 0 0] ((List.range CLASS_COUNT).map (fun c => (0, c)) ++ []) :=
    Run.destruct 0 1
      (Run.alloc 0 200 _ (Run.init [true, true]) (fun _ _ => List.not_mem_nil _)
        first_alloc_filled)
      (fun _ => List.not_mem_nil _) hs
  exact ⟨s, hs, hrun, (global_count_is_length s _ _ hrun).2 5⟩


/-- The round trip of the euro sign `U+20AC`, a three-byte code point. -/
theorem utf8_round_trip_witness :
    0x20AC ≤ 0x10FFFF ∧
      ∃ k bytes, quill_point_encode 0x20AC = .ok (k, bytes) ∧ 1 ≤ k ∧ k ≤ 4 ∧
        bytes.length = k ∧
        (∀ data : Nat → Nat, (∀ i, i < k → data i = bytes.getD i 0) →
          quill_point_decode data = .ok 0x20AC) ∧
        quill_point_decode_length (bytes.getD 0 0) = .ok k :=
  ⟨by decide, utf8_round_trip 0x20AC (by decide)⟩

end Quill
